import Mathlib

set_option linter.unusedSectionVars false
set_option linter.unusedVariables false

/-!
# Dynamic occupancy NDT grid map (cslibs_ndt_2d) : embedding and properties

Shallow embedding of `cslibs_ndt_2d::dynamic_maps::OccupancyGridmap`
(`occupancy_gridmap.hpp`).

Conventions of the embedding.

* `double` is idealised as an arbitrary linear ordered field `K` with a floor
  function; rounding is not modelled.  Concrete evaluations use `ℚ`.
* `int` indices are mathematical integers; the initial extent uses the
  32-bit limits of the source.
* A pointer into a storey (`distribution_t*`) is modelled by `Option index_t`:
  `none` is the null pointer, `some i` points to the cell stored at index `i`
  of the storey the handle belongs to.
* `const` member functions that mutate `mutable` members return the new map.
* Library code outside the repository (log-odds conversion, Gaussian
  evaluation, Euclidean norm, the Bresenham iterator) is taken as a parameter
  (`Externals`).
* A single call is sequential; for the locking discipline a call is also
  translated into its run of lock, unlock and access events in program order.
  Interleavings of threads are not modelled.
-/

namespace cslibs_ndt_2d

/-! ## Index arithmetic -/

/-- Index type `std::array<int, 2>` of bundles and storey cells. -/
abbrev index_t := Int × Int

/-- Modelled from the spec: `cslibs_math::common::div<int>` (header `cslibs_math/common/div.hpp`,
not part of the sources); the spec describes it as the floor of the quotient. -/
def div (a b : Int) : Int := Int.fdiv a b

/-- Modelled from the spec: `cslibs_math::common::mod<int>` (header `cslibs_math/common/mod.hpp`,
not part of the sources); the spec describes it as the remainder in `{0, 1}` for modulus 2,
i.e. the remainder of the floor division. -/
def mod (a b : Int) : Int := Int.fmod a b

/-- Modelled from the spec: the overload of `std::min` for `std::array` that the included
header `cslibs_math/common/array.hpp` (not part of the sources) supplies: the componentwise
minimum, which is how the spec describes the tracked extent (a monotone widening, with
`min_index ≤ bi` componentwise). -/
def std_min (a b : index_t) : index_t := (min a.1 b.1, min a.2 b.2)

/-- Modelled from the spec: the overload of `std::max` for `std::array` of the same header:
the componentwise maximum. -/
def std_max (a b : index_t) : index_t := (max a.1 b.1, max a.2 b.2)

/-- Value of `std::numeric_limits<int>::max()`. -/
def INT_MAX : Int := 2147483647

/-- Value of `std::numeric_limits<int>::min()`. -/
def INT_MIN : Int := -2147483648

/-! ## Geometry -/

/-- Planar point `cslibs_math_2d::Point2d`. -/
structure Point2d (K : Type) where
  x : K
  y : K

/-- Difference of two points (`operator-`). -/
def Point2d.sub {K : Type} [LinearOrderedField K] (a b : Point2d K) : Point2d K :=
  ⟨a.x - b.x, a.y - b.y⟩

/-- Modelled from the spec: rigid planar transform `cslibs_math_2d::Transform2d`
(translation plus rotation); the rotation is kept as the pair `cos yaw`, `sin yaw`. -/
structure Transform2d (K : Type) where
  tx : K
  ty : K
  cos : K
  sin : K

/-- Application `T * p`: rotate, then translate. -/
def Transform2d.apply {K : Type} [LinearOrderedField K] (T : Transform2d K) (p : Point2d K) :
    Point2d K :=
  ⟨T.cos * p.x - T.sin * p.y + T.tx, T.sin * p.x + T.cos * p.y + T.ty⟩

/-- Inverse transform `T.inverse()`. -/
def Transform2d.inverse {K : Type} [LinearOrderedField K] (T : Transform2d K) : Transform2d K :=
  ⟨-(T.cos * T.tx + T.sin * T.ty), -(-T.sin * T.tx + T.cos * T.ty), T.cos, -T.sin⟩

/-! ## Cells -/

/-- Modelled from the spec: statistics cell `cslibs_math::statistics::Distribution<2, 3>`:
count `N`, sum `S` and sum of outer products `C` (row major `cxx cxy cyx cyy`). -/
structure Distribution (K : Type) where
  n : Nat
  sum : Point2d K
  cxx : K
  cxy : K
  cyx : K
  cyy : K

/-- Modelled from the spec: the zero statistics cell. -/
def Distribution.zero {K : Type} [LinearOrderedField K] : Distribution K :=
  ⟨0, ⟨0, 0⟩, 0, 0, 0, 0⟩

/-- Modelled from the spec: `add(p)`: N←N+1; S←S+p; C←C+p pᵀ. -/
def Distribution.add {K : Type} [LinearOrderedField K] (d : Distribution K) (p : Point2d K) :
    Distribution K :=
  ⟨d.n + 1, ⟨d.sum.x + p.x, d.sum.y + p.y⟩,
    d.cxx + p.x * p.x, d.cxy + p.x * p.y, d.cyx + p.y * p.x, d.cyy + p.y * p.y⟩

/-- Modelled from the spec: occupancy cell `cslibs_ndt::OccupancyDistribution<2>`
(header `cslibs_ndt/common/occupancy_distribution.hpp`, not part of the sources):
free count, occupied count and a statistics cell.  `getDistribution()` is used by the
map as a nullable pointer; it is null until the first `updateOccupied`. -/
structure OccupancyDistribution (K : Type) where
  num_free_ : Nat
  num_occupied_ : Nat
  distribution_ : Option (Distribution K)

namespace OccupancyDistribution

variable {K : Type} [LinearOrderedField K]

/-- Modelled from the spec: a cell is created in the zero state (`distribution_t()`). -/
def zero : OccupancyDistribution K := ⟨0, 0, none⟩

/-- Modelled from the spec: `updateFree()` increments F. -/
def updateFree (c : OccupancyDistribution K) : OccupancyDistribution K :=
  { c with num_free_ := c.num_free_ + 1 }

/-- Modelled from the spec: `updateOccupied(p)` increments O and adds p to the statistics
cell. -/
def updateOccupied (c : OccupancyDistribution K) (p : Point2d K) : OccupancyDistribution K :=
  { c with
    num_occupied_ := c.num_occupied_ + 1
    distribution_ := some ((c.distribution_.getD Distribution.zero).add p) }

end OccupancyDistribution

/-! ## Sparse storage -/

/-- Sparse index→value storage `cis::Storage<T, index_t, KDTree>`. -/
abbrev Storage (α : Type) := index_t → Option α

/-- Lookup `s->get(i)`: the stored value, or null. -/
def Storage.get {α : Type} (s : Storage α) (i : index_t) : Option α := s i

/-- Insertion `s->insert(i, v)` at an index. -/
def Storage.insert {α : Type} (s : Storage α) (i : index_t) (v : α) : Storage α :=
  fun j => if j = i then some v else s j

/-- Bundle `cslibs_ndt::Bundle<distribution_t*, 4>`: four nullable handles, handle `k`
pointing into storey `k`. -/
abbrev distribution_bundle_t := Fin 4 → Option index_t

/-- Array literal of four entries. -/
def array4 {α : Type} (a0 a1 a2 a3 : α) : Fin 4 → α :=
  fun k => match k with
    | 0 => a0
    | 1 => a1
    | 2 => a2
    | 3 => a3

/-! ## The map -/

/-- Inverse sensor model `cslibs_gridmaps::utility::InverseModel` (three getters). -/
structure InverseModel (K : Type) where
  getLogOddsFree : K
  getLogOddsOccupied : K
  getLogOddsPrior : K

/-- State of `OccupancyGridmap`: the private members of the class.  The two mutexes carry no
state here; which of them a call holds at each access is modelled in the section on
locking. -/
structure OccupancyGridmap (K : Type) where
  resolution_ : K
  resolution_inv_ : K
  bundle_resolution_ : K
  bundle_resolution_inv_ : K
  bundle_resolution_2_ : K
  w_T_m_ : Transform2d K
  m_T_w_ : Transform2d K
  min_index_ : index_t
  max_index_ : index_t
  storage_ : Fin 4 → Storage (OccupancyDistribution K)
  bundle_storage_ : Storage distribution_bundle_t

namespace OccupancyGridmap

variable {K : Type} [LinearOrderedField K] [FloorRing K]

/-- Constructor `OccupancyGridmap(origin, resolution)`. -/
def new (origin : Transform2d K) (resolution : K) : OccupancyGridmap K where
  resolution_ := resolution
  resolution_inv_ := 1 / resolution
  bundle_resolution_ := (1 / 2) * resolution
  bundle_resolution_inv_ := 1 / ((1 / 2) * resolution)
  bundle_resolution_2_ := (1 / 4) * ((1 / 2) * resolution) * ((1 / 2) * resolution)
  w_T_m_ := origin
  m_T_w_ := origin.inverse
  min_index_ := (INT_MAX, INT_MAX)
  max_index_ := (INT_MIN, INT_MIN)
  storage_ := fun _ => fun _ => none
  bundle_storage_ := fun _ => none

/-- Member `updateIndices(bi)`: `std::min` / `std::max` of the index arrays. -/
def updateIndices (m : OccupancyGridmap K) (bi : index_t) : OccupancyGridmap K :=
  { m with
    min_index_ := std_min m.min_index_ bi
    max_index_ := std_max m.max_index_ bi }

/-- Member `getAllocate(s, i)` on one storey: the cell at `i`, inserted in the zero state
when missing; returns the handle and the storey. -/
def getAllocateDistribution (s : Storage (OccupancyDistribution K)) (i : index_t) :
    Option index_t × Storage (OccupancyDistribution K) :=
  match s.get i with
  | some _ => (some i, s)
  | none => (some i, s.insert i OccupancyDistribution.zero)

/-- The lambda `allocate_bundle` of `getAllocate(bi)`. -/
def allocate_bundle (m : OccupancyGridmap K) (bi : index_t) :
    distribution_bundle_t × OccupancyGridmap K :=
  let divx := div bi.1 2
  let divy := div bi.2 2
  let modx := mod bi.1 2
  let mody := mod bi.2 2
  let storage_0_index : index_t := (divx, divy)
  let storage_1_index : index_t := (divx + modx, divy)
  let storage_2_index : index_t := (divx, divy + mody)
  let storage_3_index : index_t := (divx + modx, divy + mody)
  let r0 := getAllocateDistribution (m.storage_ 0) storage_0_index
  let r1 := getAllocateDistribution (m.storage_ 1) storage_1_index
  let r2 := getAllocateDistribution (m.storage_ 2) storage_2_index
  let r3 := getAllocateDistribution (m.storage_ 3) storage_3_index
  let b : distribution_bundle_t := array4 r0.1 r1.1 r2.1 r3.1
  let m1 : OccupancyGridmap K := { m with storage_ := array4 r0.2 r1.2 r2.2 r3.2 }
  let m2 := updateIndices m1 bi
  (b, { m2 with bundle_storage_ := m2.bundle_storage_.insert bi b })

/-- Member `getAllocate(bi)`: the cached bundle, or a freshly allocated one.  The returned
pointer is never null; the pointee is returned. -/
def getAllocate (m : OccupancyGridmap K) (bi : index_t) :
    distribution_bundle_t × OccupancyGridmap K :=
  match m.bundle_storage_.get bi with
  | some bundle => (bundle, m)
  | none => allocate_bundle m bi

/-- Member `getDistributionBundle(bi)`. -/
def getDistributionBundle (m : OccupancyGridmap K) (bi : index_t) :
    distribution_bundle_t × OccupancyGridmap K :=
  getAllocate m bi

/-- Modification in place of the cell a handle points to (`h->f()`).  Dereferencing a null
or dangling handle is undefined in the source; the model leaves the storey unchanged. -/
def modifyAt (s : Storage (OccupancyDistribution K)) (h : Option index_t)
    (f : OccupancyDistribution K → OccupancyDistribution K) : Storage (OccupancyDistribution K) :=
  match h with
  | none => s
  | some i => fun j => if j = i then (s j).map f else s j

/-- The cell a handle of storey `k` points to (`*h`), `none` for a null handle. -/
def deref (m : OccupancyGridmap K) (k : Fin 4) (h : Option index_t) :
    Option (OccupancyDistribution K) :=
  match h with
  | none => none
  | some i => (m.storage_ k).get i

/-- Call `bundle->at(k)->f()`: apply a cell update through handle `k` of a bundle. -/
def updateAt (m : OccupancyGridmap K) (bundle : distribution_bundle_t) (k : Fin 4)
    (f : OccupancyDistribution K → OccupancyDistribution K) : OccupancyGridmap K :=
  { m with storage_ := Function.update m.storage_ k (modifyAt (m.storage_ k) (bundle k) f) }

/-- Member `updateFree(bi)`. -/
def updateFree (m : OccupancyGridmap K) (bi : index_t) : OccupancyGridmap K :=
  let r := getAllocate m bi
  let bundle := r.1
  let m0 := updateAt r.2 bundle 0 OccupancyDistribution.updateFree
  let m1 := updateAt m0 bundle 1 OccupancyDistribution.updateFree
  let m2 := updateAt m1 bundle 2 OccupancyDistribution.updateFree
  updateAt m2 bundle 3 OccupancyDistribution.updateFree

/-- Member `updateOccupied(bi, p)`. -/
def updateOccupied (m : OccupancyGridmap K) (bi : index_t) (p : Point2d K) :
    OccupancyGridmap K :=
  let r := getAllocate m bi
  let bundle := r.1
  let m0 := updateAt r.2 bundle 0 (fun c => c.updateOccupied p)
  let m1 := updateAt m0 bundle 1 (fun c => c.updateOccupied p)
  let m2 := updateAt m1 bundle 2 (fun c => c.updateOccupied p)
  updateAt m2 bundle 3 (fun c => c.updateOccupied p)

/-- Member `toBundleIndex(p_w)`: transform into the map frame, scale, floor. -/
def toBundleIndex (m : OccupancyGridmap K) (p_w : Point2d K) : index_t :=
  let p_m := m.m_T_w_.apply p_w
  (Int.floor (p_m.x * m.bundle_resolution_inv_), Int.floor (p_m.y * m.bundle_resolution_inv_))

end OccupancyGridmap

/-- One state of the line iterator while `done()` is false: `x()`, `y()`, `distance2()`. -/
structure Visit (K : Type) where
  x : Int
  y : Int
  distance2 : K

/-- Library functions used by the map whose code is outside the repository.
`Bresenham start end` is the run of `line_iterator_t it(start, end)`: the successive
iterator states for which `done()` is false, in the order `++it` produces them. -/
structure Externals (K : Type) where
  LogOdds_from : K → K
  sample : Distribution K → Point2d K → K
  sampleNonNormalized : Distribution K → Point2d K → K
  length : Point2d K → K
  Bresenham : index_t → index_t → List (Visit K)

namespace OccupancyGridmap

variable {K : Type} [LinearOrderedField K] [FloorRing K]

/-- The loop `while (!it.done()) { ...; ++it; }` of `add`. -/
def addLoop (end_p : Point2d K) : List (Visit K) → OccupancyGridmap K → OccupancyGridmap K
  | [], m => m
  | it :: rest, m =>
    let bi : index_t := (it.x, it.y)
    addLoop end_p rest
      (if it.distance2 > m.bundle_resolution_2_ then updateFree m bi
       else updateOccupied m bi end_p)

/-- Member `add(start_p, end_p)`. -/
def add (E : Externals K) (m : OccupancyGridmap K) (start_p end_p : Point2d K) :
    OccupancyGridmap K :=
  let start_index := toBundleIndex m start_p
  let end_index := toBundleIndex m end_p
  let it := E.Bresenham start_index end_index
  updateOccupied (addLoop end_p it m) end_index end_p

/-- The lambda `occupancy` of `getRange`, `sample` and `sampleNonNormalized`, applied to the
cell a handle points to (`none` for a null handle). -/
def occupancy (E : Externals K) (inverse_model : InverseModel K)
    (d : Option (OccupancyDistribution K)) : K :=
  match d with
  | some c =>
    match c.distribution_ with
    | some _ =>
      E.LogOdds_from ((c.num_free_ : K) * inverse_model.getLogOddsFree +
          (c.num_occupied_ : K) * inverse_model.getLogOddsOccupied)
        - inverse_model.getLogOddsPrior
    | none => 0
  | none => 0

/-- The lambda `occupied` of `getRange`. -/
def occupied (E : Externals K) (inverse_model : InverseModel K) (occupied_threshold : K)
    (m : OccupancyGridmap K) (bi : index_t) : Bool × OccupancyGridmap K :=
  let r := getAllocate m bi
  let bundle := r.1
  (true && decide ((1 / 4) * (occupancy E inverse_model (deref r.2 0 (bundle 0)) +
                    occupancy E inverse_model (deref r.2 1 (bundle 1)) +
                    occupancy E inverse_model (deref r.2 2 (bundle 2)) +
                    occupancy E inverse_model (deref r.2 3 (bundle 3))) ≥ occupied_threshold),
   r.2)

/-- The loop `while (!it.done()) { if (occupied(...)) return ...; ++it; }` of `getRange`
followed by the final `return`. -/
def getRangeLoop (E : Externals K) (inverse_model : InverseModel K) (occupied_threshold : K)
    (start_p end_p : Point2d K) :
    List (Visit K) → OccupancyGridmap K → K × OccupancyGridmap K
  | [], m => (E.length (start_p.sub end_p), m)
  | it :: rest, m =>
    let r := occupied E inverse_model occupied_threshold m (it.x, it.y)
    if r.1 then
      (E.length (start_p.sub ⟨(it.x : K) * m.bundle_resolution_, (it.y : K) * m.bundle_resolution_⟩),
       r.2)
    else getRangeLoop E inverse_model occupied_threshold start_p end_p rest r.2

/-- Member `getRange(start_p, end_p, inverse_model, occupied_threshold)`. -/
def getRange (E : Externals K) (m : OccupancyGridmap K) (start_p end_p : Point2d K)
    (inverse_model : InverseModel K) (occupied_threshold : K) : K × OccupancyGridmap K :=
  let start_index : index_t :=
    (Int.floor (start_p.x * m.bundle_resolution_inv_),
     Int.floor (start_p.y * m.bundle_resolution_inv_))
  let end_index : index_t :=
    (Int.floor (end_p.x * m.bundle_resolution_inv_),
     Int.floor (end_p.y * m.bundle_resolution_inv_))
  let it := E.Bresenham start_index end_index
  getRangeLoop E inverse_model occupied_threshold start_p end_p it m

/-- Member `sample(p, bi, inverse_model)`. -/
def sampleAt (E : Externals K) (m : OccupancyGridmap K) (p : Point2d K) (bi : index_t)
    (inverse_model : InverseModel K) : K × OccupancyGridmap K :=
  let r := getAllocate m bi
  let bundle := r.1
  let sample := fun (d : Option (OccupancyDistribution K)) =>
    match d with
    | some c =>
      match c.distribution_ with
      | some dist => E.sample dist p * occupancy E inverse_model d
      | none => 0
    | none => 0
  ((1 / 4) * (sample (deref r.2 0 (bundle 0)) +
              sample (deref r.2 1 (bundle 1)) +
              sample (deref r.2 2 (bundle 2)) +
              sample (deref r.2 3 (bundle 3))), r.2)

/-- Member `sample(p, inverse_model)`. -/
def sample (E : Externals K) (m : OccupancyGridmap K) (p : Point2d K)
    (inverse_model : InverseModel K) : K × OccupancyGridmap K :=
  let bi := toBundleIndex m p
  sampleAt E m p bi inverse_model

/-- Member `sampleNonNormalized(p, bi, inverse_model)`. -/
def sampleNonNormalizedAt (E : Externals K) (m : OccupancyGridmap K) (p : Point2d K)
    (bi : index_t) (inverse_model : InverseModel K) : K × OccupancyGridmap K :=
  let r := getAllocate m bi
  let bundle := r.1
  let sampleNonNormalized := fun (d : Option (OccupancyDistribution K)) =>
    match d with
    | some c =>
      match c.distribution_ with
      | some dist => E.sampleNonNormalized dist p * occupancy E inverse_model d
      | none => 0
    | none => 0
  ((1 / 4) * (sampleNonNormalized (deref r.2 0 (bundle 0)) +
              sampleNonNormalized (deref r.2 1 (bundle 1)) +
              sampleNonNormalized (deref r.2 2 (bundle 2)) +
              sampleNonNormalized (deref r.2 3 (bundle 3))), r.2)

/-- Member `sampleNonNormalized(p, inverse_model)`. -/
def sampleNonNormalized (E : Externals K) (m : OccupancyGridmap K) (p : Point2d K)
    (inverse_model : InverseModel K) : K × OccupancyGridmap K :=
  let bi := toBundleIndex m p
  sampleNonNormalizedAt E m p bi inverse_model

/-- Wrap-around of 32-bit `int` arithmetic (signed overflow is undefined in the source; the
usual two's-complement result is taken). -/
def wrap_int (z : Int) : Int := (z + 2147483648) % 4294967296 - 2147483648

/-- Member `getMin()`. -/
def getMin (m : OccupancyGridmap K) : Point2d K :=
  ⟨(m.min_index_.1 : K) * m.bundle_resolution_, (m.min_index_.2 : K) * m.bundle_resolution_⟩

/-- Member `getMax()`. -/
def getMax (m : OccupancyGridmap K) : Point2d K :=
  ⟨((wrap_int (m.max_index_.1 + 1) : Int) : K) * m.bundle_resolution_,
   ((wrap_int (m.max_index_.2 + 1) : Int) : K) * m.bundle_resolution_⟩

/-- Member `getInitialOrigin()`. -/
def getInitialOrigin (m : OccupancyGridmap K) : Transform2d K := m.w_T_m_

/-- The index expression of `getRange` for its start and end point: scale and floor, without
the transform into the map frame. -/
def getRangeIndex (m : OccupancyGridmap K) (p : Point2d K) : index_t :=
  (Int.floor (p.x * m.bundle_resolution_inv_), Int.floor (p.y * m.bundle_resolution_inv_))

/-- Member `getMinDistributionIndex()`. -/
def getMinDistributionIndex (m : OccupancyGridmap K) : index_t := m.min_index_

/-- Member `getMaxDistributionIndex()`. -/
def getMaxDistributionIndex (m : OccupancyGridmap K) : index_t := m.max_index_

/-- Member `getBundleResolution()`. -/
def getBundleResolution (m : OccupancyGridmap K) : K := m.bundle_resolution_

/-- Member `getResolution()`. -/
def getResolution (m : OccupancyGridmap K) : K := m.resolution_

/-- Member `getHeight()`: `(max_index_[1] - min_index_[1] + 1) * bundle_resolution_`, the
index arithmetic in `int`. -/
def getHeight (m : OccupancyGridmap K) : K :=
  ((wrap_int (wrap_int (m.max_index_.2 - m.min_index_.2) + 1) : Int) : K) * m.bundle_resolution_

/-- Member `getWidth()`: `(max_index_[0] - min_index_[0] + 1) * bundle_resolution_`, the
index arithmetic in `int`. -/
def getWidth (m : OccupancyGridmap K) : K :=
  ((wrap_int (wrap_int (m.max_index_.1 - m.min_index_.1) + 1) : Int) : K) * m.bundle_resolution_

/-- Member `getOrigin()`: the initial origin with its translation replaced by `getMin()`. -/
def getOrigin (m : OccupancyGridmap K) : Transform2d K :=
  { m.w_T_m_ with tx := (getMin m).x, ty := (getMin m).y }

end OccupancyGridmap

/-! ## Locking -/

/-- The two mutexes of the map. -/
inductive Mutex where
  | storage_mutex_
  | bundle_storage_mutex_
deriving DecidableEq

/-- What a call does with the mutexes and the shared members they are meant to guard, in
program order: taking and releasing a mutex, `bundle_storage_->get(bi)`,
`bundle_storage_->insert(bi, b)`, `updateIndices(bi)`, `s->get(i)` and `s->insert(i, ...)` on
storey `k`, and reading `min_index_` or `max_index_`. -/
inductive Access where
  | lock (mu : Mutex)
  | unlock (mu : Mutex)
  | bundle_storage_get (bi : index_t)
  | bundle_storage_insert (bi : index_t)
  | updateIndices (bi : index_t)
  | storage_get (k : Fin 4) (i : index_t)
  | storage_insert (k : Fin 4) (i : index_t)
  | read_min_index
  | read_max_index
deriving DecidableEq

/-- The two ways to read the statement `lock_t(bundle_storage_mutex_);`, which names no lock
object: as the declaration of a local, default-constructed `lock_t` called
`bundle_storage_mutex_`, which locks nothing, or as a temporary lock object, which is destroyed
at the end of the statement. -/
inductive UnnamedLock where
  | declaration
  | temporary

/-- The statement `lock_t(mu);` under either reading. -/
def unnamedLock (r : UnnamedLock) (mu : Mutex) : List Access :=
  match r with
  | .declaration => []
  | .temporary => [Access.lock mu, Access.unlock mu]

/-- The statement `lock_t l(mu);` followed by the rest of its scope: the lock is held until
the scope ends. -/
def scopedLock (mu : Mutex) (body : List Access) : List Access :=
  [Access.lock mu] ++ body ++ [Access.unlock mu]

/-- The access is to the bundle cache or widens the extent. -/
def Access.isBundleAccess : Access → Bool
  | .bundle_storage_get _ => true
  | .bundle_storage_insert _ => true
  | .updateIndices _ => true
  | _ => false

/-- The access is a cell lookup or insertion in a storey. -/
def Access.isStoreyAccess : Access → Bool
  | .storage_get _ _ => true
  | .storage_insert _ _ => true
  | _ => false

/-- Whether the calling thread holds `mu` after an access, given whether it held it before. -/
def heldAfter (mu : Mutex) (held : Bool) : Access → Bool
  | .lock x => if x = mu then true else held
  | .unlock x => if x = mu then false else held
  | _ => held

/-- Each access of a run paired with whether the calling thread holds `mu` when it happens. -/
def heldAt (mu : Mutex) : Bool → List Access → List (Access × Bool)
  | _, [] => []
  | held, a :: rest => (a, held) :: heldAt mu (heldAfter mu held a) rest

namespace OccupancyGridmap

variable {K : Type} [LinearOrderedField K] [FloorRing K]

/-- Accesses of `getAllocate(s, i)` on storey `k`: `lock_t l(storage_mutex_);`, the lookup,
and the insertion when the cell is missing. -/
def getAllocateDistribution_accesses (s : Storage (OccupancyDistribution K)) (k : Fin 4)
    (i : index_t) : List Access :=
  scopedLock Mutex.storage_mutex_
    (match s.get i with
     | some _ => [Access.storage_get k i]
     | none => [Access.storage_get k i, Access.storage_insert k i])

/-- Accesses of the lambda `allocate_bundle`: the four storey calls, the statement
`lock_t(bundle_storage_mutex_);`, `updateIndices(bi)` and the insertion into the cache. -/
def allocate_bundle_accesses (r : UnnamedLock) (m : OccupancyGridmap K) (bi : index_t) :
    List Access :=
  let divx := div bi.1 2
  let divy := div bi.2 2
  let modx := mod bi.1 2
  let mody := mod bi.2 2
  getAllocateDistribution_accesses (m.storage_ 0) 0 (divx, divy) ++
  getAllocateDistribution_accesses (m.storage_ 1) 1 (divx + modx, divy) ++
  getAllocateDistribution_accesses (m.storage_ 2) 2 (divx, divy + mody) ++
  getAllocateDistribution_accesses (m.storage_ 3) 3 (divx + modx, divy + mody) ++
  unnamedLock r Mutex.bundle_storage_mutex_ ++
  [Access.updateIndices bi, Access.bundle_storage_insert bi]

/-- Accesses of `getAllocate(bi)`: the block `{ lock_t(bundle_storage_mutex_); bundle =
bundle_storage_->get(bi); }`, then `allocate_bundle()` when the lookup returned null. -/
def getAllocate_accesses (r : UnnamedLock) (m : OccupancyGridmap K) (bi : index_t) :
    List Access :=
  unnamedLock r Mutex.bundle_storage_mutex_ ++ [Access.bundle_storage_get bi] ++
  (match m.bundle_storage_.get bi with
   | some _ => []
   | none => allocate_bundle_accesses r m bi)

/-- Accesses of `getMin()`: `lock_t l(bundle_storage_mutex_);` and the read of `min_index_`. -/
def getMin_accesses : List Access :=
  scopedLock Mutex.bundle_storage_mutex_ [Access.read_min_index]

/-- Accesses of `getMax()`: `lock_t l(bundle_storage_mutex_);` and the read of `max_index_`. -/
def getMax_accesses : List Access :=
  scopedLock Mutex.bundle_storage_mutex_ [Access.read_max_index]

/-- Accesses of `getMinDistributionIndex()`: `lock_t l(storage_mutex_);` and the read of
`min_index_`. -/
def getMinDistributionIndex_accesses : List Access :=
  scopedLock Mutex.storage_mutex_ [Access.read_min_index]

/-- Accesses of `getMaxDistributionIndex()`: `lock_t l(storage_mutex_);` and the read of
`max_index_`. -/
def getMaxDistributionIndex_accesses : List Access :=
  scopedLock Mutex.storage_mutex_ [Access.read_max_index]

end OccupancyGridmap

/-! ## Sequences of public operations -/

/-- A call of a public member function that can change the map. -/
inductive Op (K : Type) where
  | getDistributionBundle (bi : index_t)
  | add (start_p end_p : Point2d K)
  | getRange (start_p end_p : Point2d K) (inverse_model : InverseModel K)
      (occupied_threshold : K)
  | sample (p : Point2d K) (inverse_model : InverseModel K)
  | sampleAt (p : Point2d K) (bi : index_t) (inverse_model : InverseModel K)
  | sampleNonNormalized (p : Point2d K) (inverse_model : InverseModel K)
  | sampleNonNormalizedAt (p : Point2d K) (bi : index_t) (inverse_model : InverseModel K)

namespace OccupancyGridmap

variable {K : Type} [LinearOrderedField K] [FloorRing K]

/-- The map after one public call. -/
def step (E : Externals K) (m : OccupancyGridmap K) : Op K → OccupancyGridmap K
  | .getDistributionBundle bi => (getDistributionBundle m bi).2
  | .add start_p end_p => add E m start_p end_p
  | .getRange start_p end_p inverse_model occupied_threshold =>
    (getRange E m start_p end_p inverse_model occupied_threshold).2
  | .sample p inverse_model => (sample E m p inverse_model).2
  | .sampleAt p bi inverse_model => (sampleAt E m p bi inverse_model).2
  | .sampleNonNormalized p inverse_model => (sampleNonNormalized E m p inverse_model).2
  | .sampleNonNormalizedAt p bi inverse_model =>
    (sampleNonNormalizedAt E m p bi inverse_model).2

/-- The map after a sequence of public calls. -/
def run (E : Externals K) (m : OccupancyGridmap K) (ops : List (Op K)) : OccupancyGridmap K :=
  ops.foldl (step E) m

/-- States reachable from a freshly constructed map by public calls. -/
def Reachable (E : Externals K) (m : OccupancyGridmap K) : Prop :=
  ∃ (origin : Transform2d K) (resolution : K) (ops : List (Op K)),
    m = run E (new origin resolution) ops

end OccupancyGridmap

/-! ## Dual numbers -/

/-- Modelled from the spec: dual number `ceres::Jet<T, N>` of the optimizer toolkit, a scalar
part `a` carrying `N` partial derivatives `v`; its arithmetic propagates derivatives exactly
and a constant lifted from a real has derivative zero. -/
structure Jet (K : Type) (N : Nat) where
  a : K
  v : Fin N → K

namespace Jet

variable {K : Type} [LinearOrderedField K] {N : Nat}

/-- Modelled from the spec: constructor `JetT(c)` from a scalar, derivative part zero. -/
def const (c : K) : Jet K N := ⟨c, fun _ => 0⟩

/-- Modelled from the spec: sum of dual numbers. -/
def add (f g : Jet K N) : Jet K N := ⟨f.a + g.a, fun i => f.v i + g.v i⟩

/-- Modelled from the spec: difference of dual numbers. -/
def sub (f g : Jet K N) : Jet K N := ⟨f.a - g.a, fun i => f.v i - g.v i⟩

/-- Modelled from the spec: negation of a dual number. -/
def neg (f : Jet K N) : Jet K N := ⟨-f.a, fun i => -f.v i⟩

/-- Modelled from the spec: product of dual numbers (product rule on the derivative part). -/
def mul (f g : Jet K N) : Jet K N := ⟨f.a * g.a, fun i => f.a * g.v i + f.v i * g.a⟩

/-- Modelled from the spec: `ceres::exp` on a dual number, for the scalar exponential `e`
(chain rule on the derivative part). -/
def exp (e : K → K) (f : Jet K N) : Jet K N := ⟨e f.a, fun i => e f.a * f.v i⟩

instance : Add (Jet K N) := ⟨Jet.add⟩

instance : Sub (Jet K N) := ⟨Jet.sub⟩

instance : Neg (Jet K N) := ⟨Jet.neg⟩

instance : Mul (Jet K N) := ⟨Jet.mul⟩

end Jet

/-! ## Scan-matching cost functors, DIRECT mode -/

/-- Library functions used by the cost functors whose code is outside the repository: the
scalar exponential, the log-odds conversion, and of the statistics cell `valid()`,
`getMean()` and `getInformationMatrix()`. -/
structure CostExternals (K : Type) where
  exp : K → K
  LogOdds_from : K → K
  valid : Distribution K → Bool
  getMean : Distribution K → Point2d K
  getInformationMatrix : Distribution K → Fin 2 → Fin 2 → K

/-- Modelled from the spec: `OccupancyDistribution::getOccupancy(M)` (header
`cslibs_ndt/common/occupancy_distribution.hpp`, not part of the sources): posterior
probability `sigmoid(F·ℓf + O·ℓo − ℓp)`, returned as 0 when the statistics cell is invalid. -/
def OccupancyDistribution.getOccupancy {K : Type} [LinearOrderedField K] (X : CostExternals K)
    (c : OccupancyDistribution K) (inverse_model : InverseModel K) : K :=
  match c.distribution_ with
  | some d =>
    if X.valid d then
      X.LogOdds_from ((c.num_free_ : K) * inverse_model.getLogOddsFree +
        (c.num_occupied_ : K) * inverse_model.getLogOddsOccupied - inverse_model.getLogOddsPrior)
    else 0
  | none => 0

/-- Modelled from the spec: read-only lookup `get(bi)` of the map class the functor is
instantiated with (`cslibs_ndt::map::Map`, header `cslibs_ndt/map/map.hpp`, not part of the
sources; its state is modelled by the bundle grid): the pointer to the bundle at `bi`, null
when no bundle is allocated there.  A bundle pointer is modelled by the index the bundle is
stored at. -/
def OccupancyGridmap.get {K : Type} (m : OccupancyGridmap K) (bi : index_t) : Option index_t :=
  if (m.bundle_storage_.get bi).isSome then some bi else none

/-- The bundle a bundle pointer points to (`*bundle`), `none` for a null pointer. -/
def OccupancyGridmap.bundleAt {K : Type} (m : OccupancyGridmap K) (bundle : Option index_t) :
    Option distribution_bundle_t :=
  match bundle with
  | none => none
  | some bi => m.bundle_storage_.get bi

/-- State of `ScanMatchCostFunctor<Map<..., OccupancyDistribution, ...>, DIRECT>`: the inverse
model `ivm_` and the mutable bundle cache `cache_` (`none`: no entry for the index).  The
map reference `map_` is passed to each call. -/
structure ScanMatchCostFunctor (K : Type) where
  ivm_ : InverseModel K
  cache_ : index_t → Option (Option index_t)

namespace ScanMatchCostFunctor

variable {K : Type} [LinearOrderedField K] [FloorRing K] {N : Nat}

/-- Member `transform(p, tf, p_prime)` for dimension 2: `p_prime = rot * p + trans` with
`rot << c, -s, s, c`.  `ceres::cos(JetT(tf.yaw()))` and `ceres::sin(JetT(tf.yaw()))` are the
constant dual numbers of the cosine and sine of the yaw. -/
def transform (p : Point2d (Jet K N)) (tf : Transform2d K) : Point2d (Jet K N) :=
  let c : Jet K N := Jet.const tf.cos
  let s : Jet K N := Jet.const tf.sin
  ⟨c * p.x + (-s) * p.y + Jet.const tf.tx, s * p.x + c * p.y + Jet.const tf.ty⟩

/-- Member `getBundle(pt)`: the cached pointer for the bundle index of `pt`, else the
result of `map_.get(bi)`, which is then cached. -/
def getBundle (map_ : OccupancyGridmap K) (f : ScanMatchCostFunctor K) (pt : Point2d K) :
    Option index_t × ScanMatchCostFunctor K :=
  let bi := map_.toBundleIndex pt
  match f.cache_ bi with
  | some bundle => (bundle, f)
  | none =>
    let bundle := map_.get bi
    (bundle, { f with cache_ := fun j => if j = bi then some bundle else f.cache_ j })

/-- The lambda `sample` of `Evaluate`: mean and information matrix lifted to constant dual
numbers, `exponent = -JetT(0.5) * diff.transpose() * inf * diff`, result `ceres::exp`. -/
def sample (X : CostExternals K) (p_prime : Point2d (Jet K N)) (di : Distribution K) :
    Jet K N :=
  let mean_tmp := X.getMean di
  let inf_tmp := X.getInformationMatrix di
  let mean : Point2d (Jet K N) := ⟨Jet.const mean_tmp.x, Jet.const mean_tmp.y⟩
  let inf : Fin 2 → Fin 2 → Jet K N := fun x y => Jet.const (inf_tmp x y)
  let diff : Point2d (Jet K N) := ⟨p_prime.x - mean.x, p_prime.y - mean.y⟩
  let h : Jet K N := -Jet.const (1 / 2)
  let r0 := h * diff.x * inf 0 0 + h * diff.y * inf 1 0
  let r1 := h * diff.x * inf 0 1 + h * diff.y * inf 1 1
  let exponent := r0 * diff.x + r1 * diff.y
  Jet.exp X.exp exponent

/-- Body of the loop `for (i = 0; i < bin_count; ++i)` of `Evaluate` on dual numbers, with
`div_count = 1/4`. -/
def EvaluateStep (X : CostExternals K) (map_ : OccupancyGridmap K) (ivm_ : InverseModel K)
    (bundle : distribution_bundle_t) (p_prime : Point2d (Jet K N)) (retval : Jet K N)
    (i : Fin 4) : Jet K N :=
  match map_.deref i (bundle i) with
  | none => retval
  | some bi =>
    match bi.distribution_ with
    | none => retval
    | some di =>
      if !X.valid di then retval
      else retval - Jet.const (1 / 4) * Jet.const (bi.getOccupancy X ivm_) * sample X p_prime di

/-- Member `Evaluate(q, value)` on dual numbers (`JetT`), `bin_count = 4`.  The query `q`
holds `_D` dual numbers; components beyond the map dimension 2 are ignored and missing ones
are zero. -/
def Evaluate (X : CostExternals K) (map_ : OccupancyGridmap K) (f : ScanMatchCostFunctor K)
    (q : List (Jet K N)) : Jet K N × ScanMatchCostFunctor K :=
  let p : Point2d (Jet K N) := ⟨q.getD 0 (Jet.const 0), q.getD 1 (Jet.const 0)⟩
  let pt : Point2d K := ⟨(q.getD 0 (Jet.const 0)).a, (q.getD 1 (Jet.const 0)).a⟩
  let r := getBundle map_ f pt
  let origin_inv := map_.getInitialOrigin.inverse
  let p_prime := transform p origin_inv
  let retval : Jet K N := Jet.const 1
  match map_.bundleAt r.1 with
  | none => (retval, r.2)
  | some bundle =>
    ([0, 1, 2, 3].foldl (EvaluateStep X map_ f.ivm_ bundle p_prime) retval, r.2)

end ScanMatchCostFunctor

/-- One event in the life of a cost functor and the map it refers to: a call `getBundle(pt)`
of the functor, or a public call on the map. -/
inductive FunctorOp (K : Type) where
  | getBundle (pt : Point2d K)
  | map (op : Op K)

namespace ScanMatchCostFunctor

variable {K : Type} [LinearOrderedField K] [FloorRing K]

/-- The map and the functor after one event. -/
def stepBoth (E : Externals K) (s : OccupancyGridmap K × ScanMatchCostFunctor K) :
    FunctorOp K → OccupancyGridmap K × ScanMatchCostFunctor K
  | .getBundle pt => (s.1, (getBundle s.1 s.2 pt).2)
  | .map op => (OccupancyGridmap.step E s.1 op, s.2)

/-- The map and the functor after a sequence of events. -/
def runBoth (E : Externals K) (s : OccupancyGridmap K × ScanMatchCostFunctor K)
    (ops : List (FunctorOp K)) : OccupancyGridmap K × ScanMatchCostFunctor K :=
  ops.foldl (stepBoth E) s

/-- Every cache entry of the functor is null or the pointer to a bundle the map holds. -/
def CacheSound (m : OccupancyGridmap K) (f : ScanMatchCostFunctor K) : Prop :=
  ∀ (bi : index_t) (r : Option index_t), f.cache_ bi = some r → r = none ∨ r = m.get bi

/-- Every cache entry of the functor is what `map_.get` returns now. -/
def CacheExact (m : OccupancyGridmap K) (f : ScanMatchCostFunctor K) : Prop :=
  ∀ (bi : index_t) (r : Option index_t), f.cache_ bi = some r → r = m.get bi

end ScanMatchCostFunctor

/-- Bundle of the map of plain statistics cells (`cslibs_ndt::Distribution`), as the cost
functor of `gridmap_cost_functor.hpp` reads it: four nullable cell handles, each with a
nullable statistics cell. -/
abbrev plain_bundle_t (K : Type) := Fin 4 → Option (Option (Distribution K))

namespace GridmapCostFunctor

variable {K : Type} [LinearOrderedField K] {N : Nat}

/-- Body of the loop `for (i = 0; i < bin_count; ++i)` of `Evaluate` on dual numbers for the
map of plain statistics cells, with `div_count = 1/4`. -/
def EvaluateStep (X : CostExternals K) (bundle : plain_bundle_t K) (p : Point2d (Jet K N))
    (retval : Jet K N) (i : Fin 4) : Jet K N :=
  match bundle i with
  | none => retval
  | some bi =>
    match bi with
    | none => retval
    | some di =>
      if !X.valid di then retval
      else retval - Jet.const (1 / 4) * ScanMatchCostFunctor.sample X p di

/-- Member `Evaluate(q, value)` on dual numbers of
`ScanMatchCostFunctor<Map<..., Distribution, ...>, DIRECT>`.  The lookup `map_.get(pt)` of
the map class, which is not part of the sources, is the parameter `get`. -/
def Evaluate (X : CostExternals K) (get : Point2d K → Option (plain_bundle_t K))
    (q : List (Jet K N)) : Jet K N :=
  let p : Point2d (Jet K N) := ⟨q.getD 0 (Jet.const 0), q.getD 1 (Jet.const 0)⟩
  let pt : Point2d K := ⟨(q.getD 0 (Jet.const 0)).a, (q.getD 1 (Jet.const 0)).a⟩
  let bundle := get pt
  let retval : Jet K N := Jet.const 1
  match bundle with
  | none => retval
  | some bundle => [0, 1, 2, 3].foldl (EvaluateStep X bundle p) retval

end GridmapCostFunctor

/-! ## Scan-matching cost functors, INTERPOLATION mode -/

/-- State of `ScanMatchCostFunctor<Map<..., OccupancyDistribution, ...>, INTERPOLATION>`: the
inverse model `ivm_` and the sampling resolution `sampling_resolution_`.  The map's member
`sampleNonNormalized(p, ivm)` (class `cslibs_ndt::map::Map`, not part of the sources) and the
member `Evaluate` of the interpolator `interpolator_` (`ceres::BiCubicInterpolator` of the
optimizer toolkit, which reads the grid through `GetValue`) are passed to each call. -/
structure InterpolationCostFunctor (K : Type) where
  ivm_ : InverseModel K
  sampling_resolution_ : K

namespace InterpolationCostFunctor

variable {K : Type} [LinearOrderedField K]

/-- Member `GetValue(row, column, value)`. -/
def GetValue (map_sampleNonNormalized : Point2d K → InverseModel K → K)
    (f : InterpolationCostFunctor K) (row column : Int) : K :=
  1 - map_sampleNonNormalized
        ⟨(row : K) * f.sampling_resolution_, (column : K) * f.sampling_resolution_⟩ f.ivm_

/-- Member `Evaluate(q, value)`: the interpolator evaluated at
`(q(0) / sampling_resolution_, q(1) / sampling_resolution_)`. -/
def Evaluate (interpolator_Evaluate : (Int → Int → K) → K → K → K)
    (map_sampleNonNormalized : Point2d K → InverseModel K → K)
    (f : InterpolationCostFunctor K) (q : Point2d K) : K :=
  interpolator_Evaluate (GetValue map_sampleNonNormalized f)
    (q.x / f.sampling_resolution_) (q.y / f.sampling_resolution_)

end InterpolationCostFunctor

/-- State of `ScanMatchCostFunctor<Map<..., Distribution, ...>, INTERPOLATION>`
(`gridmap_cost_functor.hpp`): the sampling resolution. -/
structure GridmapInterpolationCostFunctor (K : Type) where
  sampling_resolution_ : K

namespace GridmapInterpolationCostFunctor

variable {K : Type} [LinearOrderedField K]

/-- Member `GetValue(row, column, value)` for the map of plain statistics cells. -/
def GetValue (map_sampleNonNormalized : Point2d K → K)
    (f : GridmapInterpolationCostFunctor K) (row column : Int) : K :=
  1 - map_sampleNonNormalized
        ⟨(row : K) * f.sampling_resolution_, (column : K) * f.sampling_resolution_⟩

/-- Member `Evaluate(q, value)` for the map of plain statistics cells. -/
def Evaluate (interpolator_Evaluate : (Int → Int → K) → K → K → K)
    (map_sampleNonNormalized : Point2d K → K)
    (f : GridmapInterpolationCostFunctor K) (q : Point2d K) : K :=
  interpolator_Evaluate (GetValue map_sampleNonNormalized f)
    (q.x / f.sampling_resolution_) (q.y / f.sampling_resolution_)

end GridmapInterpolationCostFunctor

/-- Modelled from the spec: the persisted tuple `(N, S, C, F, O)` of an allocated storey cell
(the storey id and the index are the keys it is stored under); a cell without statistics is
persisted with `N = 0` and zero sums. -/
structure CellRecord (K : Type) where
  N : Nat
  S : Point2d K
  cxx : K
  cxy : K
  cyx : K
  cyy : K
  F : Nat
  O : Nat

/-- Modelled from the spec: the persisted form of a map (the serialization code,
`cslibs_ndt_2d/serialization/dynamic_maps`, is not part of the sources): resolution, initial
origin, min and max bundle index, and for every allocated storey cell its tuple.  The bundle
cache is not persisted. -/
structure PersistedMap (K : Type) where
  resolution : K
  origin : Transform2d K
  min_index : index_t
  max_index : index_t
  cells : Fin 4 → index_t → Option (CellRecord K)

/-- Modelled from the spec: the tuple persisted for a cell. -/
def CellRecord.ofCell {K : Type} [LinearOrderedField K] (c : OccupancyDistribution K) :
    CellRecord K :=
  match c.distribution_ with
  | some d => ⟨d.n, d.sum, d.cxx, d.cxy, d.cyx, d.cyy, c.num_free_, c.num_occupied_⟩
  | none => ⟨0, ⟨0, 0⟩, 0, 0, 0, 0, c.num_free_, c.num_occupied_⟩

/-- Modelled from the spec: the cell rebuilt from a persisted tuple; `N = 0` gives a cell
without statistics. -/
def CellRecord.toCell {K : Type} (t : CellRecord K) : OccupancyDistribution K :=
  ⟨t.F, t.O, if t.N = 0 then none else some ⟨t.N, t.S, t.cxx, t.cxy, t.cyx, t.cyy⟩⟩

namespace OccupancyGridmap

variable {K : Type} [LinearOrderedField K] [FloorRing K]

/-- Modelled from the spec: serialization of a map into its persisted form. -/
def serialize (m : OccupancyGridmap K) : PersistedMap K where
  resolution := m.getResolution
  origin := m.getInitialOrigin
  min_index := m.getMinDistributionIndex
  max_index := m.getMaxDistributionIndex
  cells := fun k j => ((m.storage_ k).get j).map CellRecord.ofCell

/-- Modelled from the spec: deserialization: a map constructed from the persisted resolution
and origin, with the persisted extent and storey cells; the bundle cache starts empty and is
rebuilt lazily from the storeys. -/
def deserialize (P : PersistedMap K) : OccupancyGridmap K :=
  { new P.origin P.resolution with
    min_index_ := P.min_index
    max_index_ := P.max_index
    storage_ := fun k j => (P.cells k j).map CellRecord.toCell }

end OccupancyGridmap

/-! ## Auxiliary notions used in the statements -/

/-- The statistics of a cell, read as the zero statistics while the cell has none. -/
def OccupancyDistribution.stats {K : Type} [LinearOrderedField K] (c : OccupancyDistribution K) :
    Distribution K :=
  c.distribution_.getD Distribution.zero

/-- The statistics `d` after the point `p` was added `n` times, in closed form:
`N + n`, `S + n·p`, `C + n·p pᵀ`. -/
def Distribution.addTimes {K : Type} [LinearOrderedField K] (d : Distribution K) (p : Point2d K)
    (n : Nat) : Distribution K :=
  ⟨d.n + n, ⟨d.sum.x + (n : K) * p.x, d.sum.y + (n : K) * p.y⟩,
    d.cxx + (n : K) * (p.x * p.x), d.cxy + (n : K) * (p.x * p.y),
    d.cyx + (n : K) * (p.y * p.x), d.cyy + (n : K) * (p.y * p.y)⟩

/-- The four storey indices of a bundle index, as laid out by `allocate_bundle`. -/
def staggered (bi : index_t) : Fin 4 → index_t :=
  array4 (div bi.1 2, div bi.2 2) (div bi.1 2 + mod bi.1 2, div bi.2 2)
    (div bi.1 2, div bi.2 2 + mod bi.2 2) (div bi.1 2 + mod bi.1 2, div bi.2 2 + mod bi.2 2)

namespace OccupancyGridmap

variable {K : Type} [LinearOrderedField K] [FloorRing K]

/-- Invariant I1: every cached bundle holds the four staggered handles and the cells they
point to exist. -/
def BundlesValid (m : OccupancyGridmap K) : Prop :=
  ∀ (bi : index_t) (b : distribution_bundle_t), m.bundle_storage_.get bi = some b →
    ∀ k : Fin 4, b k = some (staggered bi k) ∧ ((m.storage_ k).get (staggered bi k)).isSome = true

/-- The four handle updates of `updateFree` / `updateOccupied` in sequence. -/
def updateAll (m : OccupancyGridmap K) (b : distribution_bundle_t)
    (f : OccupancyDistribution K → OccupancyDistribution K) : OccupancyGridmap K :=
  updateAt (updateAt (updateAt (updateAt m b 0 f) b 1 f) b 2 f) b 3 f

/-- The bundle index `bi` lies in the rectangle `[min_index_, max_index_]`. -/
def InExtent (m : OccupancyGridmap K) (bi : index_t) : Prop :=
  m.min_index_.1 ≤ bi.1 ∧ bi.1 ≤ m.max_index_.1 ∧ m.min_index_.2 ≤ bi.2 ∧ bi.2 ≤ m.max_index_.2

/-- The bundle index `bi` has a bundle in the bundle cache. -/
def Allocated (m : OccupancyGridmap K) (bi : index_t) : Prop :=
  (m.bundle_storage_.get bi).isSome = true

instance (m : OccupancyGridmap K) (bi : index_t) : Decidable (InExtent m bi) :=
  inferInstanceAs (Decidable (_ ∧ _ ∧ _ ∧ _))

instance (m : OccupancyGridmap K) (bi : index_t) : Decidable (Allocated m bi) :=
  inferInstanceAs (Decidable (_ = true))

/-- Every allocated bundle index lies in the tracked extent. -/
def ExtentValid (m : OccupancyGridmap K) : Prop :=
  ∀ bi : index_t, Allocated m bi → InExtent m bi

/-- Four-cell average occupancy of the bundle at `bi`, read from the four staggered storey
cells (a missing cell counts as a null handle): the quantity `occupied` compares with the
threshold. -/
def averageOccupancy (E : Externals K) (inverse_model : InverseModel K)
    (m : OccupancyGridmap K) (bi : index_t) : K :=
  (1 / 4) * (occupancy E inverse_model ((m.storage_ 0).get (staggered bi 0)) +
             occupancy E inverse_model ((m.storage_ 1).get (staggered bi 1)) +
             occupancy E inverse_model ((m.storage_ 2).get (staggered bi 2)) +
             occupancy E inverse_model ((m.storage_ 3).get (staggered bi 3)))

/-- The cell of storey `k` at index `j`, read as the zero state when it is not allocated. -/
def cellOf (m : OccupancyGridmap K) (k : Fin 4) (j : index_t) : OccupancyDistribution K :=
  ((m.storage_ k).get j).getD OccupancyDistribution.zero

/-- The members of the map that are declared `const`. -/
def consts (m : OccupancyGridmap K) : K × K × K × K × K × Transform2d K × Transform2d K :=
  (m.resolution_, m.resolution_inv_, m.bundle_resolution_, m.bundle_resolution_inv_,
    m.bundle_resolution_2_, m.w_T_m_, m.m_T_w_)

/-- The lambdas `sample` and `sampleNonNormalized` of the two sampling members, as a function
of the cell a handle points to; `g` is the Gaussian evaluation the lambda calls
(`Distribution::sample` or `Distribution::sampleNonNormalized`). -/
def mixtureTerm (g : Distribution K → Point2d K → K) (E : Externals K)
    (inverse_model : InverseModel K) (p : Point2d K) (d : Option (OccupancyDistribution K)) : K :=
  match d with
  | some c =>
    match c.distribution_ with
    | some dist => g dist p * occupancy E inverse_model d
    | none => 0
  | none => 0

/-- Occupancy of a cell as the spec words it: `sigmoid(F·ℓf + O·ℓo − ℓp)`. -/
def occupancy_spec (E : Externals K) (inverse_model : InverseModel K)
    (c : OccupancyDistribution K) : K :=
  E.LogOdds_from ((c.num_free_ : K) * inverse_model.getLogOddsFree +
    (c.num_occupied_ : K) * inverse_model.getLogOddsOccupied - inverse_model.getLogOddsPrior)

/-- One summand of the mixture as the spec words it: `occ(ck, M) · N(p; μk, Σk)`, with `g`
the Gaussian evaluation (with or without the prefactor); `0` for a cell without statistics. -/
def mixtureTerm_spec (g : Distribution K → Point2d K → K) (E : Externals K)
    (inverse_model : InverseModel K) (p : Point2d K) (d : Option (OccupancyDistribution K)) : K :=
  match d with
  | some c =>
    match c.distribution_ with
    | some dist => occupancy_spec E inverse_model c * g dist p
    | none => 0
  | none => 0

/-- The sample as the spec words it: `¼ Σk occ(ck, M) · N(p; μk, Σk)` over the four staggered
cells of `bi`. -/
def mixture_spec (g : Distribution K → Point2d K → K) (E : Externals K)
    (m : OccupancyGridmap K) (p : Point2d K) (bi : index_t) (inverse_model : InverseModel K) :
    K :=
  (1 / 4) * (mixtureTerm_spec g E inverse_model p ((m.storage_ 0).get (staggered bi 0)) +
             mixtureTerm_spec g E inverse_model p ((m.storage_ 1).get (staggered bi 1)) +
             mixtureTerm_spec g E inverse_model p ((m.storage_ 2).get (staggered bi 2)) +
             mixtureTerm_spec g E inverse_model p ((m.storage_ 3).get (staggered bi 3)))

/-- Sample count `N` of a cell: the count of its statistics cell, `0` while it has none. -/
def sampleCount (c : OccupancyDistribution K) : Nat :=
  match c.distribution_ with
  | some d => d.n
  | none => 0

/-- The counts `F`, `O`, `N` of `c2` are at least those of `c1`. -/
def CountsLe (c1 c2 : OccupancyDistribution K) : Prop :=
  c1.num_free_ ≤ c2.num_free_ ∧ c1.num_occupied_ ≤ c2.num_occupied_ ∧
    sampleCount c1 ≤ sampleCount c2

/-- Every storey cell of `m1` exists in `m2` with counts that are at least as large. -/
def CellsGrow (m1 m2 : OccupancyGridmap K) : Prop :=
  ∀ (k : Fin 4) (j : index_t) (c : OccupancyDistribution K), (m1.storage_ k).get j = some c →
    ∃ c2, (m2.storage_ k).get j = some c2 ∧ CountsLe c c2

/-- Every allocated storey cell of the map satisfies `P`. -/
def CellsSatisfy (P : OccupancyDistribution K → Prop) (m : OccupancyGridmap K) : Prop :=
  ∀ (k : Fin 4) (j : index_t) (c : OccupancyDistribution K), (m.storage_ k).get j = some c → P c

/-- The statistics record of a cell is consistent with its occupied count: the sample count
equals the occupied count, and the record is missing exactly when the cell was never updated
as occupied. -/
def CellConsistent (c : OccupancyDistribution K) : Prop :=
  sampleCount c = c.num_occupied_ ∧ (c.distribution_ = none ↔ c.num_occupied_ = 0)

/-- Four-cell average occupancy of the bundle at `bi` as the spec words it: a quarter of
the sum over the four storey cells of `getOccupancy(M)`, the posterior
`sigmoid(F·ℓf + O·ℓo − ℓp)` of the cell (a missing cell counts 0). -/
def averageOccupancy_spec (X : CostExternals K) (inverse_model : InverseModel K)
    (m : OccupancyGridmap K) (bi : index_t) : K :=
  (1 / 4) *
    ((((m.storage_ 0).get (staggered bi 0)).map (fun c => c.getOccupancy X inverse_model)).getD 0 +
     (((m.storage_ 1).get (staggered bi 1)).map (fun c => c.getOccupancy X inverse_model)).getD 0 +
     (((m.storage_ 2).get (staggered bi 2)).map (fun c => c.getOccupancy X inverse_model)).getD 0 +
     (((m.storage_ 3).get (staggered bi 3)).map (fun c => c.getOccupancy X inverse_model)).getD 0)

/-- The map holds no observation: no cell has a statistics cell yet. -/
def NoObservations (m : OccupancyGridmap K) : Prop :=
  ∀ (k : Fin 4) (j : index_t) (c : OccupancyDistribution K),
    (m.storage_ k).get j = some c → c.distribution_ = none

end OccupancyGridmap

/-! ## The DIRECT cost as the spec words it -/

/-- Quadratic form `dᵀ Ω d` of a 2×2 matrix. -/
def quadForm {K : Type} [LinearOrderedField K] (Ω : Fin 2 → Fin 2 → K) (d : Point2d K) : K :=
  (d.x * Ω 0 0 + d.y * Ω 1 0) * d.x + (d.x * Ω 0 1 + d.y * Ω 1 1) * d.y

/-- Scalar part of a point of dual numbers. -/
def Point2d.scalar {K : Type} {N : Nat} (p : Point2d (Jet K N)) : Point2d K := ⟨p.x.a, p.y.a⟩

/-- One summand of the DIRECT score as the spec words it: `¼ · occ(c, M) ·
exp(−½ (p − μ)ᵀ Ω (p − μ))` for an existing, valid cell, else `0`. -/
def directTerm_spec {K : Type} [LinearOrderedField K] (X : CostExternals K)
    (inverse_model : InverseModel K) (cell : Option (OccupancyDistribution K))
    (p : Point2d K) : K :=
  match cell with
  | none => 0
  | some c =>
    match c.distribution_ with
    | none => 0
    | some d =>
      if X.valid d then
        (1 / 4) * c.getOccupancy X inverse_model *
          X.exp (-(1 / 2) * quadForm (X.getInformationMatrix d) (p.sub (X.getMean d)))
      else 0

/-- The DIRECT cost of the occupancy map as the spec words it, for a fixed bundle (`none`: the
bundle is missing): `1`, or `1 − Σk ¼ · occ(ck, M) · exp(−½ (p' − μk)ᵀ Ωk (p' − μk))` with
`p'` the query transformed by `tf`. -/
def directCost_spec {K : Type} [LinearOrderedField K] (X : CostExternals K)
    (inverse_model : InverseModel K) (tf : Transform2d K)
    (cells : Option (Fin 4 → Option (OccupancyDistribution K))) (p : Point2d K) : K :=
  match cells with
  | none => 1
  | some c =>
    1 - (directTerm_spec X inverse_model (c 0) (tf.apply p) +
         directTerm_spec X inverse_model (c 1) (tf.apply p) +
         directTerm_spec X inverse_model (c 2) (tf.apply p) +
         directTerm_spec X inverse_model (c 3) (tf.apply p))

/-- One summand of the DIRECT score of the map of plain statistics cells:
`¼ · exp(−½ (p − μ)ᵀ Ω (p − μ))` for an existing, valid cell, else `0`. -/
def plainTerm_spec {K : Type} [LinearOrderedField K] (X : CostExternals K)
    (cell : Option (Option (Distribution K))) (p : Point2d K) : K :=
  match cell with
  | none => 0
  | some c =>
    match c with
    | none => 0
    | some d =>
      if X.valid d then
        (1 / 4) * X.exp (-(1 / 2) * quadForm (X.getInformationMatrix d) (p.sub (X.getMean d)))
      else 0

/-- The DIRECT cost of the map of plain statistics cells as the spec words it, for a fixed
bundle. -/
def plainCost_spec {K : Type} [LinearOrderedField K] (X : CostExternals K)
    (bundle : Option (plain_bundle_t K)) (p : Point2d K) : K :=
  match bundle with
  | none => 1
  | some c =>
    1 - (plainTerm_spec X (c 0) p + plainTerm_spec X (c 1) p + plainTerm_spec X (c 2) p +
         plainTerm_spec X (c 3) p)

/-- The query point of dual numbers `p` that `Evaluate` builds from `q`. -/
def queryPoint {K : Type} [LinearOrderedField K] {N : Nat} (q : List (Jet K N)) :
    Point2d (Jet K N) :=
  ⟨q.getD 0 (Jet.const 0), q.getD 1 (Jet.const 0)⟩

/-- The four cells of the bundle that `getBundle` selects for the point `pt`, `none` when
the selected bundle is missing. -/
def ScanMatchCostFunctor.selectedCells {K : Type} [LinearOrderedField K] [FloorRing K]
    (map_ : OccupancyGridmap K) (f : ScanMatchCostFunctor K) (pt : Point2d K) :
    Option (Fin 4 → Option (OccupancyDistribution K)) :=
  (map_.bundleAt (ScanMatchCostFunctor.getBundle map_ f pt).1).map
    (fun bundle k => map_.deref k (bundle k))

/-- The cell contributes nothing to the DIRECT cost: the handle is null, the cell has no
statistics cell, or its statistics cell is not valid. -/
def AbsentOrInvalid {K : Type} (X : CostExternals K) (cell : Option (OccupancyDistribution K)) :
    Prop :=
  ∀ c d, cell = some c → c.distribution_ = some d → X.valid d = false

/-- The plain statistics cell contributes nothing to the DIRECT cost. -/
def PlainAbsentOrInvalid {K : Type} (X : CostExternals K)
    (cell : Option (Option (Distribution K))) : Prop :=
  ∀ d, cell = some (some d) → X.valid d = false

/-- Two sets of library functions that differ at most in the mean and the information matrix
they report for statistics cells that are not valid. -/
def AgreeOnValid {K : Type} (X Y : CostExternals K) : Prop :=
  Y.exp = X.exp ∧ Y.LogOdds_from = X.LogOdds_from ∧ Y.valid = X.valid ∧
    ∀ d, X.valid d = true →
      Y.getMean d = X.getMean d ∧ Y.getInformationMatrix d = X.getInformationMatrix d

/-- The dual number `j` carries, in its derivative component `i`, the derivative at `0` of the
real function `F`, and in its scalar part the value `F 0`. -/
def TracksAt {N : Nat} (F : ℝ → ℝ) (j : Jet ℝ N) (i : Fin N) : Prop :=
  F 0 = j.a ∧ HasDerivAt F (j.v i) 0

/-- The line through the scalar part of a point of dual numbers in the direction of its
derivative component `i`: for a query seeded with independent dual variables this moves
coordinate `i` alone. -/
def Point2d.line {N : Nat} (p : Point2d (Jet ℝ N)) (i : Fin N) (t : ℝ) : Point2d ℝ :=
  ⟨p.x.a + t * p.x.v i, p.y.a + t * p.y.v i⟩

/-! ## Concrete instances used for evaluation -/

/-- Rational stand-in for `cslibs_math::common::LogOdds::from` (the logistic function): a
monotone map onto the open unit interval with the exact value `1/2` at `0`. -/
def demoLogOdds_from (l : ℚ) : ℚ := 1 / 2 + l / (2 * (1 + |l|))

/-- Mean `S / N` of a statistics cell. -/
def Distribution.mean (d : Distribution ℚ) : Point2d ℚ := ⟨d.sum.x / d.n, d.sum.y / d.n⟩

/-- Rational stand-in for `Distribution::sampleNonNormalized`: `0` for fewer than three
points, the exact value `exp 0 = 1` at the mean, and `1/2` elsewhere. -/
def demoSampleNonNormalized (d : Distribution ℚ) (p : Point2d ℚ) : ℚ :=
  if d.n < 3 then 0
  else if p.x = d.mean.x ∧ p.y = d.mean.y then 1 else 1 / 2

/-- Rational stand-in for `Point2d::length`, exact for axis-parallel vectors. -/
def demoLength (p : Point2d ℚ) : ℚ := |p.x| + |p.y|

/-- Stand-in for the run of the Bresenham iterator on rays in the direction of increasing
`x` inside one row: the indices from the start up to, and excluding, the end index, with
the squared index distance to the start; other rays are not used in the evaluations. -/
def demoBresenham (s e : index_t) : List (Visit ℚ) :=
  if s.2 = e.2 then
    (List.range (e.1 - s.1).toNat).map
      (fun (i : Nat) => (⟨s.1 + (i : Int), s.2, (i : ℚ) * (i : ℚ)⟩ : Visit ℚ))
  else []

/-- The concrete library functions used in evaluations over `ℚ`. -/
def demoExternals : Externals ℚ where
  LogOdds_from := demoLogOdds_from
  sample := demoSampleNonNormalized
  sampleNonNormalized := demoSampleNonNormalized
  length := demoLength
  Bresenham := demoBresenham

/-- The identity transform, origin `(0, 0, 0)`. -/
def identityTransform : Transform2d ℚ := ⟨0, 0, 1, 0⟩

/-- A fresh map with origin `(0, 0, 0)` and resolution `1` (bundle resolution `1/2`). -/
def demoMap : OccupancyGridmap ℚ := OccupancyGridmap.new identityTransform 1

/-- The map after three end-point insertions `add(p, p)` at `(1/8, 1/8)`, `(3/8, 1/8)` and
`(1/8, 3/8)`, all in bundle `(0, 0)`. -/
def demoMap3 : OccupancyGridmap ℚ :=
  OccupancyGridmap.run demoExternals demoMap
    [Op.add ⟨1 / 8, 1 / 8⟩ ⟨1 / 8, 1 / 8⟩, Op.add ⟨3 / 8, 1 / 8⟩ ⟨3 / 8, 1 / 8⟩,
     Op.add ⟨1 / 8, 3 / 8⟩ ⟨1 / 8, 3 / 8⟩]

/-- The content of each of the four cells `(0, 0)` of `demoMap3`. -/
def demoCell3 : OccupancyDistribution ℚ :=
  ((OccupancyDistribution.zero.updateOccupied ⟨1 / 8, 1 / 8⟩).updateOccupied
    ⟨3 / 8, 1 / 8⟩).updateOccupied ⟨1 / 8, 3 / 8⟩

/-- A fresh map with origin translated to `(1, 0)`, no rotation, resolution `1`. -/
def demoMapShifted : OccupancyGridmap ℚ := OccupancyGridmap.new ⟨1, 0, 1, 0⟩ 1

/-- Rational stand-in for the exponential on non-positive arguments: the exact value `1` at
`0`, values in `(0, 1]`. -/
def demoExp (x : ℚ) : ℚ := 1 / (1 + |x|)

/-- The concrete library functions of the cost functors used in evaluations over `ℚ`: a
statistics cell counts as valid from three points on, and the identity matrix stands in for
the information matrix. -/
def demoCostExternals : CostExternals ℚ where
  exp := demoExp
  LogOdds_from := demoLogOdds_from
  valid := fun d => decide (3 ≤ d.n)
  getMean := Distribution.mean
  getInformationMatrix := fun _ i j => if i = j then 1 else 0

/-- A freshly constructed cost functor (empty cache) with the inverse model `(0, 0, 0)`. -/
def demoFunctor : ScanMatchCostFunctor ℚ := ⟨⟨0, 0, 0⟩, fun _ => none⟩

/-- The query `(5/24, 5/24)` seeded as two independent dual variables. -/
def demoQuery : List (Jet ℚ 2) :=
  [⟨5 / 24, fun i => if i = 0 then 1 else 0⟩, ⟨5 / 24, fun i => if i = 1 then 1 else 0⟩]

/-- The query `(5/24, 5/24)` with other derivative parts. -/
def demoQuery2 : List (Jet ℚ 2) :=
  [⟨5 / 24, fun _ => 7⟩, ⟨5 / 24, fun _ => -3⟩]

/-- Library functions of the cost functors over any field for a given scalar exponential:
log-odds conversion constantly `1/2`, validity from three points on, mean `S / N`, identity
information matrix. -/
def unitCostExternals {K : Type} [LinearOrderedField K] (e : K → K) : CostExternals K where
  exp := e
  LogOdds_from := fun _ => 1 / 2
  valid := fun d => decide (3 ≤ d.n)
  getMean := fun d => ⟨d.sum.x / d.n, d.sum.y / d.n⟩
  getInformationMatrix := fun _ i j => if i = j then 1 else 0

/-- The unit-resolution map with origin `(0, 0, 0)` over any field after `updateOccupied` of
bundle `(0, 0)` with the points `(1/8, 1/8)`, `(3/8, 1/8)` and `(1/8, 3/8)`. -/
def threePointMap (K : Type) [LinearOrderedField K] [FloorRing K] : OccupancyGridmap K :=
  OccupancyGridmap.updateOccupied
    (OccupancyGridmap.updateOccupied
      (OccupancyGridmap.updateOccupied (OccupancyGridmap.new ⟨0, 0, 1, 0⟩ 1) (0, 0)
        ⟨1 / 8, 1 / 8⟩) (0, 0) ⟨3 / 8, 1 / 8⟩) (0, 0) ⟨1 / 8, 3 / 8⟩

/-- The unit-resolution map after one end-point insertion `add(p, p)` at `(1/8, 1/8)`. -/
def demoMap1 : OccupancyGridmap ℚ :=
  OccupancyGridmap.run demoExternals demoMap [Op.add ⟨1 / 8, 1 / 8⟩ ⟨1 / 8, 1 / 8⟩]

/-- The content of each of the four cells `(0, 0)` of `demoMap1`: one point. -/
def demoCell1 : OccupancyDistribution ℚ :=
  OccupancyDistribution.zero.updateOccupied ⟨1 / 8, 1 / 8⟩

/-- The fresh unit-resolution map and a fresh functor after `getBundle((0, 0))` followed by
the map call `getDistributionBundle((0, 0))`. -/
def demoStaleState : OccupancyGridmap ℚ × ScanMatchCostFunctor ℚ :=
  ScanMatchCostFunctor.runBoth demoExternals (demoMap, demoFunctor)
    [FunctorOp.getBundle ⟨0, 0⟩, FunctorOp.map (Op.getDistributionBundle (0, 0))]

/-! # Theorems -/

namespace OccupancyGridmap

variable {K : Type} [LinearOrderedField K] [FloorRing K]

/-! ## Lemmas on allocation -/

theorem getAllocateDistribution_fst (s : Storage (OccupancyDistribution K)) (i : index_t) :
    (getAllocateDistribution s i).1 = some i := by
  unfold getAllocateDistribution
  cases h : s.get i <;> rfl

theorem getAllocateDistribution_snd (s : Storage (OccupancyDistribution K)) (i j : index_t) :
    (getAllocateDistribution s i).2 j
      = if j = i then some ((s i).getD OccupancyDistribution.zero) else s j := by
  unfold getAllocateDistribution
  cases h : s.get i with
  | none =>
    have h2 : s i = none := h
    simp [Storage.insert, h2]
  | some c =>
    have h2 : s i = some c := h
    by_cases hj : j = i
    · subst hj; simp [h2]
    · simp [hj]

theorem allocate_bundle_fst (m : OccupancyGridmap K) (bi : index_t) :
    (allocate_bundle m bi).1 = fun k => some (staggered bi k) := by
  funext k
  fin_cases k <;> simp [allocate_bundle, array4, staggered, getAllocateDistribution_fst]

theorem allocate_bundle_storage (m : OccupancyGridmap K) (bi : index_t) (k : Fin 4)
    (j : index_t) :
    (allocate_bundle m bi).2.storage_ k j
      = if j = staggered bi k then some ((m.storage_ k j).getD OccupancyDistribution.zero)
        else m.storage_ k j := by
  fin_cases k <;>
    simp only [allocate_bundle, array4, staggered, updateIndices, getAllocateDistribution_snd] <;>
    split <;> simp_all

theorem allocate_bundle_cache (m : OccupancyGridmap K) (bi : index_t) :
    (allocate_bundle m bi).2.bundle_storage_
      = m.bundle_storage_.insert bi (fun k => some (staggered bi k)) := by
  have h := allocate_bundle_fst m bi
  simp only [allocate_bundle, updateIndices] at h ⊢
  rw [h]

theorem allocate_bundle_min (m : OccupancyGridmap K) (bi : index_t) :
    (allocate_bundle m bi).2.min_index_ = std_min m.min_index_ bi := rfl

theorem allocate_bundle_max (m : OccupancyGridmap K) (bi : index_t) :
    (allocate_bundle m bi).2.max_index_ = std_max m.max_index_ bi := rfl

theorem getAllocate_bundle_resolution (m : OccupancyGridmap K) (bi : index_t) :
    (getAllocate m bi).2.bundle_resolution_ = m.bundle_resolution_ := by
  unfold getAllocate
  cases h : m.bundle_storage_.get bi <;> rfl

theorem getAllocate_bundle_resolution_2 (m : OccupancyGridmap K) (bi : index_t) :
    (getAllocate m bi).2.bundle_resolution_2_ = m.bundle_resolution_2_ := by
  unfold getAllocate
  cases h : m.bundle_storage_.get bi <;> rfl

theorem getAllocate_fst (m : OccupancyGridmap K) (hm : BundlesValid m) (bi : index_t) :
    (getAllocate m bi).1 = fun k => some (staggered bi k) := by
  unfold getAllocate
  cases h : m.bundle_storage_.get bi with
  | none => exact allocate_bundle_fst m bi
  | some b =>
    funext k
    exact (hm bi b h k).1

theorem getAllocate_storage (m : OccupancyGridmap K) (hm : BundlesValid m) (bi : index_t)
    (k : Fin 4) (j : index_t) :
    (getAllocate m bi).2.storage_ k j
      = if j = staggered bi k then some ((m.storage_ k j).getD OccupancyDistribution.zero)
        else m.storage_ k j := by
  unfold getAllocate
  cases h : m.bundle_storage_.get bi with
  | none => exact allocate_bundle_storage m bi k j
  | some b =>
    have hk := (hm bi b h k).2
    by_cases hj : j = staggered bi k
    · subst hj
      simp only [Storage.get] at hk
      cases hc : m.storage_ k (staggered bi k) with
      | none => simp [hc] at hk
      | some c => simp [hc]
    · simp [hj]

theorem getAllocate_cache (m : OccupancyGridmap K) (hm : BundlesValid m) (bi bj : index_t) :
    (getAllocate m bi).2.bundle_storage_.get bj
      = if bj = bi then some (fun k => some (staggered bi k)) else m.bundle_storage_.get bj := by
  unfold getAllocate
  cases h : m.bundle_storage_.get bi with
  | none =>
    simp only [allocate_bundle_cache, Storage.get, Storage.insert]
  | some b =>
    by_cases hj : bj = bi
    · subst hj
      have : b = fun k => some (staggered bj k) := by
        funext k
        exact (hm bj b h k).1
      simp [h, this]
    · simp [hj]

theorem getAllocate_valid (m : OccupancyGridmap K) (hm : BundlesValid m) (bi : index_t) :
    BundlesValid (getAllocate m bi).2 := by
  intro bj b hb k
  rw [getAllocate_cache m hm] at hb
  have hs := getAllocate_storage m hm bi k (staggered bj k)
  simp only [Storage.get] at hs ⊢
  by_cases hj : bj = bi
  · subst hj
    simp only [if_true] at hb hs
    injection hb with hb
    subst hb
    simp [hs]
  · simp only [hj, if_false] at hb
    have h1 := hm bj b hb k
    refine ⟨h1.1, ?_⟩
    rw [hs]
    split
    · rfl
    · exact h1.2

theorem new_valid (origin : Transform2d K) (resolution : K) :
    BundlesValid (new origin resolution) := by
  intro bi b hb
  simp [new, Storage.get] at hb

/-! ## Lemmas on the bundle updates -/

theorem updateAt_storage (m : OccupancyGridmap K) (b : distribution_bundle_t) (k : Fin 4)
    (f : OccupancyDistribution K → OccupancyDistribution K) (k2 : Fin 4) :
    (updateAt m b k f).storage_ k2
      = if k2 = k then modifyAt (m.storage_ k) (b k) f else m.storage_ k2 := by
  unfold updateAt
  by_cases hk : k2 = k
  · subst hk; simp
  · simp [Function.update, hk]

theorem updateAll_storage (m : OccupancyGridmap K) (b : distribution_bundle_t)
    (f : OccupancyDistribution K → OccupancyDistribution K) (k : Fin 4) (j : index_t) :
    (updateAll m b f).storage_ k j = modifyAt (m.storage_ k) (b k) f j := by
  unfold updateAll
  fin_cases k <;> simp [updateAt_storage]

theorem updateAll_cache (m : OccupancyGridmap K) (b : distribution_bundle_t)
    (f : OccupancyDistribution K → OccupancyDistribution K) :
    (updateAll m b f).bundle_storage_ = m.bundle_storage_ := rfl

theorem updateFree_eq (m : OccupancyGridmap K) (bi : index_t) :
    updateFree m bi
      = updateAll (getAllocate m bi).2 (getAllocate m bi).1 OccupancyDistribution.updateFree :=
  rfl

theorem updateOccupied_eq (m : OccupancyGridmap K) (bi : index_t) (p : Point2d K) :
    updateOccupied m bi p
      = updateAll (getAllocate m bi).2 (getAllocate m bi).1 (fun c => c.updateOccupied p) :=
  rfl

/-- Effect of a bundle update on every storey cell: the four staggered cells of `bi` are
allocated when missing and updated by `f`; all other cells are untouched. -/
theorem updateAll_getAllocate_storage (m : OccupancyGridmap K) (hm : BundlesValid m)
    (bi : index_t) (f : OccupancyDistribution K → OccupancyDistribution K) (k : Fin 4)
    (j : index_t) :
    (updateAll (getAllocate m bi).2 (getAllocate m bi).1 f).storage_ k j
      = if j = staggered bi k then some (f ((m.storage_ k j).getD OccupancyDistribution.zero))
        else m.storage_ k j := by
  rw [updateAll_storage, getAllocate_fst m hm]
  simp only [modifyAt, getAllocate_storage m hm]
  by_cases hj : j = staggered bi k <;> simp [hj]

theorem updateAll_getAllocate_valid (m : OccupancyGridmap K) (hm : BundlesValid m)
    (bi : index_t) (f : OccupancyDistribution K → OccupancyDistribution K) :
    BundlesValid (updateAll (getAllocate m bi).2 (getAllocate m bi).1 f) := by
  intro bj b hb k
  rw [updateAll_cache] at hb
  have h1 := getAllocate_valid m hm bi bj b hb k
  refine ⟨h1.1, ?_⟩
  have h2 := h1.2
  simp only [Storage.get] at h2 ⊢
  rw [updateAll_storage]
  cases hh : (getAllocate m bi).1 k with
  | none => simpa [modifyAt] using h2
  | some i =>
    simp only [modifyAt]
    split
    · simpa using h2
    · exact h2

theorem updateFree_valid (m : OccupancyGridmap K) (hm : BundlesValid m) (bi : index_t) :
    BundlesValid (updateFree m bi) :=
  updateAll_getAllocate_valid m hm bi _

theorem updateOccupied_valid (m : OccupancyGridmap K) (hm : BundlesValid m) (bi : index_t)
    (p : Point2d K) : BundlesValid (updateOccupied m bi p) :=
  updateAll_getAllocate_valid m hm bi _

theorem addLoop_valid (end_p : Point2d K) (it : List (Visit K)) :
    ∀ m : OccupancyGridmap K, BundlesValid m → BundlesValid (addLoop end_p it m) := by
  induction it with
  | nil => intro m hm; exact hm
  | cons v rest ih =>
    intro m hm
    simp only [addLoop]
    apply ih
    split
    · exact updateFree_valid m hm _
    · exact updateOccupied_valid m hm _ _

theorem add_valid (E : Externals K) (m : OccupancyGridmap K) (hm : BundlesValid m)
    (start_p end_p : Point2d K) : BundlesValid (add E m start_p end_p) :=
  updateOccupied_valid _ (addLoop_valid end_p _ m hm) _ _

theorem getRangeLoop_valid (E : Externals K) (inverse_model : InverseModel K) (tau : K)
    (start_p end_p : Point2d K) (it : List (Visit K)) :
    ∀ m : OccupancyGridmap K, BundlesValid m →
      BundlesValid (getRangeLoop E inverse_model tau start_p end_p it m).2 := by
  induction it with
  | nil => intro m hm; exact hm
  | cons v rest ih =>
    intro m hm
    simp only [getRangeLoop]
    split
    · exact getAllocate_valid m hm _
    · exact ih _ (getAllocate_valid m hm _)

theorem step_valid (E : Externals K) (m : OccupancyGridmap K) (hm : BundlesValid m)
    (op : Op K) : BundlesValid (step E m op) := by
  cases op with
  | getDistributionBundle bi => exact getAllocate_valid m hm bi
  | add start_p end_p => exact add_valid E m hm start_p end_p
  | getRange start_p end_p inverse_model tau =>
    exact getRangeLoop_valid E inverse_model tau start_p end_p _ m hm
  | sample p inverse_model => exact getAllocate_valid m hm _
  | sampleAt p bi inverse_model => exact getAllocate_valid m hm _
  | sampleNonNormalized p inverse_model => exact getAllocate_valid m hm _
  | sampleNonNormalizedAt p bi inverse_model => exact getAllocate_valid m hm _

theorem run_valid (E : Externals K) (ops : List (Op K)) :
    ∀ m : OccupancyGridmap K, BundlesValid m → BundlesValid (run E m ops) := by
  induction ops with
  | nil => intro m hm; exact hm
  | cons op rest ih =>
    intro m hm
    exact ih _ (step_valid E m hm op)

theorem Reachable.valid {E : Externals K} {m : OccupancyGridmap K} (h : Reachable E m) :
    BundlesValid m := by
  obtain ⟨origin, resolution, ops, rfl⟩ := h
  exact run_valid E ops _ (new_valid origin resolution)

/-! ## Lemmas on the tracked extent -/

theorem getAllocate_allocated (m : OccupancyGridmap K) (bi bj : index_t) :
    Allocated (getAllocate m bi).2 bj ↔ (bj = bi ∨ Allocated m bj) := by
  unfold getAllocate Allocated
  cases h : m.bundle_storage_.get bi with
  | none =>
    simp only [allocate_bundle_cache, Storage.get, Storage.insert]
    by_cases hj : bj = bi <;> simp [hj]
  | some b =>
    by_cases hj : bj = bi
    · subst hj; simp [h]
    · simp [hj]

theorem getAllocate_extent (m : OccupancyGridmap K) (hm : ExtentValid m) (bi : index_t) :
    ExtentValid (getAllocate m bi).2 := by
  intro bj hj
  rw [getAllocate_allocated] at hj
  unfold getAllocate
  cases h : m.bundle_storage_.get bi with
  | some b =>
    rcases hj with hj | hj
    · subst hj
      exact hm bj (by simp [Allocated, h])
    · exact hm bj hj
  | none =>
    simp only [InExtent, allocate_bundle_min, allocate_bundle_max, std_min, std_max]
    rcases hj with hj | hj
    · subst hj
      simp
    · have := hm bj hj
      simp only [InExtent] at this
      simp only [min_le_iff, le_max_iff]
      tauto

theorem updateAll_extent (m : OccupancyGridmap K) (b : distribution_bundle_t)
    (f : OccupancyDistribution K → OccupancyDistribution K) (hm : ExtentValid m) :
    ExtentValid (updateAll m b f) := hm

theorem updateAll_allocated (m : OccupancyGridmap K) (b : distribution_bundle_t)
    (f : OccupancyDistribution K → OccupancyDistribution K) (bj : index_t) :
    Allocated (updateAll m b f) bj ↔ Allocated m bj := Iff.rfl

theorem updateFree_allocated (m : OccupancyGridmap K) (bi bj : index_t) :
    Allocated (updateFree m bi) bj ↔ (bj = bi ∨ Allocated m bj) :=
  getAllocate_allocated m bi bj

theorem updateOccupied_allocated (m : OccupancyGridmap K) (bi bj : index_t) (p : Point2d K) :
    Allocated (updateOccupied m bi p) bj ↔ (bj = bi ∨ Allocated m bj) :=
  getAllocate_allocated m bi bj

theorem updateFree_extent (m : OccupancyGridmap K) (hm : ExtentValid m) (bi : index_t) :
    ExtentValid (updateFree m bi) := by
  rw [updateFree_eq]
  exact updateAll_extent _ _ _ (getAllocate_extent m hm bi)

theorem updateOccupied_extent (m : OccupancyGridmap K) (hm : ExtentValid m) (bi : index_t)
    (p : Point2d K) : ExtentValid (updateOccupied m bi p) := by
  rw [updateOccupied_eq]
  exact updateAll_extent _ _ _ (getAllocate_extent m hm bi)

theorem addLoop_extent (end_p : Point2d K) (it : List (Visit K)) :
    ∀ m : OccupancyGridmap K, ExtentValid m → ExtentValid (addLoop end_p it m) := by
  induction it with
  | nil => intro m hm; exact hm
  | cons v rest ih =>
    intro m hm
    simp only [addLoop]
    apply ih
    split
    · exact updateFree_extent m hm _
    · exact updateOccupied_extent m hm _ _

theorem addLoop_allocated (end_p : Point2d K) (it : List (Visit K)) :
    ∀ (m : OccupancyGridmap K) (bj : index_t),
      Allocated (addLoop end_p it m) bj ↔ ((∃ v ∈ it, bj = (v.x, v.y)) ∨ Allocated m bj) := by
  induction it with
  | nil => intro m bj; simp [addLoop]
  | cons v rest ih =>
    intro m bj
    simp only [addLoop]
    rw [ih]
    have h : ∀ m2 : OccupancyGridmap K, (m2 = updateFree m (v.x, v.y) ∨
        m2 = updateOccupied m (v.x, v.y) end_p) →
        (Allocated m2 bj ↔ (bj = (v.x, v.y) ∨ Allocated m bj)) := by
      intro m2 h2
      rcases h2 with h2 | h2 <;> subst h2
      · exact updateFree_allocated m _ bj
      · exact updateOccupied_allocated m _ bj _
    rw [h _ (by split <;> simp)]
    simp only [List.mem_cons, exists_eq_or_imp]
    constructor
    · rintro (h1 | h1 | h1)
      · exact Or.inl (Or.inr h1)
      · exact Or.inl (Or.inl h1)
      · exact Or.inr h1
    · rintro ((h1 | h1) | h1)
      · exact Or.inr (Or.inl h1)
      · exact Or.inl h1
      · exact Or.inr (Or.inr h1)

theorem add_extent (E : Externals K) (m : OccupancyGridmap K) (hm : ExtentValid m)
    (start_p end_p : Point2d K) : ExtentValid (add E m start_p end_p) :=
  updateOccupied_extent _ (addLoop_extent end_p _ m hm) _ _

theorem getRangeLoop_extent (E : Externals K) (inverse_model : InverseModel K) (tau : K)
    (start_p end_p : Point2d K) (it : List (Visit K)) :
    ∀ m : OccupancyGridmap K, ExtentValid m →
      ExtentValid (getRangeLoop E inverse_model tau start_p end_p it m).2 := by
  induction it with
  | nil => intro m hm; exact hm
  | cons v rest ih =>
    intro m hm
    simp only [getRangeLoop]
    split
    · exact getAllocate_extent m hm _
    · exact ih _ (getAllocate_extent m hm _)

theorem step_extent (E : Externals K) (m : OccupancyGridmap K) (hm : ExtentValid m)
    (op : Op K) : ExtentValid (step E m op) := by
  cases op with
  | getDistributionBundle bi => exact getAllocate_extent m hm bi
  | add start_p end_p => exact add_extent E m hm start_p end_p
  | getRange start_p end_p inverse_model tau =>
    exact getRangeLoop_extent E inverse_model tau start_p end_p _ m hm
  | sample p inverse_model => exact getAllocate_extent m hm _
  | sampleAt p bi inverse_model => exact getAllocate_extent m hm _
  | sampleNonNormalized p inverse_model => exact getAllocate_extent m hm _
  | sampleNonNormalizedAt p bi inverse_model => exact getAllocate_extent m hm _

theorem run_extent (E : Externals K) (ops : List (Op K)) :
    ∀ m : OccupancyGridmap K, ExtentValid m → ExtentValid (run E m ops) := by
  induction ops with
  | nil => intro m hm; exact hm
  | cons op rest ih =>
    intro m hm
    exact ih _ (step_extent E m hm op)

theorem new_extent (origin : Transform2d K) (resolution : K) :
    ExtentValid (new origin resolution) := by
  intro bi hb
  simp [Allocated, new, Storage.get] at hb

theorem Reachable.extent {E : Externals K} {m : OccupancyGridmap K} (h : Reachable E m) :
    ExtentValid m := by
  obtain ⟨origin, resolution, ops, rfl⟩ := h
  exact run_extent E ops _ (new_extent origin resolution)

theorem Reachable.step {E : Externals K} {m : OccupancyGridmap K} (h : Reachable E m)
    (op : Op K) : Reachable E (step E m op) := by
  obtain ⟨origin, resolution, ops, rfl⟩ := h
  exact ⟨origin, resolution, ops ++ [op], by simp [run, List.foldl_append]⟩

/-! ## Lemmas on lookups -/

theorem getAllocate_hit (m : OccupancyGridmap K) (bi : index_t) :
    (getAllocate m bi).2.bundle_storage_.get bi = some (getAllocate m bi).1 := by
  unfold getAllocate
  cases h : m.bundle_storage_.get bi with
  | none =>
    simp only [allocate_bundle_cache, allocate_bundle_fst, Storage.get, Storage.insert, if_true]
  | some b => exact h

theorem getAllocate_of_hit (m : OccupancyGridmap K) (bi : index_t) (b : distribution_bundle_t)
    (h : m.bundle_storage_.get bi = some b) : getAllocate m bi = (b, m) := by
  unfold getAllocate
  rw [h]

theorem occupancy_getD (E : Externals K) (inverse_model : InverseModel K)
    (c : Option (OccupancyDistribution K)) :
    occupancy E inverse_model (some (c.getD OccupancyDistribution.zero))
      = occupancy E inverse_model c := by
  cases c with
  | none => simp [occupancy, OccupancyDistribution.zero]
  | some c => rfl

theorem occupancy_getAllocate (E : Externals K) (inverse_model : InverseModel K)
    (m : OccupancyGridmap K) (hm : BundlesValid m) (bi : index_t) (k : Fin 4) (j : index_t) :
    occupancy E inverse_model (((getAllocate m bi).2.storage_ k).get j)
      = occupancy E inverse_model ((m.storage_ k).get j) := by
  simp only [Storage.get, getAllocate_storage m hm]
  split
  · exact occupancy_getD E inverse_model _
  · rfl

theorem averageOccupancy_getAllocate (E : Externals K) (inverse_model : InverseModel K)
    (m : OccupancyGridmap K) (hm : BundlesValid m) (bi bj : index_t) :
    averageOccupancy E inverse_model (getAllocate m bi).2 bj
      = averageOccupancy E inverse_model m bj := by
  simp only [averageOccupancy, occupancy_getAllocate E inverse_model m hm]

theorem occupied_fst (E : Externals K) (inverse_model : InverseModel K) (tau : K)
    (m : OccupancyGridmap K) (hm : BundlesValid m) (bi : index_t) :
    (occupied E inverse_model tau m bi).1
      = decide (tau ≤ averageOccupancy E inverse_model m bi) := by
  have h := averageOccupancy_getAllocate E inverse_model m hm bi bi
  simp only [averageOccupancy] at h
  simp only [occupied, getAllocate_fst m hm, deref, Bool.true_and, ge_iff_le, averageOccupancy,
    h]

theorem getRangeLoop_fst (E : Externals K) (inverse_model : InverseModel K) (tau : K)
    (start_p end_p : Point2d K) (it : List (Visit K)) :
    ∀ m : OccupancyGridmap K, BundlesValid m →
      (getRangeLoop E inverse_model tau start_p end_p it m).1
        = match it.find? (fun v => decide (tau ≤ averageOccupancy E inverse_model m (v.x, v.y)))
          with
          | none => E.length (start_p.sub end_p)
          | some v =>
            E.length (start_p.sub ⟨(v.x : K) * m.bundle_resolution_,
              (v.y : K) * m.bundle_resolution_⟩) := by
  induction it with
  | nil => intro m hm; rfl
  | cons v rest ih =>
    intro m hm
    simp only [getRangeLoop, List.find?_cons]
    rw [occupied_fst E inverse_model tau m hm]
    by_cases hv : tau ≤ averageOccupancy E inverse_model m (v.x, v.y)
    · simp [hv]
    · simp only [hv, decide_False, Bool.false_eq_true, if_false]
      have h2 : (occupied E inverse_model tau m (v.x, v.y)).2 = (getAllocate m (v.x, v.y)).2 :=
        rfl
      rw [h2, ih _ (getAllocate_valid m hm _)]
      simp only [averageOccupancy_getAllocate E inverse_model m hm,
        getAllocate_bundle_resolution]

theorem getRangeLoop_allocated (E : Externals K) (inverse_model : InverseModel K) (tau : K)
    (start_p end_p : Point2d K) (it : List (Visit K)) :
    ∀ m : OccupancyGridmap K, BundlesValid m →
      ∀ (pre post : List (Visit K)) (v : Visit K), it = pre ++ v :: post →
        (∀ u ∈ pre, ¬ tau ≤ averageOccupancy E inverse_model m (u.x, u.y)) →
        Allocated (getRangeLoop E inverse_model tau start_p end_p it m).2 (v.x, v.y) := by
  induction it with
  | nil => intro m hm pre post v h; simp at h
  | cons w rest ih =>
    intro m hm pre post v h hpre
    have hmono : ∀ (l : List (Visit K)) (m2 : OccupancyGridmap K) (bj : index_t),
        Allocated m2 bj →
        Allocated (getRangeLoop E inverse_model tau start_p end_p l m2).2 bj := by
      intro l
      induction l with
      | nil => intro m2 bj h2; exact h2
      | cons x xs ihx =>
        intro m2 bj h2
        simp only [getRangeLoop]
        have h3 : Allocated (getAllocate m2 (x.x, x.y)).2 bj :=
          (getAllocate_allocated m2 _ bj).2 (Or.inr h2)
        split
        · exact h3
        · exact ihx _ bj h3
    have h2 : (occupied E inverse_model tau m (w.x, w.y)).2 = (getAllocate m (w.x, w.y)).2 :=
      rfl
    cases pre with
    | nil =>
      simp only [List.nil_append, List.cons.injEq] at h
      obtain ⟨rfl, rfl⟩ := h
      have h3 : Allocated (getAllocate m (w.x, w.y)).2 (w.x, w.y) :=
        (getAllocate_allocated m _ _).2 (Or.inl rfl)
      simp only [getRangeLoop, h2]
      split
      · exact h3
      · exact hmono _ _ _ h3
    | cons u pre2 =>
      simp only [List.cons_append, List.cons.injEq] at h
      obtain ⟨rfl, rfl⟩ := h
      have hu := hpre w (List.mem_cons_self _ _)
      simp only [getRangeLoop]
      rw [occupied_fst E inverse_model tau m hm]
      simp only [hu, decide_False, Bool.false_eq_true, if_false, h2]
      apply ih _ (getAllocate_valid m hm _) pre2 post v rfl
      intro x hx
      rw [averageOccupancy_getAllocate E inverse_model m hm]
      exact hpre x (List.mem_cons_of_mem _ hx)

/-! ## Lemmas on the constant members -/

theorem getAllocate_consts (m : OccupancyGridmap K) (bi : index_t) :
    consts (getAllocate m bi).2 = consts m := by
  unfold getAllocate
  cases h : m.bundle_storage_.get bi <;> rfl

theorem updateAll_consts (m : OccupancyGridmap K) (b : distribution_bundle_t)
    (f : OccupancyDistribution K → OccupancyDistribution K) :
    consts (updateAll m b f) = consts m := rfl

theorem updateFree_consts (m : OccupancyGridmap K) (bi : index_t) :
    consts (updateFree m bi) = consts m := by
  rw [updateFree_eq, updateAll_consts, getAllocate_consts]

theorem updateOccupied_consts (m : OccupancyGridmap K) (bi : index_t) (p : Point2d K) :
    consts (updateOccupied m bi p) = consts m := by
  rw [updateOccupied_eq, updateAll_consts, getAllocate_consts]

theorem addLoop_consts (end_p : Point2d K) (it : List (Visit K)) :
    ∀ m : OccupancyGridmap K, consts (addLoop end_p it m) = consts m := by
  induction it with
  | nil => intro m; rfl
  | cons v rest ih =>
    intro m
    simp only [addLoop]
    rw [ih]
    split
    · exact updateFree_consts m _
    · exact updateOccupied_consts m _ _

theorem getRangeLoop_consts (E : Externals K) (inverse_model : InverseModel K) (tau : K)
    (start_p end_p : Point2d K) (it : List (Visit K)) :
    ∀ m : OccupancyGridmap K,
      consts (getRangeLoop E inverse_model tau start_p end_p it m).2 = consts m := by
  induction it with
  | nil => intro m; rfl
  | cons v rest ih =>
    intro m
    simp only [getRangeLoop]
    split
    · exact getAllocate_consts m _
    · rw [ih]; exact getAllocate_consts m _

theorem step_consts (E : Externals K) (m : OccupancyGridmap K) (op : Op K) :
    consts (step E m op) = consts m := by
  cases op with
  | getDistributionBundle bi => exact getAllocate_consts m bi
  | add start_p end_p =>
    show consts (updateOccupied _ _ _) = _
    rw [updateOccupied_consts, addLoop_consts]
  | getRange start_p end_p inverse_model tau =>
    exact getRangeLoop_consts E inverse_model tau start_p end_p _ m
  | sample p inverse_model => exact getAllocate_consts m _
  | sampleAt p bi inverse_model => exact getAllocate_consts m _
  | sampleNonNormalized p inverse_model => exact getAllocate_consts m _
  | sampleNonNormalizedAt p bi inverse_model => exact getAllocate_consts m _

theorem run_consts (E : Externals K) (ops : List (Op K)) :
    ∀ m : OccupancyGridmap K, consts (run E m ops) = consts m := by
  induction ops with
  | nil => intro m; rfl
  | cons op rest ih =>
    intro m
    show consts (run E (step E m op) rest) = _
    rw [ih, step_consts]

theorem Reachable.bundle_resolution {E : Externals K} {m : OccupancyGridmap K}
    (h : Reachable E m) : m.bundle_resolution_ = (1 / 2) * m.resolution_ := by
  obtain ⟨origin, resolution, ops, rfl⟩ := h
  have hc := run_consts E ops (new origin resolution)
  simp only [consts, Prod.mk.injEq] at hc
  rw [hc.2.2.1, hc.1]
  rfl

theorem Reachable.bundle_resolution_2 {E : Externals K} {m : OccupancyGridmap K}
    (h : Reachable E m) :
    m.bundle_resolution_2_ = (1 / 4) * m.bundle_resolution_ * m.bundle_resolution_ := by
  obtain ⟨origin, resolution, ops, rfl⟩ := h
  have hc := run_consts E ops (new origin resolution)
  simp only [consts, Prod.mk.injEq] at hc
  rw [hc.2.2.2.2.1, hc.2.2.1]
  rfl

/-! ## Lemmas on cell contents -/

theorem cellOf_getAllocate (m : OccupancyGridmap K) (hm : BundlesValid m) (bi : index_t)
    (k : Fin 4) (j : index_t) : cellOf (getAllocate m bi).2 k j = cellOf m k j := by
  simp only [cellOf, Storage.get, getAllocate_storage m hm]
  split <;> simp

theorem cellOf_updateAll (m : OccupancyGridmap K) (hm : BundlesValid m) (bi : index_t)
    (f : OccupancyDistribution K → OccupancyDistribution K) (k : Fin 4) (j : index_t) :
    cellOf (updateAll (getAllocate m bi).2 (getAllocate m bi).1 f) k j
      = if j = staggered bi k then f (cellOf m k j) else cellOf m k j := by
  simp only [cellOf, Storage.get, updateAll_getAllocate_storage m hm]
  split <;> simp

theorem cellOf_updateFree (m : OccupancyGridmap K) (hm : BundlesValid m) (bi : index_t)
    (k : Fin 4) (j : index_t) :
    cellOf (updateFree m bi) k j
      = if j = staggered bi k then (cellOf m k j).updateFree else cellOf m k j := by
  rw [updateFree_eq]
  exact cellOf_updateAll m hm bi _ k j

theorem cellOf_updateOccupied (m : OccupancyGridmap K) (hm : BundlesValid m) (bi : index_t)
    (p : Point2d K) (k : Fin 4) (j : index_t) :
    cellOf (updateOccupied m bi p) k j
      = if j = staggered bi k then (cellOf m k j).updateOccupied p else cellOf m k j := by
  rw [updateOccupied_eq]
  exact cellOf_updateAll m hm bi _ k j

theorem get_updateOccupied (m : OccupancyGridmap K) (hm : BundlesValid m) (bi : index_t)
    (p : Point2d K) (k : Fin 4) :
    ((updateOccupied m bi p).storage_ k).get (staggered bi k)
      = some ((cellOf m k (staggered bi k)).updateOccupied p) := by
  rw [updateOccupied_eq]
  simp only [Storage.get, updateAll_getAllocate_storage m hm, if_true, cellOf]

theorem addLoop_append (end_p : Point2d K) (l1 l2 : List (Visit K)) :
    ∀ m : OccupancyGridmap K,
      addLoop end_p (l1 ++ l2) m = addLoop end_p l2 (addLoop end_p l1 m) := by
  induction l1 with
  | nil => intro m; rfl
  | cons v rest ih =>
    intro m
    simp only [List.cons_append, addLoop]
    exact ih _

theorem addLoop_num_occupied_le (end_p : Point2d K) (it : List (Visit K)) (k : Fin 4)
    (j : index_t) :
    ∀ m : OccupancyGridmap K, BundlesValid m →
      (cellOf m k j).num_occupied_ ≤ (cellOf (addLoop end_p it m) k j).num_occupied_ := by
  induction it with
  | nil => intro m hm; exact le_refl _
  | cons v rest ih =>
    intro m hm
    simp only [addLoop]
    split
    · refine le_trans ?_ (ih _ (updateFree_valid m hm _))
      rw [cellOf_updateFree m hm]
      split <;> simp [OccupancyDistribution.updateFree]
    · refine le_trans ?_ (ih _ (updateOccupied_valid m hm _ _))
      rw [cellOf_updateOccupied m hm]
      split <;> simp [OccupancyDistribution.updateOccupied]

theorem addLoop_num_free (end_p : Point2d K) (it : List (Visit K)) (k : Fin 4)
    (j : index_t) :
    ∀ m : OccupancyGridmap K, BundlesValid m →
      (cellOf (addLoop end_p it m) k j).num_free_
        = (cellOf m k j).num_free_
          + (it.filter (fun v => decide (m.bundle_resolution_2_ < v.distance2)
              && decide (j = staggered (v.x, v.y) k))).length := by
  induction it with
  | nil => intro m hm; rfl
  | cons v rest ih =>
    intro m hm
    simp only [addLoop, List.filter_cons]
    by_cases hd : m.bundle_resolution_2_ < v.distance2
    · have hc := updateFree_consts m (v.x, v.y)
      simp only [consts, Prod.mk.injEq] at hc
      simp only [gt_iff_lt, hd, if_true, decide_True, Bool.true_and]
      rw [ih _ (updateFree_valid m hm _), hc.2.2.2.2.1, cellOf_updateFree m hm]
      by_cases hj : j = staggered (v.x, v.y) k
      · simp [hj, OccupancyDistribution.updateFree]; omega
      · simp [hj]
    · have hc := updateOccupied_consts m (v.x, v.y) end_p
      simp only [consts, Prod.mk.injEq] at hc
      simp only [gt_iff_lt, hd, if_false, decide_False, Bool.false_and]
      rw [ih _ (updateOccupied_valid m hm _ _), hc.2.2.2.2.1, cellOf_updateOccupied m hm]
      by_cases hj : j = staggered (v.x, v.y) k
      · simp [hj, OccupancyDistribution.updateOccupied]
      · simp [hj]

theorem add_eq (E : Externals K) (m : OccupancyGridmap K) (start_p end_p : Point2d K) :
    add E m start_p end_p
      = updateOccupied
          (addLoop end_p (E.Bresenham (toBundleIndex m start_p) (toBundleIndex m end_p)) m)
          (toBundleIndex m end_p) end_p := rfl

theorem add_num_free (E : Externals K) (m : OccupancyGridmap K) (hm : BundlesValid m)
    (start_p end_p : Point2d K) (k : Fin 4) (j : index_t) :
    (cellOf (add E m start_p end_p) k j).num_free_
      = (cellOf m k j).num_free_
        + ((E.Bresenham (toBundleIndex m start_p) (toBundleIndex m end_p)).filter
            (fun v => decide (m.bundle_resolution_2_ < v.distance2)
              && decide (j = staggered (v.x, v.y) k))).length := by
  rw [add_eq, cellOf_updateOccupied _ (addLoop_valid end_p _ m hm),
    ← addLoop_num_free end_p _ k j m hm]
  split <;> rfl

theorem demo_toBundleIndex (x y : ℚ) :
    toBundleIndex demoMap ⟨x, y⟩ = (Int.floor (x * 2), Int.floor (y * 2)) := by
  simp [toBundleIndex, demoMap, new, identityTransform, Transform2d.inverse,
    Transform2d.apply]

theorem demo_bundle_resolution_2 : demoMap.bundle_resolution_2_ = 1 / 16 := by
  norm_num [demoMap, new]

theorem demo_cellOf (k : Fin 4) (j : index_t) :
    cellOf demoMap k j = OccupancyDistribution.zero := rfl

theorem demo_Bresenham_ray :
    demoExternals.Bresenham (toBundleIndex demoMap ⟨-1 / 2, 0⟩) (toBundleIndex demoMap ⟨1 / 2, 0⟩)
      = [⟨-1, 0, 0⟩] ++ (⟨0, 0, 1⟩ : Visit ℚ) :: [] := by
  simp only [demo_toBundleIndex]
  have h : (Int.toNat 2) = 2 := rfl
  norm_num [demoExternals, demoBresenham, h, List.range_succ]

/-! ## Lemmas on sampling -/

theorem mixtureTerm_getD (g : Distribution K → Point2d K → K) (E : Externals K)
    (inverse_model : InverseModel K) (p : Point2d K) (c : Option (OccupancyDistribution K)) :
    mixtureTerm g E inverse_model p (some (c.getD OccupancyDistribution.zero))
      = mixtureTerm g E inverse_model p c := by
  cases c with
  | none => simp [mixtureTerm, OccupancyDistribution.zero]
  | some c => rfl

theorem mixtureTerm_getAllocate (g : Distribution K → Point2d K → K) (E : Externals K)
    (m : OccupancyGridmap K) (hm : BundlesValid m) (p : Point2d K) (bi : index_t)
    (inverse_model : InverseModel K) (k : Fin 4) :
    mixtureTerm g E inverse_model p (deref (getAllocate m bi).2 k ((getAllocate m bi).1 k))
      = mixtureTerm g E inverse_model p ((m.storage_ k).get (staggered bi k)) := by
  rw [getAllocate_fst m hm]
  simp only [deref, Storage.get, getAllocate_storage m hm, if_true]
  exact mixtureTerm_getD g E inverse_model p _

theorem sampleNonNormalizedAt_fst (E : Externals K) (m : OccupancyGridmap K)
    (hm : BundlesValid m) (p : Point2d K) (bi : index_t) (inverse_model : InverseModel K) :
    (sampleNonNormalizedAt E m p bi inverse_model).1
      = (1 / 4) *
        (mixtureTerm E.sampleNonNormalized E inverse_model p
            ((m.storage_ 0).get (staggered bi 0)) +
         mixtureTerm E.sampleNonNormalized E inverse_model p
            ((m.storage_ 1).get (staggered bi 1)) +
         mixtureTerm E.sampleNonNormalized E inverse_model p
            ((m.storage_ 2).get (staggered bi 2)) +
         mixtureTerm E.sampleNonNormalized E inverse_model p
            ((m.storage_ 3).get (staggered bi 3))) := by
  have key := mixtureTerm_getAllocate E.sampleNonNormalized E m hm p bi inverse_model
  rw [← key 0, ← key 1, ← key 2, ← key 3]
  rfl

theorem sampleAt_fst (E : Externals K) (m : OccupancyGridmap K)
    (hm : BundlesValid m) (p : Point2d K) (bi : index_t) (inverse_model : InverseModel K) :
    (sampleAt E m p bi inverse_model).1
      = (1 / 4) *
        (mixtureTerm E.sample E inverse_model p ((m.storage_ 0).get (staggered bi 0)) +
         mixtureTerm E.sample E inverse_model p ((m.storage_ 1).get (staggered bi 1)) +
         mixtureTerm E.sample E inverse_model p ((m.storage_ 2).get (staggered bi 2)) +
         mixtureTerm E.sample E inverse_model p ((m.storage_ 3).get (staggered bi 3))) := by
  have key := mixtureTerm_getAllocate E.sample E m hm p bi inverse_model
  rw [← key 0, ← key 1, ← key 2, ← key 3]
  rfl

theorem mixtureTerm_nonpos (g : Distribution K → Point2d K → K) (E : Externals K)
    (hE : ∀ l, E.LogOdds_from l ≤ 1) (hg : ∀ d p, 0 ≤ g d p) (inverse_model : InverseModel K)
    (hp : 1 < inverse_model.getLogOddsPrior) (p : Point2d K)
    (d : Option (OccupancyDistribution K)) :
    mixtureTerm g E inverse_model p d ≤ 0 := by
  cases d with
  | none => exact le_refl _
  | some c =>
    cases hd : c.distribution_ with
    | none => simp [mixtureTerm, hd]
    | some dist =>
      simp only [mixtureTerm, occupancy, hd]
      have h1 := hE ((c.num_free_ : K) * inverse_model.getLogOddsFree +
        (c.num_occupied_ : K) * inverse_model.getLogOddsOccupied)
      exact mul_nonpos_of_nonneg_of_nonpos (hg dist p) (by linarith)

theorem mixtureTerm_neg (g : Distribution K → Point2d K → K) (E : Externals K)
    (hE : ∀ l, E.LogOdds_from l ≤ 1) (inverse_model : InverseModel K)
    (hp : 1 < inverse_model.getLogOddsPrior) (p : Point2d K)
    (c : OccupancyDistribution K) (dist : Distribution K) (hd : c.distribution_ = some dist)
    (hpos : 0 < g dist p) :
    mixtureTerm g E inverse_model p (some c) < 0 := by
  simp only [mixtureTerm, occupancy, hd]
  have h1 := hE ((c.num_free_ : K) * inverse_model.getLogOddsFree +
    (c.num_occupied_ : K) * inverse_model.getLogOddsOccupied)
  exact mul_neg_of_pos_of_neg hpos (by linarith)

theorem mixtureTerm_spec_nonneg (g : Distribution K → Point2d K → K) (E : Externals K)
    (hE : ∀ l, 0 ≤ E.LogOdds_from l) (hg : ∀ d p, 0 ≤ g d p) (inverse_model : InverseModel K)
    (p : Point2d K) (d : Option (OccupancyDistribution K)) :
    0 ≤ mixtureTerm_spec g E inverse_model p d := by
  cases d with
  | none => exact le_refl _
  | some c =>
    cases hd : c.distribution_ with
    | none => simp [mixtureTerm_spec, hd]
    | some dist =>
      simp only [mixtureTerm_spec, occupancy_spec, hd]
      exact mul_nonneg (hE _) (hg dist p)

/-- The code's mixture is negative and the spec's is not, for a prior log-odds above 1 and a
bundle with a cell whose Gaussian value at the query point is positive. -/
theorem mixture_divergence (g : Distribution K → Point2d K → K) (E : Externals K)
    (hE : ∀ l, 0 ≤ E.LogOdds_from l ∧ E.LogOdds_from l ≤ 1) (hg : ∀ d p, 0 ≤ g d p)
    (m : OccupancyGridmap K) (p : Point2d K) (bi : index_t) (inverse_model : InverseModel K)
    (hp : 1 < inverse_model.getLogOddsPrior)
    (hcell : ∃ (k : Fin 4) (c : OccupancyDistribution K) (d : Distribution K),
      (m.storage_ k).get (staggered bi k) = some c ∧ c.distribution_ = some d ∧ 0 < g d p) :
    (1 / 4) * (mixtureTerm g E inverse_model p ((m.storage_ 0).get (staggered bi 0)) +
               mixtureTerm g E inverse_model p ((m.storage_ 1).get (staggered bi 1)) +
               mixtureTerm g E inverse_model p ((m.storage_ 2).get (staggered bi 2)) +
               mixtureTerm g E inverse_model p ((m.storage_ 3).get (staggered bi 3))) < 0 ∧
    0 ≤ mixture_spec g E m p bi inverse_model := by
  have hle := fun k : Fin 4 => mixtureTerm_nonpos g E (fun l => (hE l).2) hg inverse_model hp p
    ((m.storage_ k).get (staggered bi k))
  have hge := fun k : Fin 4 => mixtureTerm_spec_nonneg g E (fun l => (hE l).1) hg inverse_model
    p ((m.storage_ k).get (staggered bi k))
  have h0 := hle 0
  have h1 := hle 1
  have h2 := hle 2
  have h3 := hle 3
  have g0 := hge 0
  have g1 := hge 1
  have g2 := hge 2
  have g3 := hge 3
  constructor
  · obtain ⟨k, c, d, hc, hd, hpos⟩ := hcell
    have hneg := mixtureTerm_neg g E (fun l => (hE l).2) inverse_model hp p c d hd hpos
    rw [← hc] at hneg
    fin_cases k <;> simp only [Fin.zero_eta, Fin.mk_one, Fin.reduceFinMk] at hneg <;> linarith
  · simp only [mixture_spec]
    linarith

theorem demo_add_point (m : OccupancyGridmap ℚ) (x y : ℚ) :
    add demoExternals m ⟨x, y⟩ ⟨x, y⟩ = updateOccupied m (toBundleIndex m ⟨x, y⟩) ⟨x, y⟩ := by
  rw [add_eq]
  simp [demoExternals, demoBresenham, addLoop]

theorem demoMap3_reachable : Reachable demoExternals demoMap3 :=
  ⟨identityTransform, 1, _, rfl⟩

theorem demoMap3_get (k : Fin 4) :
    (demoMap3.storage_ k).get (staggered (0, 0) k) = some demoCell3 := by
  have h0 : BundlesValid demoMap := new_valid _ _
  have hm1 : consts (updateOccupied demoMap (0, 0) ⟨1 / 8, 1 / 8⟩) = consts demoMap :=
    updateOccupied_consts _ _ _
  have h1 : BundlesValid (updateOccupied demoMap (0, 0) ⟨1 / 8, 1 / 8⟩) :=
    updateOccupied_valid _ h0 _ _
  have hm2 : consts (updateOccupied (updateOccupied demoMap (0, 0) ⟨1 / 8, 1 / 8⟩) (0, 0)
      ⟨3 / 8, 1 / 8⟩) = consts demoMap := by
    rw [updateOccupied_consts, hm1]
  have h2 : BundlesValid (updateOccupied (updateOccupied demoMap (0, 0) ⟨1 / 8, 1 / 8⟩) (0, 0)
      ⟨3 / 8, 1 / 8⟩) := updateOccupied_valid _ h1 _ _
  have hidx : ∀ (m : OccupancyGridmap ℚ) (x y : ℚ), consts m = consts demoMap →
      toBundleIndex m ⟨x, y⟩ = (Int.floor (x * 2), Int.floor (y * 2)) := by
    intro m x y hc
    rw [← demo_toBundleIndex]
    simp only [consts, Prod.mk.injEq] at hc
    simp only [toBundleIndex, hc.2.2.2.1, hc.2.2.2.2.2.2]
  have e1 : toBundleIndex demoMap ⟨1 / 8, 1 / 8⟩ = (0, 0) := by
    rw [demo_toBundleIndex]; norm_num
  have e2 : toBundleIndex (updateOccupied demoMap (0, 0) ⟨1 / 8, 1 / 8⟩) ⟨3 / 8, 1 / 8⟩
      = (0, 0) := by
    rw [hidx _ _ _ hm1]; norm_num
  have e3 : toBundleIndex (updateOccupied (updateOccupied demoMap (0, 0) ⟨1 / 8, 1 / 8⟩) (0, 0)
      ⟨3 / 8, 1 / 8⟩) ⟨1 / 8, 3 / 8⟩ = (0, 0) := by
    rw [hidx _ _ _ hm2]; norm_num
  have hrun : demoMap3 = updateOccupied (updateOccupied (updateOccupied demoMap (0, 0)
      ⟨1 / 8, 1 / 8⟩) (0, 0) ⟨3 / 8, 1 / 8⟩) (0, 0) ⟨1 / 8, 3 / 8⟩ := by
    simp only [demoMap3, run, List.foldl, step, demo_add_point, e1, e2, e3]
  have hg := get_updateOccupied _ h2 (0, 0) ⟨1 / 8, 3 / 8⟩ k
  have c2 := cellOf_updateOccupied _ h1 (0, 0) ⟨3 / 8, 1 / 8⟩ k (staggered (0, 0) k)
  have c1 := cellOf_updateOccupied _ h0 (0, 0) ⟨1 / 8, 1 / 8⟩ k (staggered (0, 0) k)
  rw [hrun, hg, c2, if_pos rfl, c1, if_pos rfl, demo_cellOf]
  rfl

theorem demoLogOdds_from_range (l : ℚ) :
    0 ≤ demoExternals.LogOdds_from l ∧ demoExternals.LogOdds_from l ≤ 1 := by
  show 0 ≤ 1 / 2 + l / (2 * (1 + |l|)) ∧ 1 / 2 + l / (2 * (1 + |l|)) ≤ 1
  have h1 : (0 : ℚ) < 2 * (1 + |l|) := by positivity
  have h2 : l / (2 * (1 + |l|)) ≤ 1 / 2 := by
    rw [div_le_iff₀ h1]
    have := le_abs_self l
    linarith
  have h3 : -(1 / 2) ≤ l / (2 * (1 + |l|)) := by
    rw [le_div_iff₀ h1]
    have := neg_abs_le l
    linarith
  constructor <;> linarith

theorem demoSampleNonNormalized_nonneg (d : Distribution ℚ) (p : Point2d ℚ) :
    0 ≤ demoSampleNonNormalized d p := by
  unfold demoSampleNonNormalized
  split
  · exact le_refl _
  · split <;> norm_num

theorem demoCell3_sample_pos :
    0 < demoExternals.sampleNonNormalized
      ((((Distribution.zero : Distribution ℚ).add ⟨1 / 8, 1 / 8⟩).add ⟨3 / 8, 1 / 8⟩).add
        ⟨1 / 8, 3 / 8⟩) ⟨5 / 24, 5 / 24⟩ := by
  norm_num [Distribution.add, Distribution.zero, demoExternals, demoSampleNonNormalized,
    Distribution.mean]

theorem demo_sampleNonNormalizedAt_value :
    (sampleNonNormalizedAt demoExternals demoMap3 ⟨5 / 24, 5 / 24⟩ (0, 0) ⟨0, 0, 2⟩).1
      = -3 / 2 := by
  rw [sampleNonNormalizedAt_fst _ _ demoMap3_reachable.valid]
  simp only [demoMap3_get]
  norm_num [mixtureTerm, occupancy, demoCell3, OccupancyDistribution.updateOccupied,
    OccupancyDistribution.zero, Distribution.add, Distribution.zero, demoExternals,
    demoSampleNonNormalized, Distribution.mean, demoLogOdds_from]

theorem averageOccupancy_of_noObservations (E : Externals K) (inverse_model : InverseModel K)
    (m : OccupancyGridmap K) (hm : NoObservations m) (bi : index_t) :
    averageOccupancy E inverse_model m bi = 0 := by
  have key : ∀ (k : Fin 4) (j : index_t),
      occupancy E inverse_model ((m.storage_ k).get j) = 0 := by
    intro k j
    cases hc : (m.storage_ k).get j with
    | none => rfl
    | some c => simp [occupancy, hm k j c hc]
  simp [averageOccupancy, key]

/-! ## Lemmas on frames and the fresh map -/

theorem Reachable.consts_eq {E : Externals K} {m : OccupancyGridmap K} (h : Reachable E m) :
    ∃ (origin : Transform2d K) (resolution : K), consts m = consts (new origin resolution) := by
  obtain ⟨origin, resolution, ops, rfl⟩ := h
  exact ⟨origin, resolution, run_consts E ops _⟩

theorem toBundleIndex_eq_floor_div (E : Externals K) (m : OccupancyGridmap K)
    (hm : Reachable E m) (p : Point2d K) :
    toBundleIndex m p
      = (Int.floor ((m.w_T_m_.inverse.apply p).x / m.bundle_resolution_),
         Int.floor ((m.w_T_m_.inverse.apply p).y / m.bundle_resolution_)) := by
  obtain ⟨origin, resolution, hc⟩ := hm.consts_eq
  simp only [consts, Prod.mk.injEq, new] at hc
  obtain ⟨-, -, h3, h4, -, h6, h7⟩ := hc
  simp only [toBundleIndex, h3, h4, h6, h7, div_eq_mul_inv, one_mul]

theorem Transform2d.inverse_apply_apply (T : Transform2d K)
    (hT : T.cos * T.cos + T.sin * T.sin = 1) (p : Point2d K) :
    T.inverse.apply (T.apply p) = p := by
  cases p with
  | mk x y =>
    simp only [Transform2d.inverse, Transform2d.apply, Point2d.mk.injEq]
    constructor
    · linear_combination x * hT
    · linear_combination y * hT

theorem getRangeIndex_eq_toBundleIndex_of_identity (m : OccupancyGridmap K)
    (hT : m.m_T_w_ = ⟨0, 0, 1, 0⟩) (p : Point2d K) :
    getRangeIndex m p = toBundleIndex m p := by
  simp [getRangeIndex, toBundleIndex, hT, Transform2d.apply]

theorem getRange_eq (E : Externals K) (m : OccupancyGridmap K) (start_p end_p : Point2d K)
    (inverse_model : InverseModel K) (tau : K) :
    getRange E m start_p end_p inverse_model tau
      = getRangeLoop E inverse_model tau start_p end_p
          (E.Bresenham (getRangeIndex m start_p) (getRangeIndex m end_p)) m := rfl

theorem new_allocated (origin : Transform2d K) (resolution : K) (bj : index_t) :
    ¬ Allocated (new origin resolution) bj := by
  simp [Allocated, new, Storage.get]

theorem getAllocate_new (origin : Transform2d K) (resolution : K) (bi : index_t) :
    getAllocate (new origin resolution) bi = allocate_bundle (new origin resolution) bi := rfl

theorem wrap_int_of_range (z : Int) (h1 : INT_MIN ≤ z) (h2 : z ≤ INT_MAX) : wrap_int z = z := by
  unfold INT_MIN at h1
  unfold INT_MAX at h2
  unfold wrap_int
  omega

theorem mixtureTerm_none (g : Distribution K → Point2d K → K) (E : Externals K)
    (inverse_model : InverseModel K) (p : Point2d K) :
    mixtureTerm g E inverse_model p none = 0 := rfl

/-! ## Lemmas on the monotonicity of counts -/

theorem countsLe_refl (c : OccupancyDistribution K) : CountsLe c c :=
  ⟨le_refl _, le_refl _, le_refl _⟩

theorem countsLe_trans {c1 c2 c3 : OccupancyDistribution K} (h1 : CountsLe c1 c2)
    (h2 : CountsLe c2 c3) : CountsLe c1 c3 :=
  ⟨le_trans h1.1 h2.1, le_trans h1.2.1 h2.2.1, le_trans h1.2.2 h2.2.2⟩

theorem CountsLe.updateFree (c : OccupancyDistribution K) : CountsLe c c.updateFree :=
  ⟨Nat.le_succ _, le_refl _, le_refl _⟩

theorem CountsLe.updateOccupied (c : OccupancyDistribution K) (p : Point2d K) :
    CountsLe c (c.updateOccupied p) := by
  refine ⟨le_refl _, Nat.le_succ _, ?_⟩
  cases hd : c.distribution_ with
  | none => simp [sampleCount, hd]
  | some d => simp [sampleCount, hd, OccupancyDistribution.updateOccupied, Distribution.add]

theorem cellsGrow_refl (m : OccupancyGridmap K) : CellsGrow m m :=
  fun _ _ c hc => ⟨c, hc, countsLe_refl c⟩

theorem cellsGrow_trans {m1 m2 m3 : OccupancyGridmap K} (h1 : CellsGrow m1 m2)
    (h2 : CellsGrow m2 m3) : CellsGrow m1 m3 := by
  intro k j c hc
  obtain ⟨c2, hc2, hle2⟩ := h1 k j c hc
  obtain ⟨c3, hc3, hle3⟩ := h2 k j c2 hc2
  exact ⟨c3, hc3, countsLe_trans hle2 hle3⟩

theorem getAllocate_cellsGrow (m : OccupancyGridmap K) (hm : BundlesValid m) (bi : index_t) :
    CellsGrow m (getAllocate m bi).2 := by
  intro k j c hc
  refine ⟨c, ?_, countsLe_refl c⟩
  have hc2 : m.storage_ k j = some c := hc
  simp only [Storage.get, getAllocate_storage m hm, hc2]
  split <;> rfl

theorem updateAll_cellsGrow (m : OccupancyGridmap K) (hm : BundlesValid m) (bi : index_t)
    (f : OccupancyDistribution K → OccupancyDistribution K) (hf : ∀ c, CountsLe c (f c)) :
    CellsGrow m (updateAll (getAllocate m bi).2 (getAllocate m bi).1 f) := by
  intro k j c hc
  have hc2 : m.storage_ k j = some c := hc
  simp only [Storage.get, updateAll_getAllocate_storage m hm, hc2]
  split
  · exact ⟨_, rfl, hf c⟩
  · exact ⟨c, rfl, countsLe_refl c⟩

theorem updateFree_cellsGrow (m : OccupancyGridmap K) (hm : BundlesValid m) (bi : index_t) :
    CellsGrow m (updateFree m bi) := by
  rw [updateFree_eq]
  exact updateAll_cellsGrow m hm bi _ CountsLe.updateFree

theorem updateOccupied_cellsGrow (m : OccupancyGridmap K) (hm : BundlesValid m) (bi : index_t)
    (p : Point2d K) : CellsGrow m (updateOccupied m bi p) := by
  rw [updateOccupied_eq]
  exact updateAll_cellsGrow m hm bi _ (fun c => CountsLe.updateOccupied c p)

theorem addLoop_cellsGrow (end_p : Point2d K) (it : List (Visit K)) :
    ∀ m : OccupancyGridmap K, BundlesValid m → CellsGrow m (addLoop end_p it m) := by
  induction it with
  | nil => intro m _; exact cellsGrow_refl m
  | cons v rest ih =>
    intro m hm
    simp only [addLoop]
    split
    · exact cellsGrow_trans (updateFree_cellsGrow m hm _) (ih _ (updateFree_valid m hm _))
    · exact cellsGrow_trans (updateOccupied_cellsGrow m hm _ _)
        (ih _ (updateOccupied_valid m hm _ _))

theorem getRangeLoop_cellsGrow (E : Externals K) (inverse_model : InverseModel K) (tau : K)
    (start_p end_p : Point2d K) (it : List (Visit K)) :
    ∀ m : OccupancyGridmap K, BundlesValid m →
      CellsGrow m (getRangeLoop E inverse_model tau start_p end_p it m).2 := by
  induction it with
  | nil => intro m _; exact cellsGrow_refl m
  | cons v rest ih =>
    intro m hm
    simp only [getRangeLoop]
    split
    · exact getAllocate_cellsGrow m hm _
    · exact cellsGrow_trans (getAllocate_cellsGrow m hm _) (ih _ (getAllocate_valid m hm _))

theorem step_cellsGrow (E : Externals K) (m : OccupancyGridmap K) (hm : BundlesValid m)
    (op : Op K) : CellsGrow m (step E m op) := by
  cases op with
  | getDistributionBundle bi => exact getAllocate_cellsGrow m hm bi
  | add start_p end_p =>
    rw [step, add_eq]
    exact cellsGrow_trans (addLoop_cellsGrow end_p _ m hm)
      (updateOccupied_cellsGrow _ (addLoop_valid end_p _ m hm) _ _)
  | getRange start_p end_p inverse_model tau =>
    exact getRangeLoop_cellsGrow E inverse_model tau start_p end_p _ m hm
  | sample p inverse_model => exact getAllocate_cellsGrow m hm _
  | sampleAt p bi inverse_model => exact getAllocate_cellsGrow m hm _
  | sampleNonNormalized p inverse_model => exact getAllocate_cellsGrow m hm _
  | sampleNonNormalizedAt p bi inverse_model => exact getAllocate_cellsGrow m hm _

theorem demoShifted_toBundleIndex (x y : ℚ) :
    toBundleIndex demoMapShifted ⟨x, y⟩ = (Int.floor ((x - 1) * 2), Int.floor (y * 2)) := by
  simp [toBundleIndex, demoMapShifted, new, Transform2d.inverse, Transform2d.apply,
    sub_eq_add_neg]

theorem demoShifted_getRangeIndex (x y : ℚ) :
    getRangeIndex demoMapShifted ⟨x, y⟩ = (Int.floor (x * 2), Int.floor (y * 2)) := by
  simp [getRangeIndex, demoMapShifted, new]

theorem demoExp_nonneg (x : ℚ) : 0 ≤ demoExp x := by
  unfold demoExp
  positivity

theorem demoExp_le_one (x : ℚ) : demoExp x ≤ 1 := by
  unfold demoExp
  rw [div_le_one (by positivity)]
  have := abs_nonneg x
  linarith

theorem demo_getOccupancy_range (inverse_model : InverseModel ℚ) (c : OccupancyDistribution ℚ) :
    0 ≤ c.getOccupancy demoCostExternals inverse_model ∧
    c.getOccupancy demoCostExternals inverse_model ≤ 1 := by
  unfold OccupancyDistribution.getOccupancy
  cases c.distribution_ with
  | none => simp
  | some d =>
    by_cases hv : demoCostExternals.valid d = true
    · simp only [hv, if_true]
      exact demoLogOdds_from_range _
    · simp [hv]

theorem demo_getOccupancy_nonneg (inverse_model : InverseModel ℚ)
    (c : OccupancyDistribution ℚ) : 0 ≤ c.getOccupancy demoCostExternals inverse_model :=
  (demo_getOccupancy_range inverse_model c).1

theorem demo_quadForm_nonneg (d : Distribution ℚ) (v : Point2d ℚ) :
    0 ≤ quadForm (demoCostExternals.getInformationMatrix d) v := by
  simp only [quadForm, demoCostExternals]
  norm_num
  nlinarith [mul_self_nonneg v.x, mul_self_nonneg v.y]

end OccupancyGridmap

/-! ## Index arithmetic -/

theorem div_two_eq_floor (a : Int) : div a 2 = Int.floor ((a : ℚ) / 2) := by
  have h := Rat.floor_intCast_div_natCast a 2
  simp only [Nat.cast_ofNat] at h
  rw [h]
  exact Int.fdiv_eq_ediv a (by decide)

theorem mod_two_eq_emod (a : Int) : mod a 2 = a % 2 :=
  Int.fmod_eq_emod a (by decide)

theorem div_two_eq_ediv (a : Int) : div a 2 = a / 2 :=
  Int.fdiv_eq_ediv a (by decide)

theorem mod_two_cases (a : Int) : mod a 2 = 0 ∨ mod a 2 = 1 := by
  rw [mod_two_eq_emod]; omega

theorem div_mod_two (a : Int) : a = 2 * div a 2 + mod a 2 := by
  rw [mod_two_eq_emod, div_two_eq_ediv]; omega

/-! ## Claims -/

namespace OccupancyGridmap

variable {K : Type} [LinearOrderedField K] [FloorRing K]

/-- C1. In every reachable map state and for every bundle index `bi = (i, j)`, negative
components included, `getDistributionBundle(bi)` returns the bundle whose handles point to
the cells `(dx, dy)` of storey 0, `(dx+mx, dy)` of storey 1, `(dx, dy+my)` of storey 2 and
`(dx+mx, dy+my)` of storey 3, these cells exist afterwards, and `d = ⌊bi/2⌋`,
`m = bi mod 2 ∈ {0, 1}` componentwise with `bi = 2*d + m`. -/
theorem C1_bundle_layout (E : Externals K) (m : OccupancyGridmap K) (hm : Reachable E m)
    (bi : index_t) :
    ∃ dx dy mx my : Int,
      dx = Int.floor ((bi.1 : ℚ) / 2) ∧ dy = Int.floor ((bi.2 : ℚ) / 2) ∧
      mx = bi.1 % 2 ∧ my = bi.2 % 2 ∧
      (mx = 0 ∨ mx = 1) ∧ (my = 0 ∨ my = 1) ∧ bi = (2 * dx + mx, 2 * dy + my) ∧
      (getDistributionBundle m bi).1 0 = some (dx, dy) ∧
      (getDistributionBundle m bi).1 1 = some (dx + mx, dy) ∧
      (getDistributionBundle m bi).1 2 = some (dx, dy + my) ∧
      (getDistributionBundle m bi).1 3 = some (dx + mx, dy + my) ∧
      (((getDistributionBundle m bi).2.storage_ 0).get (dx, dy)).isSome = true ∧
      (((getDistributionBundle m bi).2.storage_ 1).get (dx + mx, dy)).isSome = true ∧
      (((getDistributionBundle m bi).2.storage_ 2).get (dx, dy + my)).isSome = true ∧
      (((getDistributionBundle m bi).2.storage_ 3).get (dx + mx, dy + my)).isSome = true := by
  have hv := hm.valid
  have hb := getAllocate_fst m hv bi
  have hc := getAllocate_cache m hv bi bi
  have hv2 := getAllocate_valid m hv bi
  simp only [if_true] at hc
  have hcell := fun k => (hv2 bi _ hc k).2
  refine ⟨div bi.1 2, div bi.2 2, mod bi.1 2, mod bi.2 2, div_two_eq_floor _,
    div_two_eq_floor _, mod_two_eq_emod _, mod_two_eq_emod _, mod_two_cases _, mod_two_cases _,
    ?_, ?_, ?_, ?_, ?_, hcell 0, hcell 1, hcell 2, hcell 3⟩
  · exact Prod.ext (div_mod_two bi.1) (div_mod_two bi.2)
  all_goals simp only [getDistributionBundle, hb]; rfl

/-- C1, evaluated on the fresh unit-resolution map at the bundle index `(-3, 5)`. -/
theorem C1_bundle_layout_witness :
    Reachable demoExternals demoMap ∧
    ∃ dx dy mx my : Int,
      dx = Int.floor (((-3, 5) : index_t).1 / 2 : ℚ) ∧
      dy = Int.floor (((-3, 5) : index_t).2 / 2 : ℚ) ∧
      mx = ((-3, 5) : index_t).1 % 2 ∧ my = ((-3, 5) : index_t).2 % 2 ∧
      (mx = 0 ∨ mx = 1) ∧ (my = 0 ∨ my = 1) ∧ ((-3, 5) : index_t) = (2 * dx + mx, 2 * dy + my) ∧
      (getDistributionBundle demoMap (-3, 5)).1 0 = some (dx, dy) ∧
      (getDistributionBundle demoMap (-3, 5)).1 1 = some (dx + mx, dy) ∧
      (getDistributionBundle demoMap (-3, 5)).1 2 = some (dx, dy + my) ∧
      (getDistributionBundle demoMap (-3, 5)).1 3 = some (dx + mx, dy + my) ∧
      (((getDistributionBundle demoMap (-3, 5)).2.storage_ 0).get (dx, dy)).isSome = true ∧
      (((getDistributionBundle demoMap (-3, 5)).2.storage_ 1).get (dx + mx, dy)).isSome = true ∧
      (((getDistributionBundle demoMap (-3, 5)).2.storage_ 2).get (dx, dy + my)).isSome = true ∧
      (((getDistributionBundle demoMap (-3, 5)).2.storage_ 3).get (dx + mx, dy + my)).isSome
        = true :=
  ⟨⟨identityTransform, 1, [], rfl⟩,
    C1_bundle_layout demoExternals demoMap ⟨identityTransform, 1, [], rfl⟩ (-3, 5)⟩

/-- C2. In every map state reached from a freshly constructed map by any sequence of public
calls, every allocated bundle index lies in the rectangle `[min_index, max_index]`
(componentwise), and after each call that touches a bundle index (`getDistributionBundle`,
`add` at the end index and at every visited index, `sample`, `sampleNonNormalized`, and
`getRange` at every index its loop reaches) that index lies in the rectangle. -/
theorem C2_extent_contains_touched (E : Externals K) (m : OccupancyGridmap K)
    (hm : Reachable E m) :
    (∀ bi, Allocated m bi → InExtent m bi) ∧
    (∀ bi, InExtent (getDistributionBundle m bi).2 bi) ∧
    (∀ start_p end_p, InExtent (add E m start_p end_p) (toBundleIndex m end_p) ∧
      ∀ v ∈ E.Bresenham (toBundleIndex m start_p) (toBundleIndex m end_p),
        InExtent (add E m start_p end_p) (v.x, v.y)) ∧
    (∀ p inverse_model, InExtent (sample E m p inverse_model).2 (toBundleIndex m p)) ∧
    (∀ p bi inverse_model, InExtent (sampleAt E m p bi inverse_model).2 bi) ∧
    (∀ p inverse_model,
      InExtent (sampleNonNormalized E m p inverse_model).2 (toBundleIndex m p)) ∧
    (∀ p bi inverse_model, InExtent (sampleNonNormalizedAt E m p bi inverse_model).2 bi) ∧
    (∀ (start_p end_p : Point2d K) inverse_model tau pre v post,
      E.Bresenham
          (Int.floor (start_p.x * m.bundle_resolution_inv_),
           Int.floor (start_p.y * m.bundle_resolution_inv_))
          (Int.floor (end_p.x * m.bundle_resolution_inv_),
           Int.floor (end_p.y * m.bundle_resolution_inv_)) = pre ++ v :: post →
      (∀ u ∈ pre, ¬ tau ≤ averageOccupancy E inverse_model m (u.x, u.y)) →
      InExtent (getRange E m start_p end_p inverse_model tau).2 (v.x, v.y)) := by
  have hext := hm.extent
  have hval := hm.valid
  have hget : ∀ bi, InExtent (getAllocate m bi).2 bi := fun bi =>
    getAllocate_extent m hext bi bi ((getAllocate_allocated m bi bi).2 (Or.inl rfl))
  refine ⟨hext, hget, ?_, fun p _ => hget _, fun p bi _ => hget bi, fun p _ => hget _,
    fun p bi _ => hget bi, ?_⟩
  · intro start_p end_p
    have hadd := add_extent E m hext start_p end_p
    have hall : ∀ bj, Allocated (add E m start_p end_p) bj ↔
        (bj = toBundleIndex m end_p ∨
          ((∃ v ∈ E.Bresenham (toBundleIndex m start_p) (toBundleIndex m end_p),
              bj = (v.x, v.y)) ∨ Allocated m bj)) := by
      intro bj
      rw [← addLoop_allocated end_p]
      exact updateOccupied_allocated _ _ bj end_p
    refine ⟨hadd _ ((hall _).2 (Or.inl rfl)), ?_⟩
    intro v hv
    exact hadd _ ((hall _).2 (Or.inr (Or.inl ⟨v, hv, rfl⟩)))
  · intro start_p end_p inverse_model tau pre v post hit hpre
    exact getRangeLoop_extent E inverse_model tau start_p end_p _ m hext _
      (getRangeLoop_allocated E inverse_model tau start_p end_p _ m hval pre post v hit hpre)

/-- C2, evaluated after `getDistributionBundle((0, 5))` and `getDistributionBundle((1, 0))`
on the fresh unit-resolution map: both indices lie in the tracked rectangle. -/
theorem C2_extent_contains_touched_witness :
    Reachable demoExternals
      (run demoExternals demoMap [Op.getDistributionBundle (0, 5),
        Op.getDistributionBundle (1, 0)]) ∧
    InExtent (run demoExternals demoMap [Op.getDistributionBundle (0, 5),
        Op.getDistributionBundle (1, 0)]) (0, 5) ∧
    InExtent (run demoExternals demoMap [Op.getDistributionBundle (0, 5),
        Op.getDistributionBundle (1, 0)]) (1, 0) :=
  ⟨⟨identityTransform, 1, _, rfl⟩,
    (C2_extent_contains_touched demoExternals _ ⟨identityTransform, 1, _, rfl⟩).1 (0, 5)
      (by decide),
    (C2_extent_contains_touched demoExternals _ ⟨identityTransform, 1, _, rfl⟩).1 (1, 0)
      (by decide)⟩

/-- C3. Lookup is idempotent: in every map state, a second `getDistributionBundle(bi)`
returns the same bundle (the same four handles) as the first and leaves the map unchanged,
in particular the four storeys, the bundle cache, `min_index` and `max_index`. -/
theorem C3_lookup_idempotent (m : OccupancyGridmap K) (bi : index_t) :
    (getDistributionBundle (getDistributionBundle m bi).2 bi).1 = (getDistributionBundle m bi).1 ∧
    (getDistributionBundle (getDistributionBundle m bi).2 bi).2 = (getDistributionBundle m bi).2 ∧
    (getDistributionBundle (getDistributionBundle m bi).2 bi).2.storage_
      = (getDistributionBundle m bi).2.storage_ ∧
    (getDistributionBundle (getDistributionBundle m bi).2 bi).2.bundle_storage_
      = (getDistributionBundle m bi).2.bundle_storage_ ∧
    (getDistributionBundle (getDistributionBundle m bi).2 bi).2.min_index_
      = (getDistributionBundle m bi).2.min_index_ ∧
    (getDistributionBundle (getDistributionBundle m bi).2 bi).2.max_index_
      = (getDistributionBundle m bi).2.max_index_ := by
  have h := getAllocate_of_hit (getAllocate m bi).2 bi _ (getAllocate_hit m bi)
  simp only [getDistributionBundle, h, and_self]

/-- C4. In every reachable map state, every bundle of the bundle cache, and every bundle
returned by `getDistributionBundle`, has four non-null handles, and handle `k` points to the
staggered index of the bundle index in storey `k`, where a cell exists. -/
theorem C4_bundle_handles_valid (E : Externals K) (m : OccupancyGridmap K)
    (hm : Reachable E m) :
    (∀ bi b, m.bundle_storage_.get bi = some b → ∀ k : Fin 4,
      ∃ i, b k = some i ∧ i = staggered bi k ∧ ∃ c, (m.storage_ k).get i = some c) ∧
    (∀ bi (k : Fin 4),
      ∃ i, (getDistributionBundle m bi).1 k = some i ∧ i = staggered bi k ∧
        ∃ c, ((getDistributionBundle m bi).2.storage_ k).get i = some c) := by
  have hval := hm.valid
  have key : ∀ m2 : OccupancyGridmap K, BundlesValid m2 →
      ∀ bi b, m2.bundle_storage_.get bi = some b → ∀ k : Fin 4,
      ∃ i, b k = some i ∧ i = staggered bi k ∧ ∃ c, (m2.storage_ k).get i = some c := by
    intro m2 h2 bi b hb k
    obtain ⟨h3, h4⟩ := h2 bi b hb k
    exact ⟨_, h3, rfl, Option.isSome_iff_exists.mp h4⟩
  exact ⟨key m hval, fun bi k =>
    key _ (getAllocate_valid m hval bi) bi _ (getAllocate_hit m bi) k⟩

/-- C4, evaluated after `getDistributionBundle((-1, 2))` on the fresh unit-resolution map. -/
theorem C4_bundle_handles_valid_witness :
    Reachable demoExternals (run demoExternals demoMap [Op.getDistributionBundle (-1, 2)]) ∧
    ∀ k : Fin 4, ∃ i,
      (getDistributionBundle
        (run demoExternals demoMap [Op.getDistributionBundle (-1, 2)]) (-1, 2)).1 k = some i ∧
      i = staggered (-1, 2) k ∧
      ∃ c, ((getDistributionBundle
        (run demoExternals demoMap [Op.getDistributionBundle (-1, 2)]) (-1, 2)).2.storage_ k).get i
          = some c :=
  ⟨⟨identityTransform, 1, _, rfl⟩,
    (C4_bundle_handles_valid demoExternals _ ⟨identityTransform, 1, _, rfl⟩).2 (-1, 2)⟩

theorem addTimes_zero (d : Distribution K) (p : Point2d K) : d.addTimes p 0 = d := by
  cases d with
  | mk n sum cxx cxy cyx cyy =>
    cases sum
    simp [Distribution.addTimes]

theorem addTimes_add (d : Distribution K) (p : Point2d K) (n : Nat) :
    (d.add p).addTimes p n = d.addTimes p (n + 1) := by
  simp only [Distribution.addTimes, Distribution.add, Nat.cast_add, Nat.cast_one,
    Distribution.mk.injEq, Point2d.mk.injEq]
  refine ⟨by omega, ⟨by ring, by ring⟩, by ring, by ring, by ring, by ring⟩

theorem addTimes_succ (d : Distribution K) (p : Point2d K) (n : Nat) :
    d.addTimes p (n + 1) = (d.addTimes p n).add p := by
  simp only [Distribution.addTimes, Distribution.add, Nat.cast_add, Nat.cast_one,
    Distribution.mk.injEq, Point2d.mk.injEq]
  refine ⟨by omega, ⟨by ring, by ring⟩, by ring, by ring, by ring, by ring⟩

theorem addTimes_eq_iterate (d : Distribution K) (p : Point2d K) (n : Nat) :
    d.addTimes p n = (fun e : Distribution K => e.add p)^[n] d := by
  induction n with
  | zero => exact addTimes_zero d p
  | succ n ih => rw [addTimes_succ, Function.iterate_succ_apply', ih]

theorem stats_updateOccupied (c : OccupancyDistribution K) (p : Point2d K) :
    (c.updateOccupied p).stats = c.stats.add p := rfl

theorem stats_updateFree (c : OccupancyDistribution K) : c.updateFree.stats = c.stats := rfl

theorem addLoop_occupied (end_p : Point2d K) (it : List (Visit K)) (k : Fin 4)
    (j : index_t) :
    ∀ m : OccupancyGridmap K, BundlesValid m →
      (cellOf (addLoop end_p it m) k j).num_occupied_
        = (cellOf m k j).num_occupied_
          + (it.filter (fun v => !decide (m.bundle_resolution_2_ < v.distance2)
              && decide (j = staggered (v.x, v.y) k))).length ∧
      (cellOf (addLoop end_p it m) k j).stats
        = (cellOf m k j).stats.addTimes end_p
            (it.filter (fun v => !decide (m.bundle_resolution_2_ < v.distance2)
              && decide (j = staggered (v.x, v.y) k))).length := by
  induction it with
  | nil =>
    intro m hm
    exact ⟨rfl, (addTimes_zero _ _).symm⟩
  | cons v rest ih =>
    intro m hm
    simp only [addLoop, List.filter_cons]
    by_cases hd : m.bundle_resolution_2_ < v.distance2
    · have hc := updateFree_consts m (v.x, v.y)
      simp only [consts, Prod.mk.injEq] at hc
      simp only [gt_iff_lt, hd, if_true, decide_True, Bool.not_true, Bool.false_and,
        Bool.false_eq_true, if_false]
      obtain ⟨h1, h2⟩ := ih _ (updateFree_valid m hm (v.x, v.y))
      rw [h1, h2, hc.2.2.2.2.1, cellOf_updateFree m hm]
      by_cases hj : j = staggered (v.x, v.y) k
      · simp only [hj, if_true, stats_updateFree, and_true]
        rfl
      · simp only [hj, if_false, and_self]
    · have hc := updateOccupied_consts m (v.x, v.y) end_p
      simp only [consts, Prod.mk.injEq] at hc
      simp only [gt_iff_lt, hd, if_false, decide_False, Bool.not_false, Bool.true_and]
      obtain ⟨h1, h2⟩ := ih _ (updateOccupied_valid m hm (v.x, v.y) end_p)
      rw [h1, h2, hc.2.2.2.2.1, cellOf_updateOccupied m hm]
      by_cases hj : j = staggered (v.x, v.y) k
      · simp only [hj, if_true, decide_True, List.length_cons, stats_updateOccupied,
          addTimes_add, and_true]
        simp only [OccupancyDistribution.updateOccupied]
        omega
      · simp [hj]

/-- C5. In every reachable map state and for every start and end point, after
`add(start, end)` each of the four storey cells of the bundle at `toBundleIndex(end)` exists,
and with `n = 1 + ` the number of visits of the ray iterator that applied `updateOccupied` to
a bundle holding this cell (`n ≥ 1` whatever the iterator visited): the occupied count of the
cell has grown by exactly `n`, and its statistics are those before the call with the point
`end` added `n` times (`N + n`, `S + n·end`, `C + n·end endᵀ`, a cell without statistics
counting as zero statistics); the cell is `updateOccupied(end)` of the cell as the loop left
it. -/
theorem C5_endpoint_updated (E : Externals K) (m : OccupancyGridmap K) (hm : Reachable E m)
    (start_p end_p : Point2d K) (k : Fin 4) :
    ∃ n : Nat,
      n = 1 + ((E.Bresenham (toBundleIndex m start_p) (toBundleIndex m end_p)).filter
          (fun v => !decide (m.bundle_resolution_2_ < v.distance2)
            && decide (staggered (toBundleIndex m end_p) k = staggered (v.x, v.y) k))).length ∧
      1 ≤ n ∧
      ((add E m start_p end_p).storage_ k).get (staggered (toBundleIndex m end_p) k)
        = some (cellOf (add E m start_p end_p) k (staggered (toBundleIndex m end_p) k)) ∧
      (cellOf (add E m start_p end_p) k (staggered (toBundleIndex m end_p) k)).num_occupied_
        = (cellOf m k (staggered (toBundleIndex m end_p) k)).num_occupied_ + n ∧
      (cellOf (add E m start_p end_p) k (staggered (toBundleIndex m end_p) k)).distribution_
        = some ((cellOf m k (staggered (toBundleIndex m end_p) k)).stats.addTimes end_p n) ∧
      (cellOf m k (staggered (toBundleIndex m end_p) k)).stats.addTimes end_p n
        = (fun e : Distribution K => e.add end_p)^[n]
            (cellOf m k (staggered (toBundleIndex m end_p) k)).stats ∧
      cellOf (add E m start_p end_p) k (staggered (toBundleIndex m end_p) k)
        = (cellOf (addLoop end_p (E.Bresenham (toBundleIndex m start_p) (toBundleIndex m end_p))
            m) k (staggered (toBundleIndex m end_p) k)).updateOccupied end_p := by
  have hval := hm.valid
  have hL := addLoop_valid end_p
    (E.Bresenham (toBundleIndex m start_p) (toBundleIndex m end_p)) m hval
  have hget := get_updateOccupied _ hL (toBundleIndex m end_p) end_p k
  obtain ⟨h1, h2⟩ := addLoop_occupied end_p
    (E.Bresenham (toBundleIndex m start_p) (toBundleIndex m end_p)) k
    (staggered (toBundleIndex m end_p) k) m hval
  have hcell : cellOf (add E m start_p end_p) k (staggered (toBundleIndex m end_p) k)
      = (cellOf (addLoop end_p (E.Bresenham (toBundleIndex m start_p) (toBundleIndex m end_p))
          m) k (staggered (toBundleIndex m end_p) k)).updateOccupied end_p := by
    rw [add_eq]
    simp only [cellOf, hget, Option.getD_some]
  refine ⟨_, rfl, by omega, ?_, ?_, ?_, addTimes_eq_iterate _ _ _, hcell⟩
  · rw [hcell, add_eq, hget]
  · rw [hcell]
    simp only [OccupancyDistribution.updateOccupied, h1]
    omega
  · rw [hcell]
    have h3 : ((cellOf (addLoop end_p
        (E.Bresenham (toBundleIndex m start_p) (toBundleIndex m end_p)) m) k
        (staggered (toBundleIndex m end_p) k)).updateOccupied end_p).distribution_
        = some ((cellOf (addLoop end_p
            (E.Bresenham (toBundleIndex m start_p) (toBundleIndex m end_p)) m) k
            (staggered (toBundleIndex m end_p) k)).stats.add end_p) := rfl
    rw [h3, h2, add_comm 1, addTimes_succ]

/-- C5, evaluated on the fresh unit-resolution map for the ray from `(-1/2, 0)` to
`(1/2, 0)` and storey 0: the iterator visits bundle `(-1, 0)` near the start (its storey-0
cell is `(-1, 0)`) and bundle `(0, 0)` beyond the threshold, so `n = 1`, and the storey-0
cell `(0, 0)` of the end bundle `(1, 0)` holds exactly the point `(1/2, 0)`. -/
theorem C5_endpoint_updated_witness :
    Reachable demoExternals demoMap ∧
    ∃ n : Nat,
      n = 1 + ((demoExternals.Bresenham (toBundleIndex demoMap ⟨-1 / 2, 0⟩)
          (toBundleIndex demoMap ⟨1 / 2, 0⟩)).filter
          (fun v => !decide (demoMap.bundle_resolution_2_ < v.distance2)
            && decide (staggered (toBundleIndex demoMap ⟨1 / 2, 0⟩) 0
                = staggered (v.x, v.y) 0))).length ∧
      1 ≤ n ∧
      ((add demoExternals demoMap ⟨-1 / 2, 0⟩ ⟨1 / 2, 0⟩).storage_ 0).get
          (staggered (toBundleIndex demoMap ⟨1 / 2, 0⟩) 0)
        = some (cellOf (add demoExternals demoMap ⟨-1 / 2, 0⟩ ⟨1 / 2, 0⟩) 0
            (staggered (toBundleIndex demoMap ⟨1 / 2, 0⟩) 0)) ∧
      (cellOf (add demoExternals demoMap ⟨-1 / 2, 0⟩ ⟨1 / 2, 0⟩) 0
          (staggered (toBundleIndex demoMap ⟨1 / 2, 0⟩) 0)).num_occupied_
        = (cellOf demoMap 0 (staggered (toBundleIndex demoMap ⟨1 / 2, 0⟩) 0)).num_occupied_
          + n ∧
      (cellOf (add demoExternals demoMap ⟨-1 / 2, 0⟩ ⟨1 / 2, 0⟩) 0
          (staggered (toBundleIndex demoMap ⟨1 / 2, 0⟩) 0)).distribution_
        = some ((cellOf demoMap 0
            (staggered (toBundleIndex demoMap ⟨1 / 2, 0⟩) 0)).stats.addTimes ⟨1 / 2, 0⟩ n) ∧
      n = 1 :=
  have h := C5_endpoint_updated demoExternals demoMap ⟨identityTransform, 1, [], rfl⟩
    ⟨-1 / 2, 0⟩ ⟨1 / 2, 0⟩ 0
  have hb : toBundleIndex demoMap ⟨1 / 2, 0⟩ = (1, 0) := by
    rw [demo_toBundleIndex]; norm_num
  have hcount : ((demoExternals.Bresenham (toBundleIndex demoMap ⟨-1 / 2, 0⟩)
      (toBundleIndex demoMap ⟨1 / 2, 0⟩)).filter
      (fun v => !decide (demoMap.bundle_resolution_2_ < v.distance2)
        && decide (staggered (toBundleIndex demoMap ⟨1 / 2, 0⟩) 0
            = staggered (v.x, v.y) 0))).length = 0 := by
    have hs : decide (staggered (1, 0) 0 = staggered (-1, 0) 0) = false := by decide
    rw [demo_Bresenham_ray, demo_bundle_resolution_2, hb]
    norm_num [List.filter, hs]
  ⟨⟨identityTransform, 1, [], rfl⟩,
    h.elim fun n hn =>
      ⟨n, hn.1, hn.2.1, hn.2.2.1, hn.2.2.2.1, hn.2.2.2.2.1, by rw [hn.1, hcount]⟩⟩

/-- C6. In every reachable map state the threshold `bundle_resolution_2_` equals
`(r/2)^2 = R^2/16`, and during `add(start, end)` each visit of the ray iterator applies to
the visited bundle `updateFree` when the iterator's squared distance exceeds that threshold
(leaving every occupied count and statistics cell as it was) and `updateOccupied(end)`
otherwise (leaving every free count as it was): one of the two, never both. -/
theorem C6_visit_update (E : Externals K) (m : OccupancyGridmap K) (hm : Reachable E m)
    (start_p end_p : Point2d K) (pre post : List (Visit K)) (v : Visit K)
    (hit : E.Bresenham (toBundleIndex m start_p) (toBundleIndex m end_p) = pre ++ v :: post) :
    m.bundle_resolution_2_ = (m.bundle_resolution_ / 2) ^ 2 ∧
    m.bundle_resolution_2_ = m.resolution_ ^ 2 / 16 ∧
    ((m.bundle_resolution_ / 2) ^ 2 < v.distance2 →
      addLoop end_p (pre ++ [v]) m = updateFree (addLoop end_p pre m) (v.x, v.y) ∧
      ∀ k j, (cellOf (addLoop end_p (pre ++ [v]) m) k j).num_occupied_
            = (cellOf (addLoop end_p pre m) k j).num_occupied_ ∧
          (cellOf (addLoop end_p (pre ++ [v]) m) k j).distribution_
            = (cellOf (addLoop end_p pre m) k j).distribution_) ∧
    (¬ (m.bundle_resolution_ / 2) ^ 2 < v.distance2 →
      addLoop end_p (pre ++ [v]) m = updateOccupied (addLoop end_p pre m) (v.x, v.y) end_p ∧
      ∀ k j, (cellOf (addLoop end_p (pre ++ [v]) m) k j).num_free_
            = (cellOf (addLoop end_p pre m) k j).num_free_) ∧
    add E m start_p end_p
      = updateOccupied (addLoop end_p post (addLoop end_p (pre ++ [v]) m))
          (toBundleIndex m end_p) end_p := by
  have h2 := hm.bundle_resolution_2
  have h1 := hm.bundle_resolution
  have hthr : m.bundle_resolution_2_ = (m.bundle_resolution_ / 2) ^ 2 := by
    rw [h2]; ring
  have hpre := addLoop_valid end_p pre m hm.valid
  have hc := addLoop_consts end_p pre m
  simp only [consts, Prod.mk.injEq] at hc
  have hstep : addLoop end_p (pre ++ [v]) m
      = if v.distance2 > (addLoop end_p pre m).bundle_resolution_2_
        then updateFree (addLoop end_p pre m) (v.x, v.y)
        else updateOccupied (addLoop end_p pre m) (v.x, v.y) end_p := by
    rw [addLoop_append]; rfl
  rw [hc.2.2.2.2.1, hthr] at hstep
  refine ⟨hthr, ?_, ?_, ?_, ?_⟩
  · rw [h2, h1]; ring
  · intro hd
    rw [hstep, if_pos hd]
    refine ⟨rfl, fun k j => ?_⟩
    rw [cellOf_updateFree _ hpre]
    split <;> simp [OccupancyDistribution.updateFree]
  · intro hd
    rw [hstep, if_neg hd]
    refine ⟨rfl, fun k j => ?_⟩
    rw [cellOf_updateOccupied _ hpre]
    split <;> simp [OccupancyDistribution.updateOccupied]
  · rw [add_eq, hit, ← addLoop_append, List.append_assoc]
    rfl

/-- C6, evaluated on the fresh unit-resolution map for the ray from `(-1/2, 0)` to
`(1/2, 0)`: the visit of bundle `(0, 0)` at squared distance `1 > 1/16` is an `updateFree`. -/
theorem C6_visit_update_witness :
    Reachable demoExternals demoMap ∧
    demoExternals.Bresenham (toBundleIndex demoMap ⟨-1 / 2, 0⟩) (toBundleIndex demoMap ⟨1 / 2, 0⟩)
      = [⟨-1, 0, 0⟩] ++ (⟨0, 0, 1⟩ : Visit ℚ) :: [] ∧
    demoMap.bundle_resolution_2_ = (demoMap.bundle_resolution_ / 2) ^ 2 ∧
    demoMap.bundle_resolution_2_ = demoMap.resolution_ ^ 2 / 16 ∧
    addLoop ⟨1 / 2, 0⟩ ([⟨-1, 0, 0⟩] ++ [(⟨0, 0, 1⟩ : Visit ℚ)]) demoMap
      = updateFree (addLoop ⟨1 / 2, 0⟩ [(⟨-1, 0, 0⟩ : Visit ℚ)] demoMap) (0, 0) :=
  ⟨⟨identityTransform, 1, [], rfl⟩, demo_Bresenham_ray,
    (C6_visit_update demoExternals demoMap ⟨identityTransform, 1, [], rfl⟩ ⟨-1 / 2, 0⟩
      ⟨1 / 2, 0⟩ [⟨-1, 0, 0⟩] [] ⟨0, 0, 1⟩ demo_Bresenham_ray).1,
    (C6_visit_update demoExternals demoMap ⟨identityTransform, 1, [], rfl⟩ ⟨-1 / 2, 0⟩
      ⟨1 / 2, 0⟩ [⟨-1, 0, 0⟩] [] ⟨0, 0, 1⟩ demo_Bresenham_ray).2.1,
    ((C6_visit_update demoExternals demoMap ⟨identityTransform, 1, [], rfl⟩ ⟨-1 / 2, 0⟩
      ⟨1 / 2, 0⟩ [⟨-1, 0, 0⟩] [] ⟨0, 0, 1⟩ demo_Bresenham_ray).2.2.1
        (by norm_num [demoMap, new])).1⟩

/-- C7 fails as stated: on the fresh unit-resolution map, `add((-1/2, 0), (1/2, 0))` visits
bundle `(-1, 0)` at squared distance `0` and bundle `(0, 0)` at squared distance `1 > 1/16`;
the `updateFree` of bundle `(0, 0)` raises the free count of the storey-0 cell `(0, 0)`,
a cell of the end point's bundle `(1, 0)`, and of the storey-1 cell `(0, 0)`, a cell of the
near-source bundle `(-1, 0)`, from 0 to 1. -/
theorem C7_counterexample :
    toBundleIndex demoMap ⟨1 / 2, 0⟩ = (1, 0) ∧ staggered (1, 0) 0 = (0, 0) ∧
    staggered (-1, 0) 1 = (0, 0) ∧
    (cellOf demoMap 0 (0, 0)).num_free_ = 0 ∧
    (cellOf (add demoExternals demoMap ⟨-1 / 2, 0⟩ ⟨1 / 2, 0⟩) 0 (0, 0)).num_free_ = 1 ∧
    (cellOf demoMap 1 (0, 0)).num_free_ = 0 ∧
    (cellOf (add demoExternals demoMap ⟨-1 / 2, 0⟩ ⟨1 / 2, 0⟩) 1 (0, 0)).num_free_ = 1 ∧
    ¬ ((cellOf (add demoExternals demoMap ⟨-1 / 2, 0⟩ ⟨1 / 2, 0⟩) 0
          (staggered (toBundleIndex demoMap ⟨1 / 2, 0⟩) 0)).num_free_
        = (cellOf demoMap 0 (staggered (toBundleIndex demoMap ⟨1 / 2, 0⟩) 0)).num_free_) := by
  have hv : BundlesValid demoMap := new_valid _ _
  have h0 : (cellOf (add demoExternals demoMap ⟨-1 / 2, 0⟩ ⟨1 / 2, 0⟩) 0 (0, 0)).num_free_ = 1 := by
    rw [add_num_free demoExternals demoMap hv, demo_Bresenham_ray, demo_bundle_resolution_2,
      demo_cellOf]
    norm_num [List.filter, OccupancyDistribution.zero]
    decide
  have h1 : (cellOf (add demoExternals demoMap ⟨-1 / 2, 0⟩ ⟨1 / 2, 0⟩) 1 (0, 0)).num_free_ = 1 := by
    rw [add_num_free demoExternals demoMap hv, demo_Bresenham_ray, demo_bundle_resolution_2,
      demo_cellOf]
    norm_num [List.filter, OccupancyDistribution.zero]
    decide
  have hb : toBundleIndex demoMap ⟨1 / 2, 0⟩ = (1, 0) := by
    rw [demo_toBundleIndex]; norm_num
  have hs : staggered (1, 0) 0 = (0, 0) := by decide
  refine ⟨hb, hs, by decide, rfl, h0, rfl, h1, ?_⟩
  rw [hb, hs, h0, demo_cellOf]
  decide

/-- C7 (amended). In every reachable map state, `updateOccupied`, the update `add` applies
to the end point's bundle and to each visited bundle whose squared distance to the start is
at most `(r/2)^2`, leaves the free count of every storey cell unchanged; and after
`add(start, end)` the free count of a storey cell is its count before the call plus the
number of visited bundles with squared distance above `(r/2)^2` that have the cell as their
staggered cell of that storey.  A cell of the end point's bundle or of a near-source bundle
therefore keeps its free count exactly when no such farther visited bundle shares it. -/
theorem C7_free_counts_after_add (E : Externals K) (m : OccupancyGridmap K)
    (hm : Reachable E m) (start_p end_p : Point2d K) (k : Fin 4) (j : index_t) :
    (∀ bi p, (cellOf (updateOccupied m bi p) k j).num_free_ = (cellOf m k j).num_free_) ∧
    (cellOf (add E m start_p end_p) k j).num_free_
      = (cellOf m k j).num_free_
        + ((E.Bresenham (toBundleIndex m start_p) (toBundleIndex m end_p)).filter
            (fun v => decide ((m.bundle_resolution_ / 2) ^ 2 < v.distance2)
              && decide (j = staggered (v.x, v.y) k))).length := by
  have h2 := hm.bundle_resolution_2
  have hthr : m.bundle_resolution_2_ = (m.bundle_resolution_ / 2) ^ 2 := by
    rw [h2]; ring
  constructor
  · intro bi p
    rw [cellOf_updateOccupied m hm.valid]
    split <;> rfl
  · rw [add_num_free E m hm.valid, hthr]

/-- C7 (amended), evaluated on the fresh unit-resolution map for the ray from `(-1/2, 0)`
to `(1/2, 0)` and the storey-0 cell `(0, 0)`. -/
theorem C7_free_counts_after_add_witness :
    Reachable demoExternals demoMap ∧
    (cellOf (add demoExternals demoMap ⟨-1 / 2, 0⟩ ⟨1 / 2, 0⟩) 0 (0, 0)).num_free_
      = (cellOf demoMap 0 (0, 0)).num_free_
        + ((demoExternals.Bresenham (toBundleIndex demoMap ⟨-1 / 2, 0⟩)
              (toBundleIndex demoMap ⟨1 / 2, 0⟩)).filter
            (fun v => decide ((demoMap.bundle_resolution_ / 2) ^ 2 < v.distance2)
              && decide ((0, 0) = staggered (v.x, v.y) 0))).length :=
  ⟨⟨identityTransform, 1, [], rfl⟩,
    (C7_free_counts_after_add demoExternals demoMap ⟨identityTransform, 1, [], rfl⟩
      ⟨-1 / 2, 0⟩ ⟨1 / 2, 0⟩ 0 (0, 0)).2⟩

/-- C8 fails on the code. In every reachable map state, for every log-odds conversion with
values in `[0, 1]`, non-negative Gaussian evaluations, and an inverse model with
`logOddsPrior > 1`: if a cell of the bundle at `bi` has a positive Gaussian value at `p`,
then `sampleNonNormalized(p, bi, M)`, respectively `sample(p, bi, M)`, is negative, since the
code weights each cell by `from(F·ℓf + O·ℓo) − ℓp`, whereas the mixture
`¼ Σk sigmoid(F·ℓf + O·ℓo − ℓp) · N(p; μk, Σk)` of the claim is non-negative. -/
theorem C8_sample_divergence (E : Externals K)
    (hE : ∀ l, 0 ≤ E.LogOdds_from l ∧ E.LogOdds_from l ≤ 1)
    (hN : ∀ d p, 0 ≤ E.sampleNonNormalized d p) (hS : ∀ d p, 0 ≤ E.sample d p)
    (m : OccupancyGridmap K) (hm : Reachable E m) (p : Point2d K) (bi : index_t)
    (inverse_model : InverseModel K) (hp : 1 < inverse_model.getLogOddsPrior) :
    ((∃ (k : Fin 4) (c : OccupancyDistribution K) (d : Distribution K),
        (m.storage_ k).get (staggered bi k) = some c ∧ c.distribution_ = some d ∧
        0 < E.sampleNonNormalized d p) →
      (sampleNonNormalizedAt E m p bi inverse_model).1 < 0 ∧
      0 ≤ mixture_spec E.sampleNonNormalized E m p bi inverse_model) ∧
    ((∃ (k : Fin 4) (c : OccupancyDistribution K) (d : Distribution K),
        (m.storage_ k).get (staggered bi k) = some c ∧ c.distribution_ = some d ∧
        0 < E.sample d p) →
      (sampleAt E m p bi inverse_model).1 < 0 ∧
      0 ≤ mixture_spec E.sample E m p bi inverse_model) := by
  constructor
  · intro hcell
    rw [sampleNonNormalizedAt_fst E m hm.valid]
    exact mixture_divergence E.sampleNonNormalized E hE hN m p bi inverse_model hp hcell
  · intro hcell
    rw [sampleAt_fst E m hm.valid]
    exact mixture_divergence E.sample E hE hS m p bi inverse_model hp hcell

/-- C8 at the failing input: on the map holding the three points `(1/8, 1/8)`, `(3/8, 1/8)`,
`(1/8, 3/8)` in bundle `(0, 0)`, queried at their mean `(5/24, 5/24)` with the inverse model
`(ℓf, ℓo, ℓp) = (0, 0, 2)`, `sampleNonNormalized(p, bi, M)` is `¼·4·1·(from(0) − 2) = −3/2`,
while the mixture of the claim is non-negative. -/
theorem C8_sample_divergence_witness :
    (∀ l, 0 ≤ demoExternals.LogOdds_from l ∧ demoExternals.LogOdds_from l ≤ 1) ∧
    (∀ d p, 0 ≤ demoExternals.sampleNonNormalized d p) ∧
    Reachable demoExternals demoMap3 ∧
    (1 : ℚ) < (⟨0, 0, 2⟩ : InverseModel ℚ).getLogOddsPrior ∧
    (sampleNonNormalizedAt demoExternals demoMap3 ⟨5 / 24, 5 / 24⟩ (0, 0) ⟨0, 0, 2⟩).1 = -3 / 2 ∧
    (sampleNonNormalizedAt demoExternals demoMap3 ⟨5 / 24, 5 / 24⟩ (0, 0) ⟨0, 0, 2⟩).1 < 0 ∧
    0 ≤ mixture_spec demoExternals.sampleNonNormalized demoExternals demoMap3 ⟨5 / 24, 5 / 24⟩
      (0, 0) ⟨0, 0, 2⟩ :=
  have hN : ∀ (d : Distribution ℚ) (p : Point2d ℚ), 0 ≤ demoExternals.sampleNonNormalized d p :=
    demoSampleNonNormalized_nonneg
  have hcell : ∃ (k : Fin 4) (c : OccupancyDistribution ℚ) (d : Distribution ℚ),
      (demoMap3.storage_ k).get (staggered (0, 0) k) = some c ∧ c.distribution_ = some d ∧
      0 < demoExternals.sampleNonNormalized d ⟨5 / 24, 5 / 24⟩ :=
    ⟨0, demoCell3, _, demoMap3_get 0, rfl, demoCell3_sample_pos⟩
  ⟨demoLogOdds_from_range, hN, demoMap3_reachable, by norm_num, demo_sampleNonNormalizedAt_value,
    ((C8_sample_divergence demoExternals demoLogOdds_from_range hN hN demoMap3
      demoMap3_reachable ⟨5 / 24, 5 / 24⟩ (0, 0) ⟨0, 0, 2⟩ (by norm_num)).1 hcell).1,
    ((C8_sample_divergence demoExternals demoLogOdds_from_range hN hN demoMap3
      demoMap3_reachable ⟨5 / 24, 5 / 24⟩ (0, 0) ⟨0, 0, 2⟩ (by norm_num)).1 hcell).2⟩

/-- C9 fails on the code: for every log-odds conversion with values at most 1 (as the
logistic function has) and every inverse model with `logOddsPrior > 1`, the occupancy value
the map computes for a cell that holds statistics is negative, whatever its counts, so it is
outside `[0, 1]`; the same then holds for the four-cell average of a bundle whose four cells
hold statistics. -/
theorem C9_occupancy_negative (E : Externals K) (hE : ∀ l, E.LogOdds_from l ≤ 1)
    (inverse_model : InverseModel K) (hp : 1 < inverse_model.getLogOddsPrior)
    (m : OccupancyGridmap K) (bi : index_t)
    (hcells : ∀ k : Fin 4, ∃ c d, (m.storage_ k).get (staggered bi k) = some c ∧
      c.distribution_ = some d) :
    (∀ k : Fin 4, occupancy E inverse_model ((m.storage_ k).get (staggered bi k)) < 0) ∧
    averageOccupancy E inverse_model m bi < 0 := by
  have key : ∀ k : Fin 4,
      occupancy E inverse_model ((m.storage_ k).get (staggered bi k)) < 0 := by
    intro k
    obtain ⟨c, d, hc, hd⟩ := hcells k
    rw [hc]
    simp only [occupancy, hd]
    have := hE ((c.num_free_ : K) * inverse_model.getLogOddsFree +
      (c.num_occupied_ : K) * inverse_model.getLogOddsOccupied)
    linarith
  refine ⟨key, ?_⟩
  have h0 := key 0
  have h1 := key 1
  have h2 := key 2
  have h3 := key 3
  simp only [averageOccupancy]
  linarith

/-- C9 at the failing input: the map holding three points in bundle `(0, 0)` and the inverse
model `(0, 0, 2)`; the average occupancy of bundle `(0, 0)` is negative. -/
theorem C9_occupancy_negative_witness :
    (∀ l, demoExternals.LogOdds_from l ≤ 1) ∧
    (1 : ℚ) < (⟨0, 0, 2⟩ : InverseModel ℚ).getLogOddsPrior ∧
    (∀ k : Fin 4, ∃ c d, (demoMap3.storage_ k).get (staggered (0, 0) k) = some c ∧
      c.distribution_ = some d) ∧
    averageOccupancy demoExternals ⟨0, 0, 2⟩ demoMap3 (0, 0) < 0 :=
  have hE : ∀ l, demoExternals.LogOdds_from l ≤ 1 := fun l => (demoLogOdds_from_range l).2
  have hc : ∀ k : Fin 4, ∃ c d, (demoMap3.storage_ k).get (staggered (0, 0) k) = some c ∧
      c.distribution_ = some d := fun k => ⟨demoCell3, _, demoMap3_get k, rfl⟩
  ⟨hE, by norm_num, hc,
    (C9_occupancy_negative demoExternals hE ⟨0, 0, 2⟩ (by norm_num) demoMap3 (0, 0) hc).2⟩

/-- Value of `getRange` in terms of the quantity its lambda `occupied` compares with the
threshold (`averageOccupancy`, the code's own four-cell average) and of the indices its
iterator walks: the segment length when no visited index reaches the threshold, in particular
on a map without observations for a positive threshold, else the distance from the start to
the point `(x·r, y·r)` of the first visited index that does. -/
theorem getRange_result (E : Externals K) (m : OccupancyGridmap K) (hm : Reachable E m)
    (start_p end_p : Point2d K) (inverse_model : InverseModel K) (tau : K) :
    ((∀ v ∈ E.Bresenham
          (Int.floor (start_p.x * m.bundle_resolution_inv_),
           Int.floor (start_p.y * m.bundle_resolution_inv_))
          (Int.floor (end_p.x * m.bundle_resolution_inv_),
           Int.floor (end_p.y * m.bundle_resolution_inv_)),
        ¬ tau ≤ averageOccupancy E inverse_model m (v.x, v.y)) →
      (getRange E m start_p end_p inverse_model tau).1 = E.length (start_p.sub end_p)) ∧
    (NoObservations m → 0 < tau →
      (getRange E m start_p end_p inverse_model tau).1 = E.length (start_p.sub end_p)) ∧
    (∀ pre v post,
      E.Bresenham
          (Int.floor (start_p.x * m.bundle_resolution_inv_),
           Int.floor (start_p.y * m.bundle_resolution_inv_))
          (Int.floor (end_p.x * m.bundle_resolution_inv_),
           Int.floor (end_p.y * m.bundle_resolution_inv_)) = pre ++ v :: post →
      (∀ u ∈ pre, ¬ tau ≤ averageOccupancy E inverse_model m (u.x, u.y)) →
      tau ≤ averageOccupancy E inverse_model m (v.x, v.y) →
      (getRange E m start_p end_p inverse_model tau).1
        = E.length (start_p.sub
            ⟨(v.x : K) * m.bundle_resolution_, (v.y : K) * m.bundle_resolution_⟩)) := by
  have hloop := fun it =>
    getRangeLoop_fst E inverse_model tau start_p end_p it m hm.valid
  have hnone : (∀ v ∈ E.Bresenham
          (Int.floor (start_p.x * m.bundle_resolution_inv_),
           Int.floor (start_p.y * m.bundle_resolution_inv_))
          (Int.floor (end_p.x * m.bundle_resolution_inv_),
           Int.floor (end_p.y * m.bundle_resolution_inv_)),
        ¬ tau ≤ averageOccupancy E inverse_model m (v.x, v.y)) →
      (getRange E m start_p end_p inverse_model tau).1 = E.length (start_p.sub end_p) := by
    intro hall
    have hf : (E.Bresenham
          (Int.floor (start_p.x * m.bundle_resolution_inv_),
           Int.floor (start_p.y * m.bundle_resolution_inv_))
          (Int.floor (end_p.x * m.bundle_resolution_inv_),
           Int.floor (end_p.y * m.bundle_resolution_inv_))).find?
        (fun v => decide (tau ≤ averageOccupancy E inverse_model m (v.x, v.y))) = none := by
      rw [List.find?_eq_none]
      intro v hv
      simpa using hall v hv
    simp only [getRange, hloop, hf]
  refine ⟨hnone, ?_, ?_⟩
  · intro hno htau
    apply hnone
    intro v _
    rw [averageOccupancy_of_noObservations E inverse_model m hno]
    exact not_le.mpr htau
  · intro pre v post hit hpre hv
    have hf : (pre ++ v :: post).find?
        (fun v => decide (tau ≤ averageOccupancy E inverse_model m (v.x, v.y))) = some v := by
      have h1 : pre.find?
          (fun v => decide (tau ≤ averageOccupancy E inverse_model m (v.x, v.y))) = none := by
        rw [List.find?_eq_none]
        intro u hu
        simpa using hpre u hu
      rw [List.find?_append, h1, List.find?_cons_of_pos _ (by simpa using hv)]
      rfl
    simp only [getRange, hloop, hit, hf]

/-- C11 fails on the code. On a fresh map with origin translated to `(1, 0)` and resolution 1,
`add` takes the bundle index of the point `(0, 0)` through `toBundleIndex`, which gives
`(-2, 0) = ⌊(T⁻¹ p) / r⌋`, whereas `getRange` floors `p / r` without the transform and
starts its ray at `(0, 0)`: the two walk between different bundle indices for the same points.
With the rational stand-in iterator, `getRange((0,0), (1/2,0))` allocates bundle `(0, 0)`,
which `add((0,0), (1/2,0))` never touches. -/
theorem C11_getRange_ignores_origin :
    toBundleIndex demoMapShifted ⟨0, 0⟩ = (-2, 0) ∧
    getRangeIndex demoMapShifted ⟨0, 0⟩ = (0, 0) ∧
    toBundleIndex demoMapShifted ⟨1 / 2, 0⟩ = (-1, 0) ∧
    getRangeIndex demoMapShifted ⟨1 / 2, 0⟩ = (1, 0) ∧
    (∀ (E : Externals ℚ) (start_p end_p : Point2d ℚ) (inverse_model : InverseModel ℚ) (tau : ℚ),
      getRange E demoMapShifted start_p end_p inverse_model tau
        = getRangeLoop E inverse_model tau start_p end_p
            (E.Bresenham (getRangeIndex demoMapShifted start_p)
              (getRangeIndex demoMapShifted end_p)) demoMapShifted) ∧
    (∀ (E : Externals ℚ) (start_p end_p : Point2d ℚ),
      add E demoMapShifted start_p end_p
        = updateOccupied
            (addLoop end_p (E.Bresenham (toBundleIndex demoMapShifted start_p)
              (toBundleIndex demoMapShifted end_p)) demoMapShifted)
            (toBundleIndex demoMapShifted end_p) end_p) ∧
    Allocated (getRange demoExternals demoMapShifted ⟨0, 0⟩ ⟨1 / 2, 0⟩ ⟨0, 0, 0⟩ 1).2 (0, 0) ∧
    ¬ Allocated (add demoExternals demoMapShifted ⟨0, 0⟩ ⟨1 / 2, 0⟩) (0, 0) := by
  have hv : BundlesValid demoMapShifted := new_valid _ _
  have t0 : toBundleIndex demoMapShifted ⟨0, 0⟩ = (-2, 0) := by
    rw [demoShifted_toBundleIndex]; norm_num
  have t1 : toBundleIndex demoMapShifted ⟨1 / 2, 0⟩ = (-1, 0) := by
    rw [demoShifted_toBundleIndex]; norm_num
  have g0 : getRangeIndex demoMapShifted ⟨0, 0⟩ = (0, 0) := by
    rw [demoShifted_getRangeIndex]; norm_num
  have g1 : getRangeIndex demoMapShifted ⟨1 / 2, 0⟩ = (1, 0) := by
    rw [demoShifted_getRangeIndex]; norm_num
  have one : (Int.toNat 1) = 1 := rfl
  refine ⟨t0, g0, t1, g1, fun E s e M tau => rfl, fun E s e => rfl, ?_, ?_⟩
  · rw [getRange_eq, g0, g1]
    have hb : demoExternals.Bresenham (0, 0) (1, 0) = [] ++ (⟨0, 0, 0⟩ : Visit ℚ) :: [] := by
      norm_num [demoExternals, demoBresenham, one, List.range_succ]
    exact getRangeLoop_allocated demoExternals ⟨0, 0, 0⟩ 1 ⟨0, 0⟩ ⟨1 / 2, 0⟩ _ demoMapShifted hv
      [] [] ⟨0, 0, 0⟩ hb (by simp)
  · rw [add_eq, t0, t1, updateOccupied_allocated, addLoop_allocated]
    have hb : demoExternals.Bresenham (-2, 0) (-1, 0) = [(⟨-2, 0, 0⟩ : Visit ℚ)] := by
      norm_num [demoExternals, demoBresenham, one, List.range_succ]
    rw [hb]
    have hn := new_allocated (⟨1, 0, 1, 0⟩ : Transform2d ℚ) 1 (0, 0)
    simp only [List.mem_singleton, exists_eq_left, Prod.mk.injEq]
    rintro (h | h | h)
    · omega
    · omega
    · exact hn h

/-- C12. On a freshly constructed map, for every point `p` whose bundle index `bi` fits the
`int` range (with `bi + 1` representable) and every inverse model, `sampleNonNormalized(p, M)`
and `sample(p, M)` return 0; afterwards exactly the bundle `bi = toBundleIndex(p)` is
allocated, `min_index = max_index = bi`, `getMin() = min_index · r` and
`getMax() = (max_index + 1) · r`; with origin `(0, 0, 0)` and `p = (0, 0)` the index is
`(0, 0)`. -/
theorem C12_sample_on_fresh_map (E : Externals K) (origin : Transform2d K) (resolution : K)
    (p : Point2d K) (inverse_model : InverseModel K) (bi : index_t)
    (hbi : bi = toBundleIndex (new origin resolution) p)
    (h1 : INT_MIN ≤ bi.1 ∧ bi.1 < INT_MAX) (h2 : INT_MIN ≤ bi.2 ∧ bi.2 < INT_MAX) :
    (sampleNonNormalized E (new origin resolution) p inverse_model).1 = 0 ∧
    (sample E (new origin resolution) p inverse_model).1 = 0 ∧
    (sample E (new origin resolution) p inverse_model).2
      = (sampleNonNormalized E (new origin resolution) p inverse_model).2 ∧
    (∀ bj, Allocated (sampleNonNormalized E (new origin resolution) p inverse_model).2 bj
      ↔ bj = bi) ∧
    (sampleNonNormalized E (new origin resolution) p inverse_model).2.min_index_ = bi ∧
    (sampleNonNormalized E (new origin resolution) p inverse_model).2.max_index_ = bi ∧
    getMin (sampleNonNormalized E (new origin resolution) p inverse_model).2
      = ⟨(bi.1 : K) * ((1 / 2) * resolution), (bi.2 : K) * ((1 / 2) * resolution)⟩ ∧
    getMax (sampleNonNormalized E (new origin resolution) p inverse_model).2
      = ⟨((bi.1 + 1 : Int) : K) * ((1 / 2) * resolution),
         ((bi.2 + 1 : Int) : K) * ((1 / 2) * resolution)⟩ ∧
    toBundleIndex (new (⟨0, 0, 1, 0⟩ : Transform2d K) resolution) ⟨0, 0⟩ = (0, 0) := by
  have hv : BundlesValid (new origin resolution) := new_valid _ _
  have hstate : (sampleNonNormalized E (new origin resolution) p inverse_model).2
      = (allocate_bundle (new origin resolution) bi).2 := by
    rw [hbi]; rfl
  have hmin : (allocate_bundle (new origin resolution) bi).2.min_index_ = bi := by
    rw [allocate_bundle_min]
    unfold INT_MAX at h1 h2
    simp only [new, std_min, INT_MAX]
    exact Prod.ext (min_eq_right (by omega)) (min_eq_right (by omega))
  have hmax : (allocate_bundle (new origin resolution) bi).2.max_index_ = bi := by
    rw [allocate_bundle_max]
    unfold INT_MIN at h1 h2
    simp only [new, std_max, INT_MIN]
    exact Prod.ext (max_eq_right (by omega)) (max_eq_right (by omega))
  have hres : (allocate_bundle (new origin resolution) bi).2.bundle_resolution_
      = (1 / 2) * resolution := rfl
  have hnone : ∀ (k : Fin 4) (j : index_t), ((new origin resolution).storage_ k).get j = none :=
    fun _ _ => rfl
  refine ⟨?_, ?_, rfl, ?_, ?_, ?_, ?_, ?_, ?_⟩
  · show (sampleNonNormalizedAt E _ p _ inverse_model).1 = 0
    rw [sampleNonNormalizedAt_fst E _ hv]
    simp only [hnone, mixtureTerm_none, add_zero, mul_zero]
  · show (sampleAt E _ p _ inverse_model).1 = 0
    rw [sampleAt_fst E _ hv]
    simp only [hnone, mixtureTerm_none, add_zero, mul_zero]
  · intro bj
    rw [hbi]
    show Allocated (getAllocate _ _).2 bj ↔ _
    rw [getAllocate_allocated]
    constructor
    · rintro (h | h)
      · exact h
      · exact absurd h (new_allocated _ _ _)
    · exact Or.inl
  · rw [hstate, hmin]
  · rw [hstate, hmax]
  · rw [hstate]
    simp only [getMin, hmin, hres]
  · rw [hstate]
    simp only [getMax, hmax, hres]
    rw [wrap_int_of_range (bi.1 + 1) (by omega) (by omega),
      wrap_int_of_range (bi.2 + 1) (by omega) (by omega)]
  · simp [toBundleIndex, new, Transform2d.inverse, Transform2d.apply]

/-- C12, evaluated on the fresh unit-resolution map with origin `(0, 0, 0)` at `p = (0, 0)`
with the inverse model `(0, 0, 0)`: bundle index `(0, 0)`. -/
theorem C12_sample_on_fresh_map_witness :
    ((0, 0) : index_t) = toBundleIndex (new identityTransform 1) ⟨0, 0⟩ ∧
    (INT_MIN ≤ ((0, 0) : index_t).1 ∧ ((0, 0) : index_t).1 < INT_MAX) ∧
    (INT_MIN ≤ ((0, 0) : index_t).2 ∧ ((0, 0) : index_t).2 < INT_MAX) ∧
    (sampleNonNormalized demoExternals (new identityTransform 1) ⟨0, 0⟩ ⟨0, 0, 0⟩).1 = 0 ∧
    (sample demoExternals (new identityTransform 1) ⟨0, 0⟩ ⟨0, 0, 0⟩).1 = 0 ∧
    (∀ bj, Allocated
        (sampleNonNormalized demoExternals (new identityTransform 1) ⟨0, 0⟩ ⟨0, 0, 0⟩).2 bj
      ↔ bj = (0, 0)) ∧
    getMin (sampleNonNormalized demoExternals (new identityTransform 1) ⟨0, 0⟩ ⟨0, 0, 0⟩).2
      = ⟨((0 : Int) : ℚ) * ((1 / 2) * 1), ((0 : Int) : ℚ) * ((1 / 2) * 1)⟩ ∧
    getMax (sampleNonNormalized demoExternals (new identityTransform 1) ⟨0, 0⟩ ⟨0, 0, 0⟩).2
      = ⟨((0 + 1 : Int) : ℚ) * ((1 / 2) * 1), ((0 + 1 : Int) : ℚ) * ((1 / 2) * 1)⟩ :=
  have hbi : ((0, 0) : index_t) = toBundleIndex (new identityTransform 1) ⟨0, 0⟩ := by
    have h := demo_toBundleIndex 0 0
    rw [demoMap] at h
    rw [h]; norm_num
  have h := C12_sample_on_fresh_map demoExternals identityTransform 1 ⟨0, 0⟩ ⟨0, 0, 0⟩ (0, 0) hbi
    (by decide) (by decide)
  ⟨hbi, by decide, by decide, h.1, h.2.1, h.2.2.2.1, h.2.2.2.2.2.2.1, h.2.2.2.2.2.2.2.1⟩

/-- C13. Counts are monotone: in every reachable map state and for every public operation
(`getDistributionBundle`, `add`, `getRange`, `sample`, `sampleNonNormalized`), each storey
cell that exists before the call exists after it, and its free count `F`, occupied count `O`
and sample count `N` are at least their previous values. -/
theorem C13_counts_monotone (E : Externals K) (m : OccupancyGridmap K) (hm : Reachable E m)
    (op : Op K) (k : Fin 4) (j : index_t) (c : OccupancyDistribution K)
    (hc : (m.storage_ k).get j = some c) :
    ∃ c2 : OccupancyDistribution K, ((step E m op).storage_ k).get j = some c2 ∧
      c.num_free_ ≤ c2.num_free_ ∧ c.num_occupied_ ≤ c2.num_occupied_ ∧
      sampleCount c ≤ sampleCount c2 :=
  step_cellsGrow E m hm.valid op k j c hc

/-- C13, evaluated on the map holding three points in bundle `(0, 0)`: a further
`add((1/8, 1/8), (1/8, 1/8))` keeps the storey-0 cell `(0, 0)` with counts at least as
large. -/
theorem C13_counts_monotone_witness :
    Reachable demoExternals demoMap3 ∧
    (demoMap3.storage_ 0).get (staggered (0, 0) 0) = some demoCell3 ∧
    ∃ c2 : OccupancyDistribution ℚ,
      ((step demoExternals demoMap3 (Op.add ⟨1 / 8, 1 / 8⟩ ⟨1 / 8, 1 / 8⟩)).storage_ 0).get
          (staggered (0, 0) 0) = some c2 ∧
      demoCell3.num_free_ ≤ c2.num_free_ ∧ demoCell3.num_occupied_ ≤ c2.num_occupied_ ∧
      sampleCount demoCell3 ≤ sampleCount c2 :=
  ⟨demoMap3_reachable, demoMap3_get 0,
    C13_counts_monotone demoExternals demoMap3 demoMap3_reachable _ 0 _ demoCell3
      (demoMap3_get 0)⟩

end OccupancyGridmap

/-! ## Lemmas on dual numbers -/

namespace Jet

variable {K : Type} [LinearOrderedField K] {N : Nat}

@[simp] theorem const_a (c : K) : (Jet.const c : Jet K N).a = c := rfl

@[simp] theorem const_v (c : K) (i : Fin N) : (Jet.const c : Jet K N).v i = 0 := rfl

@[simp] theorem add_a (f g : Jet K N) : (f + g).a = f.a + g.a := rfl

@[simp] theorem add_v (f g : Jet K N) (i : Fin N) : (f + g).v i = f.v i + g.v i := rfl

@[simp] theorem sub_a (f g : Jet K N) : (f - g).a = f.a - g.a := rfl

@[simp] theorem sub_v (f g : Jet K N) (i : Fin N) : (f - g).v i = f.v i - g.v i := rfl

@[simp] theorem neg_a (f : Jet K N) : (-f).a = -f.a := rfl

@[simp] theorem neg_v (f : Jet K N) (i : Fin N) : (-f).v i = -f.v i := rfl

@[simp] theorem mul_a (f g : Jet K N) : (f * g).a = f.a * g.a := rfl

@[simp] theorem mul_v (f g : Jet K N) (i : Fin N) :
    (f * g).v i = f.a * g.v i + f.v i * g.a := rfl

@[simp] theorem exp_a (e : K → K) (f : Jet K N) : (Jet.exp e f).a = e f.a := rfl

@[simp] theorem exp_v (e : K → K) (f : Jet K N) (i : Fin N) :
    (Jet.exp e f).v i = e f.a * f.v i := rfl

end Jet

/-! ## Lemmas on the cost functors -/

namespace ScanMatchCostFunctor

variable {K : Type} [LinearOrderedField K] {N : Nat}

theorem transform_scalar (p : Point2d (Jet K N)) (tf : Transform2d K) :
    (transform p tf).scalar = tf.apply p.scalar := by
  simp only [transform, Point2d.scalar, Transform2d.apply, Jet.add_a, Jet.mul_a, Jet.neg_a,
    Jet.const_a, Point2d.mk.injEq, and_true]
  ring

theorem sample_a (X : CostExternals K) (p : Point2d (Jet K N)) (di : Distribution K) :
    (sample X p di).a
      = X.exp (-(1 / 2) * quadForm (X.getInformationMatrix di) (p.scalar.sub (X.getMean di))) := by
  simp only [sample, Jet.exp_a, Jet.add_a, Jet.mul_a, Jet.neg_a, Jet.sub_a, Jet.const_a,
    quadForm, Point2d.sub, Point2d.scalar]
  congr 1
  ring

end ScanMatchCostFunctor

namespace ScanMatchCostFunctor

variable {K : Type} [LinearOrderedField K] [FloorRing K] {N : Nat}

theorem EvaluateStep_a (X : CostExternals K) (map_ : OccupancyGridmap K)
    (ivm_ : InverseModel K) (bundle : distribution_bundle_t) (p_prime : Point2d (Jet K N))
    (retval : Jet K N) (i : Fin 4) :
    (EvaluateStep X map_ ivm_ bundle p_prime retval i).a
      = retval.a - directTerm_spec X ivm_ (map_.deref i (bundle i)) p_prime.scalar := by
  unfold EvaluateStep directTerm_spec
  cases map_.deref i (bundle i) with
  | none => simp
  | some bi =>
    cases hd : bi.distribution_ with
    | none => simp [hd]
    | some di =>
      by_cases hv : X.valid di = true
      · simp only [hd, hv, Bool.not_true, Bool.false_eq_true, if_false, if_true, Jet.sub_a,
          Jet.mul_a, Jet.const_a, sample_a]
      · simp [hd, hv]

theorem Evaluate_eq (X : CostExternals K) (map_ : OccupancyGridmap K)
    (f : ScanMatchCostFunctor K) (q : List (Jet K N)) :
    Evaluate X map_ f q
      = match map_.bundleAt (getBundle map_ f (queryPoint q).scalar).1 with
        | none => (Jet.const 1, (getBundle map_ f (queryPoint q).scalar).2)
        | some bundle =>
          ([0, 1, 2, 3].foldl (EvaluateStep X map_ f.ivm_ bundle
              (transform (queryPoint q) map_.getInitialOrigin.inverse)) (Jet.const 1),
            (getBundle map_ f (queryPoint q).scalar).2) := rfl

theorem Evaluate_a (X : CostExternals K) (map_ : OccupancyGridmap K)
    (f : ScanMatchCostFunctor K) (q : List (Jet K N)) :
    (Evaluate X map_ f q).1.a
      = directCost_spec X f.ivm_ map_.getInitialOrigin.inverse
          (selectedCells map_ f (queryPoint q).scalar) (queryPoint q).scalar := by
  rw [Evaluate_eq]
  unfold selectedCells directCost_spec
  cases map_.bundleAt (getBundle map_ f (queryPoint q).scalar).1 with
  | none => rfl
  | some bundle =>
    simp only [Option.map_some', List.foldl, EvaluateStep_a, transform_scalar, Jet.const_a]
    ring

theorem Evaluate_snd (X : CostExternals K) (map_ : OccupancyGridmap K)
    (f : ScanMatchCostFunctor K) (q : List (Jet K N)) :
    (Evaluate X map_ f q).2 = (getBundle map_ f (queryPoint q).scalar).2 := by
  rw [Evaluate_eq]
  cases map_.bundleAt (getBundle map_ f (queryPoint q).scalar).1 <;> rfl

theorem Evaluate_missing (X : CostExternals K) (map_ : OccupancyGridmap K)
    (f : ScanMatchCostFunctor K) (q : List (Jet K N))
    (h : map_.bundleAt (getBundle map_ f (queryPoint q).scalar).1 = none) :
    (Evaluate X map_ f q).1 = Jet.const 1 := by
  rw [Evaluate_eq, h]

end ScanMatchCostFunctor

theorem queryPoint_scalar {K : Type} [LinearOrderedField K] {N : Nat} (q : List (Jet K N)) :
    (queryPoint q).scalar
      = ⟨(q.map (fun j => j.a)).getD 0 0, (q.map (fun j => j.a)).getD 1 0⟩ := by
  match q with
  | [] => rfl
  | [_] => rfl
  | _ :: _ :: _ => rfl

theorem queryPoint_scalar_congr {K : Type} [LinearOrderedField K] {N M : Nat}
    (q : List (Jet K N)) (q2 : List (Jet K M))
    (h : q.map (fun j => j.a) = q2.map (fun j => j.a)) :
    (queryPoint q).scalar = (queryPoint q2).scalar := by
  rw [queryPoint_scalar, queryPoint_scalar, h]

theorem directTerm_spec_nonneg {K : Type} [LinearOrderedField K] (X : CostExternals K)
    (hexp : ∀ x, 0 ≤ X.exp x) (inverse_model : InverseModel K)
    (hocc : ∀ c : OccupancyDistribution K, 0 ≤ c.getOccupancy X inverse_model)
    (cell : Option (OccupancyDistribution K)) (p : Point2d K) :
    0 ≤ directTerm_spec X inverse_model cell p := by
  unfold directTerm_spec
  cases cell with
  | none => exact le_refl _
  | some c =>
    cases hd : c.distribution_ with
    | none => simp [hd]
    | some d =>
      by_cases hv : X.valid d = true
      · simp only [hd, hv, if_true]
        exact mul_nonneg (mul_nonneg (by norm_num) (hocc c)) (hexp _)
      · simp [hd, hv]

theorem plainTerm_spec_nonneg {K : Type} [LinearOrderedField K] (X : CostExternals K)
    (hexp : ∀ x, 0 ≤ X.exp x) (cell : Option (Option (Distribution K))) (p : Point2d K) :
    0 ≤ plainTerm_spec X cell p := by
  unfold plainTerm_spec
  cases cell with
  | none => exact le_refl _
  | some c =>
    cases c with
    | none => exact le_refl _
    | some d =>
      by_cases hv : X.valid d = true
      · simp only [hv, if_true]
        exact mul_nonneg (by norm_num) (hexp _)
      · simp [hv]

theorem directCost_spec_le_one {K : Type} [LinearOrderedField K] (X : CostExternals K)
    (hexp : ∀ x, 0 ≤ X.exp x) (inverse_model : InverseModel K)
    (hocc : ∀ c : OccupancyDistribution K, 0 ≤ c.getOccupancy X inverse_model)
    (tf : Transform2d K) (cells : Option (Fin 4 → Option (OccupancyDistribution K)))
    (p : Point2d K) : directCost_spec X inverse_model tf cells p ≤ 1 := by
  unfold directCost_spec
  cases cells with
  | none => exact le_refl _
  | some c =>
    have h := fun k => directTerm_spec_nonneg X hexp inverse_model hocc (c k) (tf.apply p)
    have h0 := h 0
    have h1 := h 1
    have h2 := h 2
    have h3 := h 3
    simp only
    linarith

theorem plainCost_spec_le_one {K : Type} [LinearOrderedField K] (X : CostExternals K)
    (hexp : ∀ x, 0 ≤ X.exp x) (bundle : Option (plain_bundle_t K)) (p : Point2d K) :
    plainCost_spec X bundle p ≤ 1 := by
  unfold plainCost_spec
  cases bundle with
  | none => exact le_refl _
  | some c =>
    have h := fun k => plainTerm_spec_nonneg X hexp (c k) p
    have h0 := h 0
    have h1 := h 1
    have h2 := h 2
    have h3 := h 3
    simp only
    linarith

theorem getOccupancy_agree {K : Type} [LinearOrderedField K] (X Y : CostExternals K)
    (h : AgreeOnValid X Y) (c : OccupancyDistribution K) (inverse_model : InverseModel K) :
    c.getOccupancy Y inverse_model = c.getOccupancy X inverse_model := by
  unfold OccupancyDistribution.getOccupancy
  rw [h.2.1, h.2.2.1]

theorem sample_agree {K : Type} [LinearOrderedField K] {N : Nat} (X Y : CostExternals K)
    (h : AgreeOnValid X Y) (p : Point2d (Jet K N)) (d : Distribution K)
    (hv : X.valid d = true) :
    ScanMatchCostFunctor.sample Y p d = ScanMatchCostFunctor.sample X p d := by
  unfold ScanMatchCostFunctor.sample
  rw [h.1, (h.2.2.2 d hv).1, (h.2.2.2 d hv).2]

namespace ScanMatchCostFunctor

variable {K : Type} [LinearOrderedField K] [FloorRing K] {N : Nat}

theorem EvaluateStep_of_absent (X : CostExternals K) (map_ : OccupancyGridmap K)
    (ivm_ : InverseModel K) (bundle : distribution_bundle_t) (p_prime : Point2d (Jet K N))
    (retval : Jet K N) (i : Fin 4) (h : AbsentOrInvalid X (map_.deref i (bundle i))) :
    EvaluateStep X map_ ivm_ bundle p_prime retval i = retval := by
  unfold EvaluateStep
  cases hc : map_.deref i (bundle i) with
  | none => rfl
  | some bi =>
    cases hd : bi.distribution_ with
    | none => simp [hd]
    | some di =>
      have hv := h bi di hc hd
      simp [hd, hv]

theorem EvaluateStep_agree (X Y : CostExternals K) (h : AgreeOnValid X Y)
    (map_ : OccupancyGridmap K) (ivm_ : InverseModel K) (bundle : distribution_bundle_t)
    (p_prime : Point2d (Jet K N)) (retval : Jet K N) (i : Fin 4) :
    EvaluateStep Y map_ ivm_ bundle p_prime retval i
      = EvaluateStep X map_ ivm_ bundle p_prime retval i := by
  unfold EvaluateStep
  cases map_.deref i (bundle i) with
  | none => rfl
  | some bi =>
    cases hd : bi.distribution_ with
    | none => simp [hd]
    | some di =>
      by_cases hv : X.valid di = true
      · simp [hd, h.2.2.1, hv, getOccupancy_agree X Y h, sample_agree X Y h _ di hv]
      · simp [hd, h.2.2.1, hv]

theorem Evaluate_agree (X Y : CostExternals K) (h : AgreeOnValid X Y)
    (map_ : OccupancyGridmap K) (f : ScanMatchCostFunctor K) (q : List (Jet K N)) :
    Evaluate Y map_ f q = Evaluate X map_ f q := by
  rw [Evaluate_eq, Evaluate_eq]
  cases map_.bundleAt (getBundle map_ f (queryPoint q).scalar).1 with
  | none => rfl
  | some bundle => simp only [List.foldl, EvaluateStep_agree X Y h]

theorem Evaluate_of_absent (X : CostExternals K) (map_ : OccupancyGridmap K)
    (f : ScanMatchCostFunctor K) (q : List (Jet K N))
    (h : ∀ bundle, map_.bundleAt (getBundle map_ f (queryPoint q).scalar).1 = some bundle →
      ∀ i : Fin 4, AbsentOrInvalid X (map_.deref i (bundle i))) :
    (Evaluate X map_ f q).1 = Jet.const 1 := by
  rw [Evaluate_eq]
  cases hb : map_.bundleAt (getBundle map_ f (queryPoint q).scalar).1 with
  | none => rfl
  | some bundle =>
    have h2 := h bundle hb
    simp only [List.foldl, EvaluateStep_of_absent X map_ f.ivm_ bundle _ _ _ (h2 _)]

theorem bundleAt_new (origin : Transform2d K) (resolution : K) (b : Option index_t) :
    (OccupancyGridmap.new origin resolution).bundleAt b = none := by
  cases b <;> rfl

end ScanMatchCostFunctor

theorem directTerm_spec_le_quarter {K : Type} [LinearOrderedField K] (X : CostExternals K)
    (hexp1 : ∀ x, x ≤ 0 → X.exp x ≤ 1) (hexp0 : ∀ x, 0 ≤ X.exp x)
    (inverse_model : InverseModel K) (cell : Option (OccupancyDistribution K)) (p : Point2d K)
    (hcell : ∀ c d, cell = some c → c.distribution_ = some d → X.valid d = true →
      0 ≤ c.getOccupancy X inverse_model ∧ c.getOccupancy X inverse_model ≤ 1 ∧
      ∀ v, 0 ≤ quadForm (X.getInformationMatrix d) v) :
    directTerm_spec X inverse_model cell p ≤ 1 / 4 := by
  unfold directTerm_spec
  cases cell with
  | none => norm_num
  | some c =>
    cases hd : c.distribution_ with
    | none => simp [hd]
    | some d =>
      by_cases hv : X.valid d = true
      · simp only [hd, hv, if_true]
        obtain ⟨h0, h1, hq⟩ := hcell c d rfl hd hv
        have he1 := hexp1 (-(1 / 2) * quadForm (X.getInformationMatrix d) (p.sub (X.getMean d)))
          (by have := hq (p.sub (X.getMean d)); linarith)
        have he0 := hexp0 (-(1 / 2) * quadForm (X.getInformationMatrix d) (p.sub (X.getMean d)))
        have hmul : c.getOccupancy X inverse_model *
            X.exp (-(1 / 2) * quadForm (X.getInformationMatrix d) (p.sub (X.getMean d)))
              ≤ 1 * 1 := mul_le_mul h1 he1 he0 (by norm_num)
        rw [mul_assoc]
        linarith
      · simp [hd, hv]

theorem directCost_spec_nonneg {K : Type} [LinearOrderedField K] (X : CostExternals K)
    (hexp1 : ∀ x, x ≤ 0 → X.exp x ≤ 1) (hexp0 : ∀ x, 0 ≤ X.exp x)
    (inverse_model : InverseModel K) (tf : Transform2d K)
    (cells : Option (Fin 4 → Option (OccupancyDistribution K))) (p : Point2d K)
    (hcells : ∀ cs, cells = some cs → ∀ (i : Fin 4) c d, cs i = some c →
      c.distribution_ = some d → X.valid d = true →
      0 ≤ c.getOccupancy X inverse_model ∧ c.getOccupancy X inverse_model ≤ 1 ∧
      ∀ v, 0 ≤ quadForm (X.getInformationMatrix d) v) :
    0 ≤ directCost_spec X inverse_model tf cells p := by
  unfold directCost_spec
  cases cells with
  | none => norm_num
  | some cs =>
    have h := fun i => directTerm_spec_le_quarter X hexp1 hexp0 inverse_model (cs i)
      (tf.apply p) (hcells cs rfl i)
    have h0 := h 0
    have h1 := h 1
    have h2 := h 2
    have h3 := h 3
    simp only
    linarith

theorem directCost_spec_le_one_of_cells {K : Type} [LinearOrderedField K] (X : CostExternals K)
    (hexp0 : ∀ x, 0 ≤ X.exp x) (inverse_model : InverseModel K) (tf : Transform2d K)
    (cells : Option (Fin 4 → Option (OccupancyDistribution K))) (p : Point2d K)
    (hcells : ∀ cs, cells = some cs → ∀ (i : Fin 4) c d, cs i = some c →
      c.distribution_ = some d → X.valid d = true → 0 ≤ c.getOccupancy X inverse_model) :
    directCost_spec X inverse_model tf cells p ≤ 1 := by
  unfold directCost_spec
  cases cells with
  | none => exact le_refl _
  | some cs =>
    have h : ∀ i : Fin 4, 0 ≤ directTerm_spec X inverse_model (cs i) (tf.apply p) := by
      intro i
      unfold directTerm_spec
      cases hc : cs i with
      | none => exact le_refl _
      | some c =>
        cases hd : c.distribution_ with
        | none => simp [hd]
        | some d =>
          by_cases hv : X.valid d = true
          · simp only [hd, hv, if_true]
            exact mul_nonneg (mul_nonneg (by norm_num) (hcells cs rfl i c d hc hd hv))
              (hexp0 _)
          · simp [hd, hv]
    have h0 := h 0
    have h1 := h 1
    have h2 := h 2
    have h3 := h 3
    simp only
    linarith

theorem quadForm_zero {K : Type} [LinearOrderedField K] (Ω : Fin 2 → Fin 2 → K) :
    quadForm Ω ⟨0, 0⟩ = 0 := by
  simp [quadForm]

namespace GridmapCostFunctor

variable {K : Type} [LinearOrderedField K] {N : Nat}

theorem plain_EvaluateStep_a (X : CostExternals K) (bundle : plain_bundle_t K)
    (p : Point2d (Jet K N)) (retval : Jet K N) (i : Fin 4) :
    (EvaluateStep X bundle p retval i).a = retval.a - plainTerm_spec X (bundle i) p.scalar := by
  unfold EvaluateStep plainTerm_spec
  cases bundle i with
  | none => simp
  | some bi =>
    cases bi with
    | none => simp
    | some di =>
      by_cases hv : X.valid di = true
      · simp only [hv, Bool.not_true, Bool.false_eq_true, if_false, if_true, Jet.sub_a,
          Jet.mul_a, Jet.const_a, ScanMatchCostFunctor.sample_a]
      · simp [hv]

theorem plain_Evaluate_eq (X : CostExternals K) (get : Point2d K → Option (plain_bundle_t K))
    (q : List (Jet K N)) :
    Evaluate X get q
      = match get (queryPoint q).scalar with
        | none => Jet.const 1
        | some bundle => [0, 1, 2, 3].foldl (EvaluateStep X bundle (queryPoint q)) (Jet.const 1) :=
  rfl

theorem plain_Evaluate_a (X : CostExternals K) (get : Point2d K → Option (plain_bundle_t K))
    (q : List (Jet K N)) :
    (Evaluate X get q).a = plainCost_spec X (get (queryPoint q).scalar) (queryPoint q).scalar := by
  rw [plain_Evaluate_eq]
  unfold plainCost_spec
  cases get (queryPoint q).scalar with
  | none => rfl
  | some bundle =>
    simp only [List.foldl, plain_EvaluateStep_a, Jet.const_a]
    ring

theorem plain_EvaluateStep_of_absent (X : CostExternals K) (bundle : plain_bundle_t K)
    (p : Point2d (Jet K N)) (retval : Jet K N) (i : Fin 4)
    (h : PlainAbsentOrInvalid X (bundle i)) :
    EvaluateStep X bundle p retval i = retval := by
  unfold EvaluateStep
  cases hc : bundle i with
  | none => rfl
  | some bi =>
    cases bi with
    | none => rfl
    | some di =>
      have hv := h di hc
      simp [hv]

theorem plain_EvaluateStep_agree (X Y : CostExternals K) (h : AgreeOnValid X Y)
    (bundle : plain_bundle_t K) (p : Point2d (Jet K N)) (retval : Jet K N) (i : Fin 4) :
    EvaluateStep Y bundle p retval i = EvaluateStep X bundle p retval i := by
  unfold EvaluateStep
  cases bundle i with
  | none => rfl
  | some bi =>
    cases bi with
    | none => rfl
    | some di =>
      by_cases hv : X.valid di = true
      · simp [h.2.2.1, hv, sample_agree X Y h _ di hv]
      · simp [h.2.2.1, hv]

theorem plain_Evaluate_agree (X Y : CostExternals K) (h : AgreeOnValid X Y)
    (get : Point2d K → Option (plain_bundle_t K)) (q : List (Jet K N)) :
    Evaluate Y get q = Evaluate X get q := by
  rw [plain_Evaluate_eq, plain_Evaluate_eq]
  cases get (queryPoint q).scalar with
  | none => rfl
  | some bundle => simp only [List.foldl, plain_EvaluateStep_agree X Y h]

theorem plain_Evaluate_of_absent (X : CostExternals K) (get : Point2d K → Option (plain_bundle_t K))
    (q : List (Jet K N))
    (h : ∀ bundle, get (queryPoint q).scalar = some bundle →
      ∀ i : Fin 4, PlainAbsentOrInvalid X (bundle i)) :
    Evaluate X get q = Jet.const 1 := by
  rw [plain_Evaluate_eq]
  cases hb : get (queryPoint q).scalar with
  | none => rfl
  | some bundle =>
    have h2 := h bundle hb
    simp only [List.foldl, plain_EvaluateStep_of_absent X bundle _ _ _ (h2 _)]

end GridmapCostFunctor

/-! ## Lemmas on derivatives carried by dual numbers -/

theorem TracksAt.congr {N : Nat} {F G : ℝ → ℝ} {j : Jet ℝ N} {i : Fin N} (h : TracksAt F j i)
    (hFG : ∀ t, G t = F t) : TracksAt G j i := by
  have : G = F := funext hFG
  rw [this]
  exact h

theorem TracksAt.const {N : Nat} (c : ℝ) (i : Fin N) :
    TracksAt (fun _ => c) (Jet.const c : Jet ℝ N) i :=
  ⟨rfl, hasDerivAt_const 0 c⟩

theorem TracksAt.add {N : Nat} {F G : ℝ → ℝ} {f g : Jet ℝ N} {i : Fin N} (hF : TracksAt F f i)
    (hG : TracksAt G g i) : TracksAt (fun t => F t + G t) (f + g) i :=
  ⟨by simp only [Jet.add_a, hF.1, hG.1], hF.2.add hG.2⟩

theorem TracksAt.sub {N : Nat} {F G : ℝ → ℝ} {f g : Jet ℝ N} {i : Fin N} (hF : TracksAt F f i)
    (hG : TracksAt G g i) : TracksAt (fun t => F t - G t) (f - g) i :=
  ⟨by simp only [Jet.sub_a, hF.1, hG.1], hF.2.sub hG.2⟩

theorem TracksAt.neg {N : Nat} {F : ℝ → ℝ} {f : Jet ℝ N} {i : Fin N} (hF : TracksAt F f i) :
    TracksAt (fun t => -F t) (-f) i :=
  ⟨by simp only [Jet.neg_a, hF.1], hF.2.neg⟩

theorem TracksAt.mul {N : Nat} {F G : ℝ → ℝ} {f g : Jet ℝ N} {i : Fin N} (hF : TracksAt F f i)
    (hG : TracksAt G g i) : TracksAt (fun t => F t * G t) (f * g) i := by
  refine ⟨by simp only [Jet.mul_a, hF.1, hG.1], ?_⟩
  have h := hF.2.mul hG.2
  rw [hF.1, hG.1] at h
  have e : (f * g).v i = f.v i * g.a + f.a * g.v i := by
    rw [Jet.mul_v]; ring
  rw [e]
  exact h

theorem TracksAt.exp {N : Nat} {F : ℝ → ℝ} {f : Jet ℝ N} {i : Fin N} (hF : TracksAt F f i) :
    TracksAt (fun t => Real.exp (F t)) (Jet.exp Real.exp f) i := by
  refine ⟨by simp only [Jet.exp_a, hF.1], ?_⟩
  have h := hF.2.exp
  rw [hF.1] at h
  exact h

theorem TracksAt.line {N : Nat} (j : Jet ℝ N) (i : Fin N) :
    TracksAt (fun t => j.a + t * j.v i) j i := by
  refine ⟨by simp, ?_⟩
  have h := ((hasDerivAt_id (0 : ℝ)).mul_const (j.v i)).const_add j.a
  simpa using h

theorem tracks_transform {N : Nat} (p : Point2d (Jet ℝ N)) (tf : Transform2d ℝ) (i : Fin N)
    (Px Py : ℝ → ℝ) (hx : TracksAt Px p.x i) (hy : TracksAt Py p.y i) :
    TracksAt (fun t => (tf.apply ⟨Px t, Py t⟩).x) (ScanMatchCostFunctor.transform p tf).x i ∧
    TracksAt (fun t => (tf.apply ⟨Px t, Py t⟩).y) (ScanMatchCostFunctor.transform p tf).y i := by
  constructor
  · have h := (((TracksAt.const tf.cos i).mul hx).add
      ((TracksAt.const tf.sin i).neg.mul hy)).add (TracksAt.const tf.tx i)
    refine TracksAt.congr h ?_
    intro t
    simp only [Transform2d.apply]
    ring
  · have h := (((TracksAt.const tf.sin i).mul hx).add
      ((TracksAt.const tf.cos i).mul hy)).add (TracksAt.const tf.ty i)
    exact TracksAt.congr h (fun t => rfl)

theorem tracks_sample {N : Nat} (X : CostExternals ℝ) (hX : X.exp = Real.exp)
    (p : Point2d (Jet ℝ N)) (di : Distribution ℝ) (i : Fin N) (Px Py : ℝ → ℝ)
    (hx : TracksAt Px p.x i) (hy : TracksAt Py p.y i) :
    TracksAt
      (fun t => X.exp (-(1 / 2) *
        quadForm (X.getInformationMatrix di) (Point2d.sub ⟨Px t, Py t⟩ (X.getMean di))))
      (ScanMatchCostFunctor.sample X p di) i := by
  have dx := hx.sub (TracksAt.const (X.getMean di).x i)
  have dy := hy.sub (TracksAt.const (X.getMean di).y i)
  have hh : TracksAt (fun _ => -(1 / 2 : ℝ)) (-Jet.const (1 / 2) : Jet ℝ N) i :=
    (TracksAt.const (1 / 2 : ℝ) i).neg
  have r0 := ((hh.mul dx).mul (TracksAt.const (X.getInformationMatrix di 0 0) i)).add
    ((hh.mul dy).mul (TracksAt.const (X.getInformationMatrix di 1 0) i))
  have r1 := ((hh.mul dx).mul (TracksAt.const (X.getInformationMatrix di 0 1) i)).add
    ((hh.mul dy).mul (TracksAt.const (X.getInformationMatrix di 1 1) i))
  have he := ((r0.mul dx).add (r1.mul dy)).exp
  have hs : ScanMatchCostFunctor.sample X p di
      = Jet.exp Real.exp
          ((((-Jet.const (1 / 2)) * (p.x - Jet.const (X.getMean di).x)
                * Jet.const (X.getInformationMatrix di 0 0)
              + (-Jet.const (1 / 2)) * (p.y - Jet.const (X.getMean di).y)
                * Jet.const (X.getInformationMatrix di 1 0))
              * (p.x - Jet.const (X.getMean di).x))
            + (((-Jet.const (1 / 2)) * (p.x - Jet.const (X.getMean di).x)
                * Jet.const (X.getInformationMatrix di 0 1)
              + (-Jet.const (1 / 2)) * (p.y - Jet.const (X.getMean di).y)
                * Jet.const (X.getInformationMatrix di 1 1))
              * (p.y - Jet.const (X.getMean di).y))) := by
    unfold ScanMatchCostFunctor.sample
    rw [hX]
  rw [hs, hX]
  refine TracksAt.congr he ?_
  intro t
  simp only [quadForm, Point2d.sub]
  congr 1
  ring

theorem tracks_EvaluateStep {N : Nat} (X : CostExternals ℝ) (hX : X.exp = Real.exp)
    (map_ : OccupancyGridmap ℝ) (ivm_ : InverseModel ℝ) (bundle : distribution_bundle_t)
    (p : Point2d (Jet ℝ N)) (retval : Jet ℝ N) (k : Fin 4) (i : Fin N) (F Px Py : ℝ → ℝ)
    (hF : TracksAt F retval i) (hx : TracksAt Px p.x i) (hy : TracksAt Py p.y i) :
    TracksAt (fun t => F t - directTerm_spec X ivm_ (map_.deref k (bundle k)) ⟨Px t, Py t⟩)
      (ScanMatchCostFunctor.EvaluateStep X map_ ivm_ bundle p retval k) i := by
  unfold ScanMatchCostFunctor.EvaluateStep directTerm_spec
  cases map_.deref k (bundle k) with
  | none => exact TracksAt.congr hF (fun t => sub_zero _)
  | some bi =>
    cases hd : bi.distribution_ with
    | none =>
      simp only [hd]
      exact TracksAt.congr hF (fun t => sub_zero _)
    | some di =>
      by_cases hv : X.valid di = true
      · simp only [hd, hv, Bool.not_true, Bool.false_eq_true, if_false, if_true]
        have h := hF.sub (((TracksAt.const (1 / 4 : ℝ) i).mul
          (TracksAt.const (bi.getOccupancy X ivm_) i)).mul (tracks_sample X hX p di i Px Py hx hy))
        exact TracksAt.congr h (fun t => rfl)
      · simp only [hd, hv, Bool.not_false, if_true, Bool.false_eq_true, if_false]
        exact TracksAt.congr hF (fun t => sub_zero _)

theorem tracks_Evaluate {N : Nat} (X : CostExternals ℝ) (hX : X.exp = Real.exp)
    (map_ : OccupancyGridmap ℝ) (f : ScanMatchCostFunctor ℝ) (q : List (Jet ℝ N)) (i : Fin N) :
    TracksAt
      (fun t => directCost_spec X f.ivm_ map_.getInitialOrigin.inverse
        (ScanMatchCostFunctor.selectedCells map_ f (queryPoint q).scalar)
        ((queryPoint q).line i t))
      (ScanMatchCostFunctor.Evaluate X map_ f q).1 i := by
  rw [ScanMatchCostFunctor.Evaluate_eq]
  unfold ScanMatchCostFunctor.selectedCells directCost_spec
  cases map_.bundleAt (ScanMatchCostFunctor.getBundle map_ f (queryPoint q).scalar).1 with
  | none => exact TracksAt.const 1 i
  | some bundle =>
    have hp := tracks_transform (queryPoint q) map_.getInitialOrigin.inverse i
      (fun t => (queryPoint q).x.a + t * (queryPoint q).x.v i)
      (fun t => (queryPoint q).y.a + t * (queryPoint q).y.v i)
      (TracksAt.line _ i) (TracksAt.line _ i)
    have step := fun (k : Fin 4) (retval : Jet ℝ N) (F : ℝ → ℝ) (hF : TracksAt F retval i) =>
      tracks_EvaluateStep X hX map_ f.ivm_ bundle
        (ScanMatchCostFunctor.transform (queryPoint q) map_.getInitialOrigin.inverse) retval k i
        F _ _ hF hp.1 hp.2
    have h := step 3 _ _ (step 2 _ _ (step 1 _ _ (step 0 _ _ (TracksAt.const 1 i))))
    simp only [Option.map_some', List.foldl]
    refine TracksAt.congr h ?_
    intro t
    simp only [Point2d.line]
    ring

theorem tracks_plain_EvaluateStep {N : Nat} (X : CostExternals ℝ) (hX : X.exp = Real.exp)
    (bundle : plain_bundle_t ℝ) (p : Point2d (Jet ℝ N)) (retval : Jet ℝ N) (k : Fin 4)
    (i : Fin N) (F Px Py : ℝ → ℝ)
    (hF : TracksAt F retval i) (hx : TracksAt Px p.x i) (hy : TracksAt Py p.y i) :
    TracksAt (fun t => F t - plainTerm_spec X (bundle k) ⟨Px t, Py t⟩)
      (GridmapCostFunctor.EvaluateStep X bundle p retval k) i := by
  unfold GridmapCostFunctor.EvaluateStep plainTerm_spec
  cases bundle k with
  | none => exact TracksAt.congr hF (fun t => sub_zero _)
  | some bi =>
    cases bi with
    | none => exact TracksAt.congr hF (fun t => sub_zero _)
    | some di =>
      by_cases hv : X.valid di = true
      · simp only [hv, Bool.not_true, Bool.false_eq_true, if_false, if_true]
        have h := hF.sub ((TracksAt.const (1 / 4 : ℝ) i).mul
          (tracks_sample X hX p di i Px Py hx hy))
        exact TracksAt.congr h (fun t => rfl)
      · simp only [hv, Bool.not_false, if_true, Bool.false_eq_true, if_false]
        exact TracksAt.congr hF (fun t => sub_zero _)

theorem tracks_plain_Evaluate {N : Nat} (X : CostExternals ℝ) (hX : X.exp = Real.exp)
    (get : Point2d ℝ → Option (plain_bundle_t ℝ)) (q : List (Jet ℝ N)) (i : Fin N) :
    TracksAt
      (fun t => plainCost_spec X (get (queryPoint q).scalar) ((queryPoint q).line i t))
      (GridmapCostFunctor.Evaluate X get q) i := by
  rw [GridmapCostFunctor.plain_Evaluate_eq]
  unfold plainCost_spec
  cases get (queryPoint q).scalar with
  | none => exact TracksAt.const 1 i
  | some bundle =>
    have step := fun (k : Fin 4) (retval : Jet ℝ N) (F : ℝ → ℝ) (hF : TracksAt F retval i) =>
      tracks_plain_EvaluateStep X hX bundle (queryPoint q) retval k i F
        (fun t => (queryPoint q).x.a + t * (queryPoint q).x.v i)
        (fun t => (queryPoint q).y.a + t * (queryPoint q).y.v i)
        hF (TracksAt.line _ i) (TracksAt.line _ i)
    have h := step 3 _ _ (step 2 _ _ (step 1 _ _ (step 0 _ _ (TracksAt.const 1 i))))
    simp only [List.foldl]
    refine TracksAt.congr h ?_
    intro t
    simp only [Point2d.line]
    ring

/-! ## Evaluation of the cost functor on a concrete map -/

theorem demoMap3_consts : OccupancyGridmap.consts demoMap3 = OccupancyGridmap.consts demoMap :=
  OccupancyGridmap.run_consts demoExternals _ demoMap

theorem demoMap3_toBundleIndex (x y : ℚ) :
    demoMap3.toBundleIndex ⟨x, y⟩ = (Int.floor (x * 2), Int.floor (y * 2)) := by
  have hc := demoMap3_consts
  simp only [OccupancyGridmap.consts, Prod.mk.injEq] at hc
  rw [← OccupancyGridmap.demo_toBundleIndex]
  simp only [OccupancyGridmap.toBundleIndex, hc.2.2.2.1, hc.2.2.2.2.2.2]

theorem demoMap3_allocated : OccupancyGridmap.Allocated demoMap3 (0, 0) := by
  have h : demoMap3 = OccupancyGridmap.add demoExternals
      (OccupancyGridmap.run demoExternals demoMap
        [Op.add ⟨1 / 8, 1 / 8⟩ ⟨1 / 8, 1 / 8⟩, Op.add ⟨3 / 8, 1 / 8⟩ ⟨3 / 8, 1 / 8⟩])
      ⟨1 / 8, 3 / 8⟩ ⟨1 / 8, 3 / 8⟩ := rfl
  have hc := OccupancyGridmap.run_consts demoExternals
    [Op.add ⟨1 / 8, 1 / 8⟩ ⟨1 / 8, 1 / 8⟩, Op.add ⟨3 / 8, 1 / 8⟩ ⟨3 / 8, 1 / 8⟩] demoMap
  simp only [OccupancyGridmap.consts, Prod.mk.injEq] at hc
  have hi : (OccupancyGridmap.run demoExternals demoMap
      [Op.add ⟨1 / 8, 1 / 8⟩ ⟨1 / 8, 1 / 8⟩, Op.add ⟨3 / 8, 1 / 8⟩ ⟨3 / 8, 1 / 8⟩]).toBundleIndex
        ⟨1 / 8, 3 / 8⟩ = (0, 0) := by
    have h2 := OccupancyGridmap.demo_toBundleIndex (1 / 8) (3 / 8)
    simp only [OccupancyGridmap.toBundleIndex, hc.2.2.2.1, hc.2.2.2.2.2.2] at h2 ⊢
    rw [h2]; norm_num
  rw [h, OccupancyGridmap.add_eq, OccupancyGridmap.updateOccupied_allocated, hi]
  exact Or.inl rfl

theorem demoMap3_selectedCells :
    ScanMatchCostFunctor.selectedCells demoMap3 demoFunctor ⟨5 / 24, 5 / 24⟩
      = some (fun _ => some demoCell3) := by
  have hidx : demoMap3.toBundleIndex ⟨5 / 24, 5 / 24⟩ = (0, 0) := by
    rw [demoMap3_toBundleIndex]; norm_num
  have hall : (demoMap3.bundle_storage_.get (0, 0)).isSome = true := demoMap3_allocated
  obtain ⟨b, hb⟩ := Option.isSome_iff_exists.mp hall
  have hvalid := OccupancyGridmap.demoMap3_reachable.valid (0, 0) b hb
  have hget : (ScanMatchCostFunctor.getBundle demoMap3 demoFunctor ⟨5 / 24, 5 / 24⟩).1
      = some (0, 0) := by
    simp only [ScanMatchCostFunctor.getBundle, hidx, demoFunctor, OccupancyGridmap.get, hall,
      if_true]
  simp only [ScanMatchCostFunctor.selectedCells, hget, OccupancyGridmap.bundleAt, hb,
    Option.map_some', Option.some.injEq]
  funext k
  rw [(hvalid k).1]
  exact OccupancyGridmap.demoMap3_get k

theorem demo_Evaluate_value :
    (ScanMatchCostFunctor.Evaluate demoCostExternals demoMap3 demoFunctor demoQuery).1.a
      = 1 / 2 := by
  rw [ScanMatchCostFunctor.Evaluate_a]
  have hpt : (queryPoint demoQuery).scalar = ⟨5 / 24, 5 / 24⟩ := rfl
  have hc := demoMap3_consts
  simp only [OccupancyGridmap.consts, Prod.mk.injEq] at hc
  have horigin : demoMap3.getInitialOrigin = identityTransform := hc.2.2.2.2.2.1
  rw [hpt, demoMap3_selectedCells, horigin]
  norm_num [directCost_spec, directTerm_spec, demoCell3, OccupancyDistribution.updateOccupied,
    OccupancyDistribution.zero, OccupancyDistribution.getOccupancy, Distribution.add,
    Distribution.zero, demoCostExternals, demoFunctor, Distribution.mean, demoLogOdds_from,
    demoExp, quadForm, Point2d.sub, identityTransform, Transform2d.inverse, Transform2d.apply]

theorem demo_Evaluate_gradient (i : Fin 2) :
    (ScanMatchCostFunctor.Evaluate demoCostExternals demoMap3 demoFunctor demoQuery).1.v i
      = 0 := by
  rw [ScanMatchCostFunctor.Evaluate_eq]
  have hsel := demoMap3_selectedCells
  have hpt : (queryPoint demoQuery).scalar = ⟨5 / 24, 5 / 24⟩ := rfl
  unfold ScanMatchCostFunctor.selectedCells at hsel
  rw [hpt]
  cases hb : demoMap3.bundleAt
      (ScanMatchCostFunctor.getBundle demoMap3 demoFunctor ⟨5 / 24, 5 / 24⟩).1 with
  | none => simp [hb] at hsel
  | some bundle =>
    simp only [hb, Option.map_some', Option.some.injEq] at hsel
    have hcell : ∀ k, demoMap3.deref k (bundle k) = some demoCell3 := fun k => congrFun hsel k
    have hc := demoMap3_consts
    simp only [OccupancyGridmap.consts, Prod.mk.injEq] at hc
    have horigin : demoMap3.getInitialOrigin = identityTransform := hc.2.2.2.2.2.1
    simp only [List.foldl, ScanMatchCostFunctor.EvaluateStep, hcell, horigin]
    fin_cases i <;>
      norm_num [demoCell3, OccupancyDistribution.updateOccupied, OccupancyDistribution.zero,
        OccupancyDistribution.getOccupancy, Distribution.add, Distribution.zero,
        demoCostExternals, demoFunctor, Distribution.mean, demoLogOdds_from, demoExp,
        ScanMatchCostFunctor.sample, ScanMatchCostFunctor.transform, queryPoint, demoQuery,
        identityTransform, Transform2d.inverse]

namespace OccupancyGridmap

variable {K : Type} [LinearOrderedField K] [FloorRing K]

/-- C14. For the DIRECT cost functor of the occupancy map evaluated on dual numbers at `q`:
if the bundle looked up for `q` is missing, the result is the constant 1 (scalar part 1,
derivative part 0); otherwise the scalar part of the result is `1 − Σk ¼ · occ(ck, M) ·
exp(−½ (p' − μk)ᵀ Ωk (p' − μk))` over the storeys `k = 0..3` whose cell exists and is valid,
where `p` is `q` zero-padded to two components and `p' = rot(yaw) · p + t` for the inverse
`(t, yaw)` of the map's initial origin. -/
theorem C14_direct_cost_value {N : Nat} (X : CostExternals K) (map_ : OccupancyGridmap K)
    (f : ScanMatchCostFunctor K) (q : List (Jet K N)) :
    (map_.bundleAt (ScanMatchCostFunctor.getBundle map_ f (queryPoint q).scalar).1 = none →
      (ScanMatchCostFunctor.Evaluate X map_ f q).1 = Jet.const 1) ∧
    (∀ bundle,
      map_.bundleAt (ScanMatchCostFunctor.getBundle map_ f (queryPoint q).scalar).1
        = some bundle →
      (ScanMatchCostFunctor.Evaluate X map_ f q).1.a
        = 1 - (directTerm_spec X f.ivm_ (map_.deref 0 (bundle 0))
                (map_.getInitialOrigin.inverse.apply (queryPoint q).scalar) +
               directTerm_spec X f.ivm_ (map_.deref 1 (bundle 1))
                (map_.getInitialOrigin.inverse.apply (queryPoint q).scalar) +
               directTerm_spec X f.ivm_ (map_.deref 2 (bundle 2))
                (map_.getInitialOrigin.inverse.apply (queryPoint q).scalar) +
               directTerm_spec X f.ivm_ (map_.deref 3 (bundle 3))
                (map_.getInitialOrigin.inverse.apply (queryPoint q).scalar))) ∧
    (ScanMatchCostFunctor.Evaluate X map_ f q).1.a
      = directCost_spec X f.ivm_ map_.getInitialOrigin.inverse
          (ScanMatchCostFunctor.selectedCells map_ f (queryPoint q).scalar)
          (queryPoint q).scalar ∧
    (∀ p : Point2d K, map_.getInitialOrigin.inverse.apply p
      = ⟨map_.getInitialOrigin.inverse.cos * p.x - map_.getInitialOrigin.inverse.sin * p.y
          + map_.getInitialOrigin.inverse.tx,
         map_.getInitialOrigin.inverse.sin * p.x + map_.getInitialOrigin.inverse.cos * p.y
          + map_.getInitialOrigin.inverse.ty⟩) ∧
    queryPoint ([] : List (Jet K N)) = ⟨Jet.const 0, Jet.const 0⟩ ∧
    (∀ q0 : Jet K N, queryPoint [q0] = ⟨q0, Jet.const 0⟩) ∧
    (∀ (q0 q1 : Jet K N) (rest : List (Jet K N)), queryPoint (q0 :: q1 :: rest) = ⟨q0, q1⟩) := by
  refine ⟨ScanMatchCostFunctor.Evaluate_missing X map_ f q, ?_,
    ScanMatchCostFunctor.Evaluate_a X map_ f q, fun _ => rfl, rfl, fun _ => rfl,
    fun _ _ _ => rfl⟩
  intro bundle hb
  rw [ScanMatchCostFunctor.Evaluate_a]
  simp only [ScanMatchCostFunctor.selectedCells, hb, Option.map_some', directCost_spec]

/-- C15. The DIRECT cost is bounded above by 1: for a non-negative scalar exponential, every
map state, every inverse model whose occupancy values are non-negative and every query `q`,
the scalar part of the result of the DIRECT cost functor of the occupancy map is at most 1;
so is that of the DIRECT cost functor of the map of plain statistics cells. -/
theorem C15_direct_cost_le_one {N : Nat} (X : CostExternals K) (hexp : ∀ x, 0 ≤ X.exp x)
    (map_ : OccupancyGridmap K) (f : ScanMatchCostFunctor K)
    (hocc : ∀ c : OccupancyDistribution K, 0 ≤ c.getOccupancy X f.ivm_)
    (q : List (Jet K N)) :
    (ScanMatchCostFunctor.Evaluate X map_ f q).1.a ≤ 1 ∧
    ∀ get : Point2d K → Option (plain_bundle_t K), (GridmapCostFunctor.Evaluate X get q).a ≤ 1 := by
  constructor
  · rw [ScanMatchCostFunctor.Evaluate_a]
    exact directCost_spec_le_one X hexp f.ivm_ hocc _ _ _
  · intro get
    rw [GridmapCostFunctor.plain_Evaluate_a]
    exact plainCost_spec_le_one X hexp _ _

/-- C15, evaluated for the map holding three points in bundle `(0, 0)`, a fresh functor with
the inverse model `(0, 0, 0)` and the query `(5/24, 5/24)`. -/
theorem C15_direct_cost_le_one_witness :
    (∀ x, 0 ≤ demoCostExternals.exp x) ∧
    (∀ c : OccupancyDistribution ℚ, 0 ≤ c.getOccupancy demoCostExternals demoFunctor.ivm_) ∧
    (ScanMatchCostFunctor.Evaluate demoCostExternals demoMap3 demoFunctor demoQuery).1.a ≤ 1 :=
  have hexp : ∀ x, 0 ≤ demoCostExternals.exp x := demoExp_nonneg
  have hocc : ∀ c : OccupancyDistribution ℚ,
      0 ≤ c.getOccupancy demoCostExternals demoFunctor.ivm_ := demo_getOccupancy_nonneg _
  ⟨hexp, hocc,
    (C15_direct_cost_le_one demoCostExternals hexp demoMap3 demoFunctor hocc demoQuery).1⟩

/-- C17. Invalid cells are treated as absent by the DIRECT cost functors: if every cell of
the looked-up bundle is missing, has no statistics cell or is not valid, the result is
exactly 1 with all derivative components 0; this is so on an empty map for every functor
state and query; and the result, scalar and derivative part, is the same for any two
statistics libraries that differ only in the mean and information matrix they report for
cells that are not valid. -/
theorem C17_invalid_cells_absent {N : Nat} (X : CostExternals K) (map_ : OccupancyGridmap K)
    (f : ScanMatchCostFunctor K) (q : List (Jet K N)) :
    ((∀ bundle,
        map_.bundleAt (ScanMatchCostFunctor.getBundle map_ f (queryPoint q).scalar).1
          = some bundle →
        ∀ i : Fin 4, AbsentOrInvalid X (map_.deref i (bundle i))) →
      (ScanMatchCostFunctor.Evaluate X map_ f q).1 = Jet.const 1 ∧
      (ScanMatchCostFunctor.Evaluate X map_ f q).1.a = 1 ∧
      ∀ i, (ScanMatchCostFunctor.Evaluate X map_ f q).1.v i = 0) ∧
    (∀ (origin : Transform2d K) (resolution : K),
      (ScanMatchCostFunctor.Evaluate X (new origin resolution) f q).1 = Jet.const 1) ∧
    (∀ Y : CostExternals K, AgreeOnValid X Y →
      ScanMatchCostFunctor.Evaluate Y map_ f q = ScanMatchCostFunctor.Evaluate X map_ f q) ∧
    (∀ get : Point2d K → Option (plain_bundle_t K),
      ((∀ bundle, get (queryPoint q).scalar = some bundle →
          ∀ i : Fin 4, PlainAbsentOrInvalid X (bundle i)) →
        GridmapCostFunctor.Evaluate X get q = Jet.const 1) ∧
      (get (queryPoint q).scalar = none → GridmapCostFunctor.Evaluate X get q = Jet.const 1) ∧
      ∀ Y : CostExternals K, AgreeOnValid X Y →
        GridmapCostFunctor.Evaluate Y get q = GridmapCostFunctor.Evaluate X get q) := by
  refine ⟨?_, ?_, fun Y h => ScanMatchCostFunctor.Evaluate_agree X Y h map_ f q, ?_⟩
  · intro h
    have h1 := ScanMatchCostFunctor.Evaluate_of_absent X map_ f q h
    rw [h1]
    exact ⟨rfl, rfl, fun _ => rfl⟩
  · intro origin resolution
    exact ScanMatchCostFunctor.Evaluate_missing X _ f q
      (ScanMatchCostFunctor.bundleAt_new origin resolution _)
  · intro get
    refine ⟨GridmapCostFunctor.plain_Evaluate_of_absent X get q, ?_,
      fun Y h => GridmapCostFunctor.plain_Evaluate_agree X Y h get q⟩
    intro h
    rw [GridmapCostFunctor.plain_Evaluate_eq, h]

/-- C19. In the dual-number DIRECT evaluation the bundle lookup uses the scalar parts of `q`
only: for two dual inputs with equal scalar parts and arbitrary derivative parts, `getBundle`
selects the same bundle and leaves the same cache, and the scalar parts of the two results
are equal, for the occupancy map and for the map of plain statistics cells. -/
theorem C19_lookup_uses_scalar_parts {N M : Nat} (X : CostExternals K)
    (map_ : OccupancyGridmap K) (f : ScanMatchCostFunctor K) (q1 : List (Jet K N))
    (q2 : List (Jet K M)) (h : q1.map (fun j => j.a) = q2.map (fun j => j.a)) :
    ScanMatchCostFunctor.getBundle map_ f (queryPoint q1).scalar
      = ScanMatchCostFunctor.getBundle map_ f (queryPoint q2).scalar ∧
    (ScanMatchCostFunctor.Evaluate X map_ f q1).1.a
      = (ScanMatchCostFunctor.Evaluate X map_ f q2).1.a ∧
    (ScanMatchCostFunctor.Evaluate X map_ f q1).2
      = (ScanMatchCostFunctor.Evaluate X map_ f q2).2 ∧
    ∀ get : Point2d K → Option (plain_bundle_t K),
      get (queryPoint q1).scalar = get (queryPoint q2).scalar ∧
      (GridmapCostFunctor.Evaluate X get q1).a = (GridmapCostFunctor.Evaluate X get q2).a := by
  have hq := queryPoint_scalar_congr q1 q2 h
  refine ⟨by rw [hq], ?_, ?_, fun get => ⟨by rw [hq], ?_⟩⟩
  · rw [ScanMatchCostFunctor.Evaluate_a, ScanMatchCostFunctor.Evaluate_a, hq]
  · rw [ScanMatchCostFunctor.Evaluate_snd, ScanMatchCostFunctor.Evaluate_snd, hq]
  · rw [GridmapCostFunctor.plain_Evaluate_a, GridmapCostFunctor.plain_Evaluate_a, hq]

/-- C19, evaluated for two dual queries at `(5/24, 5/24)` with different derivative parts. -/
theorem C19_lookup_uses_scalar_parts_witness :
    demoQuery.map (fun j => j.a) = demoQuery2.map (fun j => j.a) ∧
    ScanMatchCostFunctor.getBundle demoMap3 demoFunctor (queryPoint demoQuery).scalar
      = ScanMatchCostFunctor.getBundle demoMap3 demoFunctor (queryPoint demoQuery2).scalar ∧
    (ScanMatchCostFunctor.Evaluate demoCostExternals demoMap3 demoFunctor demoQuery).1.a
      = (ScanMatchCostFunctor.Evaluate demoCostExternals demoMap3 demoFunctor demoQuery2).1.a :=
  ⟨rfl,
    (C19_lookup_uses_scalar_parts demoCostExternals demoMap3 demoFunctor demoQuery demoQuery2
      rfl).1,
    (C19_lookup_uses_scalar_parts demoCostExternals demoMap3 demoFunctor demoQuery demoQuery2
      rfl).2.1⟩

/-- C16 fails as stated: with the real exponential there is no bundle of four valid cells
with positive-definite information matrices and occupancy values in `[0, 1]`, and no query
(with any number of derivative components), for which the scalar part of the DIRECT cost
is negative: each of the four summands is at most `¼ · 1 · exp(−½ dᵀ Ω d) ≤ ¼`. -/
theorem C16_counterexample :
    ¬ ∃ (N : Nat) (X : CostExternals ℝ) (map_ : OccupancyGridmap ℝ)
        (f : ScanMatchCostFunctor ℝ) (q : List (Jet ℝ N)) (bundle : distribution_bundle_t),
      X.exp = Real.exp ∧
      map_.bundleAt (ScanMatchCostFunctor.getBundle map_ f (queryPoint q).scalar).1
        = some bundle ∧
      (∀ i : Fin 4, ∃ c d, map_.deref i (bundle i) = some c ∧ c.distribution_ = some d ∧
        X.valid d = true ∧
        (∀ v : Point2d ℝ, (v.x ≠ 0 ∨ v.y ≠ 0) → 0 < quadForm (X.getInformationMatrix d) v) ∧
        0 ≤ c.getOccupancy X f.ivm_ ∧ c.getOccupancy X f.ivm_ ≤ 1) ∧
      (ScanMatchCostFunctor.Evaluate X map_ f q).1.a < 0 := by
  rintro ⟨N, X, map_, f, q, bundle, hexp, hb, hcells, hneg⟩
  rw [ScanMatchCostFunctor.Evaluate_a] at hneg
  have hnn := directCost_spec_nonneg X
    (by intro x hx; rw [hexp]; exact Real.exp_le_one_iff.mpr hx)
    (by intro x; rw [hexp]; exact Real.exp_nonneg x)
    f.ivm_ map_.getInitialOrigin.inverse
    (ScanMatchCostFunctor.selectedCells map_ f (queryPoint q).scalar) (queryPoint q).scalar
    (by
      intro cs hcs i c d hc hd hv
      simp only [ScanMatchCostFunctor.selectedCells, hb, Option.map_some',
        Option.some.injEq] at hcs
      subst hcs
      obtain ⟨c2, d2, hc2, hd2, -, hpd, h0, h1⟩ := hcells i
      have hc : map_.deref i (bundle i) = some c := hc
      rw [hc2] at hc
      injection hc with hc
      subst hc
      rw [hd2] at hd
      injection hd with hd
      subst hd
      refine ⟨h0, h1, fun v => ?_⟩
      by_cases hz : v.x ≠ 0 ∨ v.y ≠ 0
      · exact le_of_lt (hpd v hz)
      · push_neg at hz
        cases v with
        | mk x y =>
          simp only at hz
          rw [hz.1, hz.2, quadForm_zero])
  linarith

/-- C16 (amended). For a scalar exponential with values in `[0, 1]` on non-positive
arguments and non-negative elsewhere (as the real exponential), every map state and every
query: if each existing valid cell of the looked-up bundle has an occupancy value in `[0, 1]`
and a positive-semidefinite information matrix, in particular for four valid cells with
positive-definite information matrices, the scalar part of the DIRECT cost lies in `[0, 1]`;
it does not go negative. -/
theorem C16_direct_cost_nonneg {N : Nat} (X : CostExternals K)
    (hexp1 : ∀ x, x ≤ 0 → X.exp x ≤ 1) (hexp0 : ∀ x, 0 ≤ X.exp x)
    (map_ : OccupancyGridmap K) (f : ScanMatchCostFunctor K) (q : List (Jet K N))
    (hcells : ∀ bundle,
      map_.bundleAt (ScanMatchCostFunctor.getBundle map_ f (queryPoint q).scalar).1
        = some bundle →
      ∀ (i : Fin 4) c d, map_.deref i (bundle i) = some c → c.distribution_ = some d →
        X.valid d = true →
        0 ≤ c.getOccupancy X f.ivm_ ∧ c.getOccupancy X f.ivm_ ≤ 1 ∧
        ∀ v, 0 ≤ quadForm (X.getInformationMatrix d) v) :
    0 ≤ (ScanMatchCostFunctor.Evaluate X map_ f q).1.a ∧
    (ScanMatchCostFunctor.Evaluate X map_ f q).1.a ≤ 1 := by
  rw [ScanMatchCostFunctor.Evaluate_a]
  have hsel : ∀ cs, ScanMatchCostFunctor.selectedCells map_ f (queryPoint q).scalar = some cs →
      ∀ (i : Fin 4) c d, cs i = some c → c.distribution_ = some d → X.valid d = true →
      0 ≤ c.getOccupancy X f.ivm_ ∧ c.getOccupancy X f.ivm_ ≤ 1 ∧
      ∀ v, 0 ≤ quadForm (X.getInformationMatrix d) v := by
    intro cs hcs i c d hc hd hv
    unfold ScanMatchCostFunctor.selectedCells at hcs
    cases hb : map_.bundleAt (ScanMatchCostFunctor.getBundle map_ f (queryPoint q).scalar).1 with
    | none => simp [hb] at hcs
    | some bundle =>
      simp only [hb, Option.map_some', Option.some.injEq] at hcs
      subst hcs
      exact hcells bundle hb i c d hc hd hv
  constructor
  · exact directCost_spec_nonneg X hexp1 hexp0 f.ivm_ _ _ _ hsel
  · refine directCost_spec_le_one_of_cells X hexp0 f.ivm_ _ _ _ ?_
    intro cs hcs i c d hc hd hv
    exact (hsel cs hcs i c d hc hd hv).1

/-- C16 (amended), evaluated for the map holding three points in bundle `(0, 0)`, a fresh
functor with the inverse model `(0, 0, 0)` and the query `(5/24, 5/24)`. -/
theorem C16_direct_cost_nonneg_witness :
    (∀ x : ℚ, x ≤ 0 → demoCostExternals.exp x ≤ 1) ∧ (∀ x, 0 ≤ demoCostExternals.exp x) ∧
    (∀ bundle,
      demoMap3.bundleAt
          (ScanMatchCostFunctor.getBundle demoMap3 demoFunctor (queryPoint demoQuery).scalar).1
        = some bundle →
      ∀ (i : Fin 4) c d, demoMap3.deref i (bundle i) = some c → c.distribution_ = some d →
        demoCostExternals.valid d = true →
        0 ≤ c.getOccupancy demoCostExternals demoFunctor.ivm_ ∧
        c.getOccupancy demoCostExternals demoFunctor.ivm_ ≤ 1 ∧
        ∀ v, 0 ≤ quadForm (demoCostExternals.getInformationMatrix d) v) ∧
    0 ≤ (ScanMatchCostFunctor.Evaluate demoCostExternals demoMap3 demoFunctor demoQuery).1.a ∧
    (ScanMatchCostFunctor.Evaluate demoCostExternals demoMap3 demoFunctor demoQuery).1.a ≤ 1 :=
  have h1 : ∀ x : ℚ, x ≤ 0 → demoCostExternals.exp x ≤ 1 := fun x _ => demoExp_le_one x
  have h0 : ∀ x, 0 ≤ demoCostExternals.exp x := demoExp_nonneg
  have hc : ∀ bundle,
      demoMap3.bundleAt
          (ScanMatchCostFunctor.getBundle demoMap3 demoFunctor (queryPoint demoQuery).scalar).1
        = some bundle →
      ∀ (i : Fin 4) c d, demoMap3.deref i (bundle i) = some c → c.distribution_ = some d →
        demoCostExternals.valid d = true →
        0 ≤ c.getOccupancy demoCostExternals demoFunctor.ivm_ ∧
        c.getOccupancy demoCostExternals demoFunctor.ivm_ ≤ 1 ∧
        ∀ v, 0 ≤ quadForm (demoCostExternals.getInformationMatrix d) v :=
    fun _ _ _ c d _ _ _ =>
      ⟨(demo_getOccupancy_range _ c).1, (demo_getOccupancy_range _ c).2, demo_quadForm_nonneg d⟩
  ⟨h1, h0, hc, C16_direct_cost_nonneg demoCostExternals h1 h0 demoMap3 demoFunctor demoQuery hc⟩

/-- C18. Gradient correctness of the DIRECT functors over the reals with the real
exponential: for every dual query `q` and derivative component `i`, the derivative part
`v i` of the result is the exact derivative at `t = 0` of the cost
`1 − Σk ¼ · occ_k · exp(−½ (p'(t) − μk)ᵀ Ωk (p'(t) − μk))` along the line
`t ↦ q.a + t · q.v i`, taken with the selected bundle, `μk`, `Ωk` and `occ_k` held fixed;
for a query seeded as independent dual variables that line moves coordinate `i` alone, so
`v i` is the partial derivative with respect to `q_i`.  The same holds for the functor of
the map of plain statistics cells. -/
theorem C18_gradient_exact {N : Nat} (X : CostExternals ℝ) (hX : X.exp = Real.exp)
    (map_ : OccupancyGridmap ℝ) (f : ScanMatchCostFunctor ℝ) (q : List (Jet ℝ N)) (i : Fin N) :
    HasDerivAt
      (fun t => directCost_spec X f.ivm_ map_.getInitialOrigin.inverse
        (ScanMatchCostFunctor.selectedCells map_ f (queryPoint q).scalar)
        ((queryPoint q).line i t))
      ((ScanMatchCostFunctor.Evaluate X map_ f q).1.v i) 0 ∧
    (∀ get : Point2d ℝ → Option (plain_bundle_t ℝ),
      HasDerivAt
        (fun t => plainCost_spec X (get (queryPoint q).scalar) ((queryPoint q).line i t))
        ((GridmapCostFunctor.Evaluate X get q).v i) 0) ∧
    (∀ (a0 a1 t : ℝ),
      (queryPoint ([⟨a0, fun j => if j = 0 then 1 else 0⟩,
          ⟨a1, fun j => if j = 1 then 1 else 0⟩] : List (Jet ℝ 2))).line 0 t = ⟨a0 + t, a1⟩ ∧
      (queryPoint ([⟨a0, fun j => if j = 0 then 1 else 0⟩,
          ⟨a1, fun j => if j = 1 then 1 else 0⟩] : List (Jet ℝ 2))).line 1 t = ⟨a0, a1 + t⟩) := by
  refine ⟨(tracks_Evaluate X hX map_ f q i).2, fun get => (tracks_plain_Evaluate X hX get q i).2,
    ?_⟩
  intro a0 a1 t
  constructor <;> simp [queryPoint, Point2d.line]

/-- C18, evaluated over the reals for the map holding three points in bundle `(0, 0)`, a fresh
functor and the query `(1/4, 1/8)` seeded as independent dual variables: component 0 of the
derivative part is the partial derivative with respect to the first coordinate. -/
theorem C18_gradient_exact_witness :
    (unitCostExternals Real.exp).exp = Real.exp ∧
    HasDerivAt
      (fun t => directCost_spec (unitCostExternals Real.exp)
        (⟨⟨0, 0, 0⟩, fun _ => none⟩ : ScanMatchCostFunctor ℝ).ivm_
        (threePointMap ℝ).getInitialOrigin.inverse
        (ScanMatchCostFunctor.selectedCells (threePointMap ℝ) ⟨⟨0, 0, 0⟩, fun _ => none⟩
          (queryPoint ([⟨1 / 4, fun j => if j = 0 then 1 else 0⟩,
            ⟨1 / 8, fun j => if j = 1 then 1 else 0⟩] : List (Jet ℝ 2))).scalar)
        ((queryPoint ([⟨1 / 4, fun j => if j = 0 then 1 else 0⟩,
            ⟨1 / 8, fun j => if j = 1 then 1 else 0⟩] : List (Jet ℝ 2))).line 0 t))
      ((ScanMatchCostFunctor.Evaluate (unitCostExternals Real.exp) (threePointMap ℝ)
          ⟨⟨0, 0, 0⟩, fun _ => none⟩
          ([⟨1 / 4, fun j => if j = 0 then 1 else 0⟩,
            ⟨1 / 8, fun j => if j = 1 then 1 else 0⟩] : List (Jet ℝ 2))).1.v 0) 0 :=
  ⟨rfl,
    (C18_gradient_exact (unitCostExternals Real.exp) rfl (threePointMap ℝ)
      ⟨⟨0, 0, 0⟩, fun _ => none⟩
      [⟨1 / 4, fun j => if j = 0 then 1 else 0⟩, ⟨1 / 8, fun j => if j = 1 then 1 else 0⟩] 0).1⟩

/-! ## Staggering of the storeys -/

theorem staggered_zero (bi : index_t) : staggered bi 0 = (div bi.1 2, div bi.2 2) := rfl

theorem staggered_one (bi : index_t) :
    staggered bi 1 = (div bi.1 2 + mod bi.1 2, div bi.2 2) := rfl

theorem staggered_two (bi : index_t) :
    staggered bi 2 = (div bi.1 2, div bi.2 2 + mod bi.2 2) := rfl

theorem staggered_three (bi : index_t) :
    staggered bi 3 = (div bi.1 2 + mod bi.1 2, div bi.2 2 + mod bi.2 2) := rfl

theorem staggered_coordinate_shared (a b : Int) (h : |b - a| ≤ 1) :
    div a 2 = div b 2 ∨ div a 2 + mod a 2 = div b 2 + mod b 2 := by
  rw [abs_le] at h
  simp only [div_two_eq_ediv, mod_two_eq_emod]
  omega

theorem staggered_shared (bi bj : index_t) (hx : |bj.1 - bi.1| ≤ 1) (hy : |bj.2 - bi.2| ≤ 1) :
    ∃ k : Fin 4, staggered bi k = staggered bj k := by
  rcases staggered_coordinate_shared bi.1 bj.1 hx with h1 | h1 <;>
    rcases staggered_coordinate_shared bi.2 bj.2 hy with h2 | h2
  · exact ⟨0, by rw [staggered_zero, staggered_zero, h1, h2]⟩
  · exact ⟨2, by rw [staggered_two, staggered_two, h1, h2]⟩
  · exact ⟨1, by rw [staggered_one, staggered_one, h1, h2]⟩
  · exact ⟨3, by rw [staggered_three, staggered_three, h1, h2]⟩

theorem staggered_sum (bi : index_t) :
    bi = ((staggered bi 0).1 + (staggered bi 3).1, (staggered bi 0).2 + (staggered bi 3).2) := by
  rw [staggered_zero, staggered_three]
  refine Prod.ext ?_ ?_
  · have h := div_mod_two bi.1
    simp only
    omega
  · have h := div_mod_two bi.2
    simp only
    omega

theorem staggered_injective : Function.Injective staggered := by
  intro bi bj h
  rw [staggered_sum bi, staggered_sum bj, h]

/-- C23. Adjacent bundle indices share cells: in every reachable map state, for every bundle
index `bi` and every bundle index `bj` whose components differ from those of `bi` by at most
1 (the eight neighbours of `bi`), there is a storey `k` in which the bundle of `bi` and the
bundle of `bj`, as `getDistributionBundle` returns them one after the other, hold the same
non-null handle `s`, the staggered storey index of both, and the cell it points to exists. -/
theorem C23_adjacent_bundles_share_cell (E : Externals K) (m : OccupancyGridmap K)
    (hm : Reachable E m) (bi bj : index_t) (hx : |bj.1 - bi.1| ≤ 1) (hy : |bj.2 - bi.2| ≤ 1) :
    ∃ (k : Fin 4) (s : index_t),
      staggered bi k = s ∧ staggered bj k = s ∧
      (getDistributionBundle m bi).1 k = some s ∧
      (getDistributionBundle (getDistributionBundle m bi).2 bj).1 k = some s ∧
      (((getDistributionBundle (getDistributionBundle m bi).2 bj).2.storage_ k).get s).isSome
        = true := by
  obtain ⟨k, hk⟩ := staggered_shared bi bj hx hy
  have hv := hm.valid
  have hv1 := getAllocate_valid m hv bi
  have hv2 := getAllocate_valid _ hv1 bj
  have hc := getAllocate_cache _ hv1 bj bj
  simp only [if_true] at hc
  refine ⟨k, staggered bj k, hk, rfl, ?_, ?_, (hv2 bj _ hc k).2⟩
  · simp only [getDistributionBundle, getAllocate_fst m hv bi, hk]
  · simp only [getDistributionBundle, getAllocate_fst _ hv1 bj]

/-- C23, evaluated on the fresh unit-resolution map for the bundle index `(-3, 5)` and its
diagonal neighbour `(-2, 4)`. -/
theorem C23_adjacent_bundles_share_cell_witness :
    Reachable demoExternals demoMap ∧
    |((-2, 4) : index_t).1 - ((-3, 5) : index_t).1| ≤ 1 ∧
    |((-2, 4) : index_t).2 - ((-3, 5) : index_t).2| ≤ 1 ∧
    ∃ (k : Fin 4) (s : index_t),
      staggered (-3, 5) k = s ∧ staggered (-2, 4) k = s ∧
      (getDistributionBundle demoMap (-3, 5)).1 k = some s ∧
      (getDistributionBundle (getDistributionBundle demoMap (-3, 5)).2 (-2, 4)).1 k = some s ∧
      (((getDistributionBundle (getDistributionBundle demoMap (-3, 5)).2 (-2, 4)).2.storage_
        k).get s).isSome = true :=
  ⟨⟨identityTransform, 1, [], rfl⟩, by decide, by decide,
    C23_adjacent_bundles_share_cell demoExternals demoMap ⟨identityTransform, 1, [], rfl⟩
      (-3, 5) (-2, 4) (by decide) (by decide)⟩

/-- C27. The staggering is injective: in reachable map states, two bundle indices for which
`getDistributionBundle` returns the same four handles `(s0, s1, s2, s3)` are equal, and the
bundle index is recovered from the handles of storey 0 and storey 3 as
`bi = 2*s0 + (s3 - s0) = s0 + s3` componentwise. -/
theorem C27_staggering_injective (E : Externals K) (m1 m2 : OccupancyGridmap K)
    (h1 : Reachable E m1) (h2 : Reachable E m2) (bi bj : index_t) :
    ((getDistributionBundle m1 bi).1 = (getDistributionBundle m2 bj).1 → bi = bj) ∧
    (∀ s0 s3 : index_t, (getDistributionBundle m1 bi).1 0 = some s0 →
      (getDistributionBundle m1 bi).1 3 = some s3 →
      bi = (2 * s0.1 + (s3.1 - s0.1), 2 * s0.2 + (s3.2 - s0.2)) ∧
      bi = (s0.1 + s3.1, s0.2 + s3.2)) ∧
    Function.Injective staggered := by
  have e1 := getAllocate_fst m1 h1.valid bi
  have e2 := getAllocate_fst m2 h2.valid bj
  refine ⟨?_, ?_, staggered_injective⟩
  · intro h
    simp only [getDistributionBundle, e1, e2] at h
    apply staggered_injective
    funext k
    have hk := congrFun h k
    simpa using hk
  · intro s0 s3 h0 h3
    simp only [getDistributionBundle, e1, Option.some.injEq] at h0 h3
    subst h0 h3
    have hs := staggered_sum bi
    refine ⟨?_, hs⟩
    have hx : 2 * (staggered bi 0).1 + ((staggered bi 3).1 - (staggered bi 0).1)
        = (staggered bi 0).1 + (staggered bi 3).1 := by ring
    have hy : 2 * (staggered bi 0).2 + ((staggered bi 3).2 - (staggered bi 0).2)
        = (staggered bi 0).2 + (staggered bi 3).2 := by ring
    rw [hx, hy]
    exact hs

/-- C27, evaluated on the fresh unit-resolution map and the map holding three points, for
the bundle indices `(-3, 5)` and `(-2, 4)`: their handles differ, and `(-3, 5)` is the sum of
its handles `(-2, 2)` of storey 0 and `(-1, 3)` of storey 3. -/
theorem C27_staggering_injective_witness :
    Reachable demoExternals demoMap ∧ Reachable demoExternals demoMap3 ∧
    ((getDistributionBundle demoMap (-3, 5)).1 = (getDistributionBundle demoMap3 (-2, 4)).1 →
      ((-3, 5) : index_t) = (-2, 4)) ∧
    (getDistributionBundle demoMap (-3, 5)).1 0 = some (-2, 2) ∧
    (getDistributionBundle demoMap (-3, 5)).1 3 = some (-1, 3) ∧
    ((-3, 5) : index_t) = (2 * (-2) + (-1 - (-2)), 2 * 2 + (3 - 2)) :=
  have hr : Reachable demoExternals demoMap := ⟨identityTransform, 1, [], rfl⟩
  have h := C27_staggering_injective demoExternals demoMap demoMap3 hr demoMap3_reachable
    (-3, 5) (-2, 4)
  have h0 : (getDistributionBundle demoMap (-3, 5)).1 0 = some (-2, 2) := by decide
  have h3 : (getDistributionBundle demoMap (-3, 5)).1 3 = some (-1, 3) := by decide
  ⟨hr, demoMap3_reachable, h.1, h0, h3, (h.2.1 (-2, 2) (-1, 3) h0 h3).1⟩

/-! ## Frame of a bundle update -/

theorem updateOccupied_storage (m : OccupancyGridmap K) (hm : BundlesValid m) (bi : index_t)
    (p : Point2d K) (k : Fin 4) (j : index_t) :
    ((updateOccupied m bi p).storage_ k).get j
      = if j = staggered bi k then some ((cellOf m k j).updateOccupied p)
        else (m.storage_ k).get j := by
  rw [updateOccupied_eq]
  exact updateAll_getAllocate_storage m hm bi _ k j

theorem updateFree_storage (m : OccupancyGridmap K) (hm : BundlesValid m) (bi : index_t)
    (k : Fin 4) (j : index_t) :
    ((updateFree m bi).storage_ k).get j
      = if j = staggered bi k then some (cellOf m k j).updateFree
        else (m.storage_ k).get j := by
  rw [updateFree_eq]
  exact updateAll_getAllocate_storage m hm bi _ k j

/-- C24. A bundle update touches all four storeys and nothing else.  In every reachable map
state, after `updateOccupied(bi, p)` the staggered cell of `bi` in each storey `k` exists with
its occupied count raised by exactly 1, `p` added to its statistics and its free count kept
(a cell that was missing counts from the zero state), and after `updateFree(bi)` it exists
with its free count raised by exactly 1 and occupied count and statistics kept; at every
other index of every storey the storey is unchanged: an existing cell keeps counts and
statistics, and no cell appears. -/
theorem C24_update_touches_four_cells (E : Externals K) (m : OccupancyGridmap K)
    (hm : Reachable E m) (bi : index_t) (p : Point2d K) :
    (∀ k : Fin 4, ∃ c2 : OccupancyDistribution K,
      ((updateOccupied m bi p).storage_ k).get (staggered bi k) = some c2 ∧
      c2.num_occupied_ = (cellOf m k (staggered bi k)).num_occupied_ + 1 ∧
      c2.num_free_ = (cellOf m k (staggered bi k)).num_free_ ∧
      c2.distribution_
        = some (((cellOf m k (staggered bi k)).distribution_.getD Distribution.zero).add p) ∧
      sampleCount c2 = sampleCount (cellOf m k (staggered bi k)) + 1) ∧
    (∀ (k : Fin 4) (j : index_t), j ≠ staggered bi k →
      ((updateOccupied m bi p).storage_ k).get j = (m.storage_ k).get j) ∧
    (∀ k : Fin 4, ∃ c2 : OccupancyDistribution K,
      ((updateFree m bi).storage_ k).get (staggered bi k) = some c2 ∧
      c2.num_free_ = (cellOf m k (staggered bi k)).num_free_ + 1 ∧
      c2.num_occupied_ = (cellOf m k (staggered bi k)).num_occupied_ ∧
      c2.distribution_ = (cellOf m k (staggered bi k)).distribution_) ∧
    (∀ (k : Fin 4) (j : index_t), j ≠ staggered bi k →
      ((updateFree m bi).storage_ k).get j = (m.storage_ k).get j) ∧
    (∀ (k : Fin 4) (j : index_t), (m.storage_ k).get j = none →
      cellOf m k j = OccupancyDistribution.zero) := by
  have hv := hm.valid
  refine ⟨?_, ?_, ?_, ?_, ?_⟩
  · intro k
    refine ⟨(cellOf m k (staggered bi k)).updateOccupied p, ?_, rfl, rfl, rfl, ?_⟩
    · rw [updateOccupied_storage m hv, if_pos rfl]
    · cases hd : (cellOf m k (staggered bi k)).distribution_ <;>
        simp [sampleCount, OccupancyDistribution.updateOccupied, Distribution.add,
          Distribution.zero, hd]
  · intro k j hj
    rw [updateOccupied_storage m hv, if_neg hj]
  · intro k
    refine ⟨(cellOf m k (staggered bi k)).updateFree, ?_, rfl, rfl, rfl⟩
    rw [updateFree_storage m hv, if_pos rfl]
  · intro k j hj
    rw [updateFree_storage m hv, if_neg hj]
  · intro k j h
    simp [cellOf, h]

/-- C24, evaluated on the map holding three points in bundle `(0, 0)`: a further
`updateOccupied((0, 0), (1/4, 1/4))` raises the occupied count of the storey-0 cell `(0, 0)`
from 3 to 4, and `updateFree((0, 0))` raises its free count from 0 to 1. -/
theorem C24_update_touches_four_cells_witness :
    Reachable demoExternals demoMap3 ∧
    (cellOf demoMap3 0 (staggered (0, 0) 0)).num_occupied_ = 3 ∧
    (cellOf demoMap3 0 (staggered (0, 0) 0)).num_free_ = 0 ∧
    (∃ c2 : OccupancyDistribution ℚ,
      ((updateOccupied demoMap3 (0, 0) ⟨1 / 4, 1 / 4⟩).storage_ 0).get (staggered (0, 0) 0)
        = some c2 ∧
      c2.num_occupied_ = (cellOf demoMap3 0 (staggered (0, 0) 0)).num_occupied_ + 1 ∧
      c2.num_free_ = (cellOf demoMap3 0 (staggered (0, 0) 0)).num_free_ ∧
      c2.distribution_
        = some (((cellOf demoMap3 0 (staggered (0, 0) 0)).distribution_.getD
            Distribution.zero).add ⟨1 / 4, 1 / 4⟩) ∧
      sampleCount c2 = sampleCount (cellOf demoMap3 0 (staggered (0, 0) 0)) + 1) ∧
    ∃ c2 : OccupancyDistribution ℚ,
      ((updateFree demoMap3 (0, 0)).storage_ 0).get (staggered (0, 0) 0) = some c2 ∧
      c2.num_free_ = (cellOf demoMap3 0 (staggered (0, 0) 0)).num_free_ + 1 ∧
      c2.num_occupied_ = (cellOf demoMap3 0 (staggered (0, 0) 0)).num_occupied_ ∧
      c2.distribution_ = (cellOf demoMap3 0 (staggered (0, 0) 0)).distribution_ :=
  have h := C24_update_touches_four_cells demoExternals demoMap3 demoMap3_reachable (0, 0)
    ⟨1 / 4, 1 / 4⟩
  have hc : cellOf demoMap3 0 (staggered (0, 0) 0) = demoCell3 := by
    rw [cellOf, demoMap3_get 0]; rfl
  ⟨demoMap3_reachable, by rw [hc]; rfl, by rw [hc]; rfl, h.1 0, h.2.2.1 0⟩

/-! ## Width and height -/

theorem demoMap3_getRangeIndex (x y : ℚ) :
    getRangeIndex demoMap3 ⟨x, y⟩ = (Int.floor (x * 2), Int.floor (y * 2)) := by
  have hc := demoMap3_consts
  simp only [consts, Prod.mk.injEq] at hc
  simp only [getRangeIndex, hc.2.2.2.1]
  norm_num [demoMap, new]

theorem demoMap3_bundle_resolution : demoMap3.bundle_resolution_ = 1 / 2 := by
  have hc := demoMap3_consts
  simp only [consts, Prod.mk.injEq] at hc
  rw [hc.2.2.1]
  norm_num [demoMap, new]

theorem demoMap3_averageOccupancy :
    averageOccupancy demoExternals ⟨0, 0, 0⟩ demoMap3 (0, 0) = 1 / 2 := by
  simp only [averageOccupancy, demoMap3_get]
  norm_num [occupancy, demoCell3, OccupancyDistribution.updateOccupied,
    OccupancyDistribution.zero, demoExternals, demoLogOdds_from]

theorem demoMap3_getRange_value :
    (getRange demoExternals demoMap3 ⟨2 / 5, 0⟩ ⟨3 / 5, 0⟩ ⟨0, 0, 0⟩ (1 / 2)).1 = 2 / 5 := by
  have one : (Int.toNat 1) = 1 := rfl
  have g0 : getRangeIndex demoMap3 ⟨2 / 5, 0⟩ = (0, 0) := by
    rw [demoMap3_getRangeIndex]; norm_num
  have g1 : getRangeIndex demoMap3 ⟨3 / 5, 0⟩ = (1, 0) := by
    rw [demoMap3_getRangeIndex]; norm_num
  have hb : demoExternals.Bresenham (0, 0) (1, 0) = [(⟨0, 0, 0⟩ : Visit ℚ)] := by
    norm_num [demoExternals, demoBresenham, one, List.range_succ]
  rw [getRange_eq, g0, g1, hb, getRangeLoop_fst _ _ _ _ _ _ _ demoMap3_reachable.valid]
  simp only [List.find?, demoMap3_averageOccupancy, le_refl, decide_True,
    demoMap3_bundle_resolution]
  norm_num [demoExternals, demoLength, Point2d.sub]

/-- C28 fails as stated: on the unit-resolution map holding three points in bundle `(0, 0)`,
with the inverse model `(0, 0, 0)` and threshold `1/2`, the ray from `(2/5, 0)` to `(3/5, 0)`
has length `1/5`, its first visited bundle `(0, 0)` has average occupancy `1/2`, and
`getRange` returns the distance `2/5` from the start to the corner `(0, 0)` of that bundle,
which is more than the segment length. -/
theorem C28_counterexample :
    demoExternals.length (Point2d.sub ⟨2 / 5, 0⟩ ⟨3 / 5, 0⟩) = 1 / 5 ∧
    averageOccupancy demoExternals ⟨0, 0, 0⟩ demoMap3 (0, 0) = 1 / 2 ∧
    (getRange demoExternals demoMap3 ⟨2 / 5, 0⟩ ⟨3 / 5, 0⟩ ⟨0, 0, 0⟩ (1 / 2)).1 = 2 / 5 ∧
    ¬ ((getRange demoExternals demoMap3 ⟨2 / 5, 0⟩ ⟨3 / 5, 0⟩ ⟨0, 0, 0⟩ (1 / 2)).1
        ≤ demoExternals.length (Point2d.sub ⟨2 / 5, 0⟩ ⟨3 / 5, 0⟩)) := by
  have hl : demoExternals.length (Point2d.sub ⟨2 / 5, 0⟩ ⟨3 / 5, 0⟩) = 1 / 5 := by
    norm_num [demoExternals, demoLength, Point2d.sub]
  refine ⟨hl, demoMap3_averageOccupancy, demoMap3_getRange_value, ?_⟩
  rw [hl, demoMap3_getRange_value]
  norm_num

/-- C28 (amended). In every reachable map state and for a norm with non-negative values, the
value `getRange(start, end, M, τ)` returns is non-negative.  On a map whose origin is
`(0, 0, 0)`, with the ray walked between the bundle indices of `start` and `end`: the value
is the segment length `|start − end|` when the threshold test `occupied` of `getRange` holds
for no bundle index the ray visits, and otherwise it is the distance from `start` to the
corner `(x·r, y·r)` of the first visited bundle index for which the test holds. -/
theorem C28_getRange_value (E : Externals K) (hlen : ∀ v, 0 ≤ E.length v)
    (m : OccupancyGridmap K) (hm : Reachable E m) (start_p end_p : Point2d K)
    (inverse_model : InverseModel K) (tau : K) :
    0 ≤ (getRange E m start_p end_p inverse_model tau).1 ∧
    (m.getInitialOrigin = ⟨0, 0, 1, 0⟩ →
      ((∀ v ∈ E.Bresenham (toBundleIndex m start_p) (toBundleIndex m end_p),
          (occupied E inverse_model tau m (v.x, v.y)).1 = false) →
        (getRange E m start_p end_p inverse_model tau).1 = E.length (start_p.sub end_p)) ∧
      (∀ pre v post,
        E.Bresenham (toBundleIndex m start_p) (toBundleIndex m end_p) = pre ++ v :: post →
        (∀ u ∈ pre, (occupied E inverse_model tau m (u.x, u.y)).1 = false) →
        (occupied E inverse_model tau m (v.x, v.y)).1 = true →
        (getRange E m start_p end_p inverse_model tau).1
          = E.length (start_p.sub
              ⟨(v.x : K) * m.bundle_resolution_, (v.y : K) * m.bundle_resolution_⟩))) := by
  have hv := hm.valid
  have hf : (fun v : Visit K => decide (tau ≤ averageOccupancy E inverse_model m (v.x, v.y)))
      = fun v : Visit K => (occupied E inverse_model tau m (v.x, v.y)).1 := by
    funext v
    exact (occupied_fst E inverse_model tau m hv (v.x, v.y)).symm
  rw [getRange_eq, getRangeLoop_fst _ _ _ _ _ _ _ hv, hf]
  constructor
  · cases (E.Bresenham (getRangeIndex m start_p) (getRangeIndex m end_p)).find?
        (fun v => (occupied E inverse_model tau m (v.x, v.y)).1) with
    | none => exact hlen _
    | some v => exact hlen _
  · intro horigin
    have hT : m.m_T_w_ = ⟨0, 0, 1, 0⟩ := by
      obtain ⟨origin, resolution, hc⟩ := hm.consts_eq
      simp only [consts, Prod.mk.injEq] at hc
      have h6 : m.w_T_m_ = origin := hc.2.2.2.2.2.1
      have h7 : m.m_T_w_ = origin.inverse := hc.2.2.2.2.2.2
      have ho : origin = ⟨0, 0, 1, 0⟩ := by rw [← h6]; exact horigin
      rw [h7, ho]
      simp [Transform2d.inverse]
    rw [getRangeIndex_eq_toBundleIndex_of_identity m hT,
      getRangeIndex_eq_toBundleIndex_of_identity m hT]
    constructor
    · intro hall
      have hnone : (E.Bresenham (toBundleIndex m start_p) (toBundleIndex m end_p)).find?
          (fun v => (occupied E inverse_model tau m (v.x, v.y)).1) = none := by
        rw [List.find?_eq_none]
        intro v hmem
        simp [hall v hmem]
      rw [hnone]
    · intro pre v post hit hpre hocc
      have hsome : (pre ++ v :: post).find?
          (fun v => (occupied E inverse_model tau m (v.x, v.y)).1) = some v := by
        have h1 : pre.find? (fun v => (occupied E inverse_model tau m (v.x, v.y)).1) = none := by
          rw [List.find?_eq_none]
          intro u hu
          simp [hpre u hu]
        have h2 : (v :: post).find?
            (fun v => (occupied E inverse_model tau m (v.x, v.y)).1) = some v :=
          List.find?_cons_of_pos post (by exact hocc)
        rw [List.find?_append, h1, h2]
        rfl
      rw [hit, hsome]

/-- C28 (amended), evaluated on the map holding three points in bundle `(0, 0)`, whose
origin is `(0, 0, 0)`, for the ray from `(2/5, 0)` to `(3/5, 0)` with the inverse model
`(0, 0, 0)` and threshold `1/2`: the first visited bundle `(0, 0)` passes the test and the
value is the distance from the start to its corner. -/
theorem C28_getRange_value_witness :
    (∀ v, 0 ≤ demoExternals.length v) ∧ Reachable demoExternals demoMap3 ∧
    demoMap3.getInitialOrigin = ⟨0, 0, 1, 0⟩ ∧
    demoExternals.Bresenham (toBundleIndex demoMap3 ⟨2 / 5, 0⟩) (toBundleIndex demoMap3 ⟨3 / 5, 0⟩)
      = [] ++ (⟨0, 0, 0⟩ : Visit ℚ) :: [] ∧
    (occupied demoExternals ⟨0, 0, 0⟩ (1 / 2) demoMap3 (0, 0)).1 = true ∧
    0 ≤ (getRange demoExternals demoMap3 ⟨2 / 5, 0⟩ ⟨3 / 5, 0⟩ ⟨0, 0, 0⟩ (1 / 2)).1 ∧
    (getRange demoExternals demoMap3 ⟨2 / 5, 0⟩ ⟨3 / 5, 0⟩ ⟨0, 0, 0⟩ (1 / 2)).1
      = demoExternals.length (Point2d.sub ⟨2 / 5, 0⟩
          ⟨((0 : Int) : ℚ) * demoMap3.bundle_resolution_,
           ((0 : Int) : ℚ) * demoMap3.bundle_resolution_⟩) :=
  have hlen : ∀ v, 0 ≤ demoExternals.length v := fun v =>
    add_nonneg (abs_nonneg v.x) (abs_nonneg v.y)
  have horigin : demoMap3.getInitialOrigin = ⟨0, 0, 1, 0⟩ := by
    have hc := demoMap3_consts
    simp only [consts, Prod.mk.injEq] at hc
    exact hc.2.2.2.2.2.1
  have hb : demoExternals.Bresenham (toBundleIndex demoMap3 ⟨2 / 5, 0⟩)
      (toBundleIndex demoMap3 ⟨3 / 5, 0⟩) = [] ++ (⟨0, 0, 0⟩ : Visit ℚ) :: [] := by
    have one : (Int.toNat 1) = 1 := rfl
    have t0 : toBundleIndex demoMap3 ⟨2 / 5, 0⟩ = (0, 0) := by
      rw [demoMap3_toBundleIndex]; norm_num
    have t1 : toBundleIndex demoMap3 ⟨3 / 5, 0⟩ = (1, 0) := by
      rw [demoMap3_toBundleIndex]; norm_num
    rw [t0, t1]
    norm_num [demoExternals, demoBresenham, one, List.range_succ]
  have hocc : (occupied demoExternals ⟨0, 0, 0⟩ (1 / 2) demoMap3 (0, 0)).1 = true := by
    rw [occupied_fst _ _ _ _ demoMap3_reachable.valid, demoMap3_averageOccupancy]
    simp
  have h := C28_getRange_value demoExternals hlen demoMap3 demoMap3_reachable ⟨2 / 5, 0⟩
    ⟨3 / 5, 0⟩ ⟨0, 0, 0⟩ (1 / 2)
  ⟨hlen, demoMap3_reachable, horigin, hb, hocc, h.1,
    (h.2 horigin).2 [] ⟨0, 0, 0⟩ [] hb (by simp) hocc⟩

theorem occupancy_lt_of_prior (E : Externals K) (hE : ∀ l, E.LogOdds_from l ≤ 1)
    (inverse_model : InverseModel K) (tau : K) (h0 : 0 < tau)
    (hp : 1 - inverse_model.getLogOddsPrior < tau) (d : Option (OccupancyDistribution K)) :
    occupancy E inverse_model d < tau := by
  cases d with
  | none => exact h0
  | some c =>
    cases hd : c.distribution_ with
    | none => simp only [occupancy, hd]; exact h0
    | some dist =>
      simp only [occupancy, hd]
      have := hE ((c.num_free_ : K) * inverse_model.getLogOddsFree +
        (c.num_occupied_ : K) * inverse_model.getLogOddsOccupied)
      linarith

/-- C10 fails on the code.  The spec compares the four-cell average of the posterior
`sigmoid(F·ℓf + O·ℓo − ℓp)` with the threshold; the lambda of `getRange` compares the average
of `from(F·ℓf + O·ℓo) − ℓp`.  For a log-odds conversion with values at most 1, every
reachable map state, every positive threshold `τ` and every inverse model with
`1 − ℓp < τ`, the average the code computes is below `τ` for every bundle, the test
`occupied` fails for every bundle, and `getRange` returns the segment length for every ray,
whatever the posterior of the cells. -/
theorem C10_getRange_prior_divergence (E : Externals K) (hE : ∀ l, E.LogOdds_from l ≤ 1)
    (m : OccupancyGridmap K) (hm : Reachable E m) (inverse_model : InverseModel K) (tau : K)
    (h0 : 0 < tau) (hp : 1 - inverse_model.getLogOddsPrior < tau) (start_p end_p : Point2d K) :
    (∀ bi, averageOccupancy E inverse_model m bi < tau) ∧
    (∀ bi, (occupied E inverse_model tau m bi).1 = false) ∧
    (getRange E m start_p end_p inverse_model tau).1 = E.length (start_p.sub end_p) := by
  have hocc := occupancy_lt_of_prior E hE inverse_model tau h0 hp
  have havg : ∀ bi, averageOccupancy E inverse_model m bi < tau := by
    intro bi
    have a0 := hocc ((m.storage_ 0).get (staggered bi 0))
    have a1 := hocc ((m.storage_ 1).get (staggered bi 1))
    have a2 := hocc ((m.storage_ 2).get (staggered bi 2))
    have a3 := hocc ((m.storage_ 3).get (staggered bi 3))
    simp only [averageOccupancy]
    linarith
  refine ⟨havg, ?_, ?_⟩
  · intro bi
    rw [occupied_fst E inverse_model tau m hm.valid bi]
    simpa using havg bi
  · rw [getRange_eq, getRangeLoop_fst _ _ _ _ _ _ _ hm.valid]
    have hnone : (E.Bresenham (getRangeIndex m start_p) (getRangeIndex m end_p)).find?
        (fun v => decide (tau ≤ averageOccupancy E inverse_model m (v.x, v.y))) = none := by
      rw [List.find?_eq_none]
      intro v _
      simpa using havg (v.x, v.y)
    rw [hnone]

/-- C10, evaluated on the unit-resolution map holding three points in bundle `(0, 0)` with
the inverse model `(0, 0, 2)` and threshold `1/10`, for the ray from `(2/5, 0)` to
`(3/5, 0)`: the first bundle index the ray visits is `(0, 0)`, whose four-cell average of the
posterior is `from(−2) = 1/6 ≥ 1/10` (with the rational stand-in for the logistic function;
`0.119…` with the logistic function itself), so the claim asks for the distance to that
bundle; the code computes the average `from(0) − 2 = −3/2` and returns the segment length
`1/5`. -/
theorem C10_getRange_prior_divergence_witness :
    (∀ l, demoExternals.LogOdds_from l ≤ 1) ∧ Reachable demoExternals demoMap3 ∧
    (0 : ℚ) < 1 / 10 ∧ (1 : ℚ) - (⟨0, 0, 2⟩ : InverseModel ℚ).getLogOddsPrior < 1 / 10 ∧
    demoExternals.Bresenham (getRangeIndex demoMap3 ⟨2 / 5, 0⟩)
        (getRangeIndex demoMap3 ⟨3 / 5, 0⟩) = [(⟨0, 0, 0⟩ : Visit ℚ)] ∧
    averageOccupancy_spec demoCostExternals ⟨0, 0, 2⟩ demoMap3 (0, 0) = 1 / 6 ∧
    (1 / 10 : ℚ) ≤ averageOccupancy_spec demoCostExternals ⟨0, 0, 2⟩ demoMap3 (0, 0) ∧
    averageOccupancy demoExternals ⟨0, 0, 2⟩ demoMap3 (0, 0) = -3 / 2 ∧
    (getRange demoExternals demoMap3 ⟨2 / 5, 0⟩ ⟨3 / 5, 0⟩ ⟨0, 0, 2⟩ (1 / 10)).1
      = demoExternals.length (Point2d.sub ⟨2 / 5, 0⟩ ⟨3 / 5, 0⟩) ∧
    demoExternals.length (Point2d.sub ⟨2 / 5, 0⟩ ⟨3 / 5, 0⟩) = 1 / 5 :=
  have hE : ∀ l, demoExternals.LogOdds_from l ≤ 1 := fun l => (demoLogOdds_from_range l).2
  have hp : (1 : ℚ) - (⟨0, 0, 2⟩ : InverseModel ℚ).getLogOddsPrior < 1 / 10 := by norm_num
  have hb : demoExternals.Bresenham (getRangeIndex demoMap3 ⟨2 / 5, 0⟩)
      (getRangeIndex demoMap3 ⟨3 / 5, 0⟩) = [(⟨0, 0, 0⟩ : Visit ℚ)] := by
    have one : (Int.toNat 1) = 1 := rfl
    have g0 : getRangeIndex demoMap3 ⟨2 / 5, 0⟩ = (0, 0) := by
      rw [demoMap3_getRangeIndex]; norm_num
    have g1 : getRangeIndex demoMap3 ⟨3 / 5, 0⟩ = (1, 0) := by
      rw [demoMap3_getRangeIndex]; norm_num
    rw [g0, g1]
    norm_num [demoExternals, demoBresenham, one, List.range_succ]
  have hspec : averageOccupancy_spec demoCostExternals ⟨0, 0, 2⟩ demoMap3 (0, 0) = 1 / 6 := by
    simp only [averageOccupancy_spec, demoMap3_get]
    norm_num [OccupancyDistribution.getOccupancy, demoCell3,
      OccupancyDistribution.updateOccupied, OccupancyDistribution.zero, Distribution.add,
      Distribution.zero, demoCostExternals, demoLogOdds_from]
  have hcode : averageOccupancy demoExternals ⟨0, 0, 2⟩ demoMap3 (0, 0) = -3 / 2 := by
    simp only [averageOccupancy, demoMap3_get]
    norm_num [occupancy, demoCell3, OccupancyDistribution.updateOccupied,
      OccupancyDistribution.zero, demoExternals, demoLogOdds_from]
  have hl : demoExternals.length (Point2d.sub ⟨2 / 5, 0⟩ ⟨3 / 5, 0⟩) = 1 / 5 := by
    norm_num [demoExternals, demoLength, Point2d.sub]
  ⟨hE, demoMap3_reachable, by norm_num, hp, hb, hspec, by rw [hspec]; norm_num, hcode,
    (C10_getRange_prior_divergence demoExternals hE demoMap3 demoMap3_reachable ⟨0, 0, 2⟩
      (1 / 10) (by norm_num) hp ⟨2 / 5, 0⟩ ⟨3 / 5, 0⟩).2.2, hl⟩

/-! ## Invariants of the storey cells -/

theorem getAllocate_cellsSatisfy (P : OccupancyDistribution K → Prop)
    (hz : P OccupancyDistribution.zero) (m : OccupancyGridmap K) (hm : BundlesValid m)
    (h : CellsSatisfy P m) (bi : index_t) : CellsSatisfy P (getAllocate m bi).2 := by
  intro k j c hc
  have hs := getAllocate_storage m hm bi k j
  change (getAllocate m bi).2.storage_ k j = some c at hc
  rw [hs] at hc
  by_cases hj : j = staggered bi k
  · rw [if_pos hj] at hc
    cases hg : m.storage_ k j with
    | none =>
      rw [hg] at hc
      simp only [Option.getD_none, Option.some.injEq] at hc
      rw [← hc]
      exact hz
    | some c0 =>
      rw [hg] at hc
      simp only [Option.getD_some, Option.some.injEq] at hc
      rw [← hc]
      exact h k j c0 hg
  · rw [if_neg hj] at hc
    exact h k j c hc

theorem updateAll_cellsSatisfy (P : OccupancyDistribution K → Prop)
    (hz : P OccupancyDistribution.zero) (f : OccupancyDistribution K → OccupancyDistribution K)
    (hf : ∀ c, P c → P (f c)) (m : OccupancyGridmap K) (hm : BundlesValid m)
    (h : CellsSatisfy P m) (bi : index_t) :
    CellsSatisfy P (updateAll (getAllocate m bi).2 (getAllocate m bi).1 f) := by
  intro k j c hc
  have hs := updateAll_getAllocate_storage m hm bi f k j
  change (updateAll (getAllocate m bi).2 (getAllocate m bi).1 f).storage_ k j = some c at hc
  rw [hs] at hc
  by_cases hj : j = staggered bi k
  · rw [if_pos hj] at hc
    cases hg : m.storage_ k j with
    | none =>
      rw [hg] at hc
      simp only [Option.getD_none, Option.some.injEq] at hc
      rw [← hc]
      exact hf _ hz
    | some c0 =>
      rw [hg] at hc
      simp only [Option.getD_some, Option.some.injEq] at hc
      rw [← hc]
      exact hf _ (h k j c0 hg)
  · rw [if_neg hj] at hc
    exact h k j c hc

theorem addLoop_cellsSatisfy (P : OccupancyDistribution K → Prop)
    (hz : P OccupancyDistribution.zero) (hF : ∀ c, P c → P c.updateFree)
    (hO : ∀ c p, P c → P (c.updateOccupied p)) (end_p : Point2d K) (it : List (Visit K)) :
    ∀ m : OccupancyGridmap K, BundlesValid m → CellsSatisfy P m →
      CellsSatisfy P (addLoop end_p it m) := by
  induction it with
  | nil => intro m _ h; exact h
  | cons v rest ih =>
    intro m hm h
    simp only [addLoop]
    split
    · refine ih _ (updateFree_valid m hm _) ?_
      rw [updateFree_eq]
      exact updateAll_cellsSatisfy P hz _ hF m hm h _
    · refine ih _ (updateOccupied_valid m hm _ _) ?_
      rw [updateOccupied_eq]
      exact updateAll_cellsSatisfy P hz _ (fun c => hO c end_p) m hm h _

theorem getRangeLoop_cellsSatisfy (P : OccupancyDistribution K → Prop)
    (hz : P OccupancyDistribution.zero) (E : Externals K) (inverse_model : InverseModel K)
    (tau : K) (start_p end_p : Point2d K) (it : List (Visit K)) :
    ∀ m : OccupancyGridmap K, BundlesValid m → CellsSatisfy P m →
      CellsSatisfy P (getRangeLoop E inverse_model tau start_p end_p it m).2 := by
  induction it with
  | nil => intro m _ h; exact h
  | cons v rest ih =>
    intro m hm h
    simp only [getRangeLoop]
    split
    · exact getAllocate_cellsSatisfy P hz m hm h _
    · exact ih _ (getAllocate_valid m hm _) (getAllocate_cellsSatisfy P hz m hm h _)

theorem step_cellsSatisfy (P : OccupancyDistribution K → Prop)
    (hz : P OccupancyDistribution.zero) (hF : ∀ c, P c → P c.updateFree)
    (hO : ∀ c p, P c → P (c.updateOccupied p)) (E : Externals K) (m : OccupancyGridmap K)
    (hm : BundlesValid m) (h : CellsSatisfy P m) (op : Op K) :
    CellsSatisfy P (step E m op) := by
  cases op with
  | getDistributionBundle bi => exact getAllocate_cellsSatisfy P hz m hm h bi
  | add start_p end_p =>
    rw [step, add_eq, updateOccupied_eq]
    exact updateAll_cellsSatisfy P hz _ (fun c => hO c end_p) _ (addLoop_valid end_p _ m hm)
      (addLoop_cellsSatisfy P hz hF hO end_p _ m hm h) _
  | getRange start_p end_p inverse_model tau =>
    exact getRangeLoop_cellsSatisfy P hz E inverse_model tau start_p end_p _ m hm h
  | sample p inverse_model => exact getAllocate_cellsSatisfy P hz m hm h _
  | sampleAt p bi inverse_model => exact getAllocate_cellsSatisfy P hz m hm h _
  | sampleNonNormalized p inverse_model => exact getAllocate_cellsSatisfy P hz m hm h _
  | sampleNonNormalizedAt p bi inverse_model => exact getAllocate_cellsSatisfy P hz m hm h _

theorem run_cellsSatisfy (P : OccupancyDistribution K → Prop)
    (hz : P OccupancyDistribution.zero) (hF : ∀ c, P c → P c.updateFree)
    (hO : ∀ c p, P c → P (c.updateOccupied p)) (E : Externals K) (ops : List (Op K)) :
    ∀ m : OccupancyGridmap K, BundlesValid m → CellsSatisfy P m →
      CellsSatisfy P (run E m ops) := by
  induction ops with
  | nil => intro m _ h; exact h
  | cons op rest ih =>
    intro m hm h
    exact ih _ (step_valid E m hm op) (step_cellsSatisfy P hz hF hO E m hm h op)

theorem cellConsistent_zero :
    CellConsistent (OccupancyDistribution.zero : OccupancyDistribution K) :=
  ⟨rfl, ⟨fun _ => rfl, fun _ => rfl⟩⟩

theorem cellConsistent_updateFree (c : OccupancyDistribution K) (h : CellConsistent c) :
    CellConsistent c.updateFree := h

theorem cellConsistent_updateOccupied (c : OccupancyDistribution K) (p : Point2d K)
    (h : CellConsistent c) : CellConsistent (c.updateOccupied p) := by
  obtain ⟨h1, h2⟩ := h
  refine ⟨?_, ?_⟩
  · cases hd : c.distribution_ with
    | none =>
      have h0 := h2.mp hd
      simp [sampleCount, OccupancyDistribution.updateOccupied, Distribution.add,
        Distribution.zero, hd, h0]
    | some d =>
      simp only [sampleCount, hd] at h1
      simp [sampleCount, OccupancyDistribution.updateOccupied, Distribution.add, hd, h1]
  · simp [OccupancyDistribution.updateOccupied]

theorem Reachable.cellConsistent {E : Externals K} {m : OccupancyGridmap K}
    (h : Reachable E m) : CellsSatisfy CellConsistent m := by
  obtain ⟨origin, resolution, ops, rfl⟩ := h
  refine run_cellsSatisfy CellConsistent cellConsistent_zero cellConsistent_updateFree
    cellConsistent_updateOccupied E ops _ (new_valid _ _) ?_
  intro k j c hc
  simp [new, Storage.get] at hc

/-! ## Occupancy of a cell in a range query -/

theorem demoMap1_reachable : Reachable demoExternals demoMap1 :=
  ⟨identityTransform, 1, _, rfl⟩

theorem demoMap1_eq : demoMap1 = updateOccupied demoMap (0, 0) ⟨1 / 8, 1 / 8⟩ := by
  have e1 : toBundleIndex demoMap ⟨1 / 8, 1 / 8⟩ = (0, 0) := by
    rw [demo_toBundleIndex]; norm_num
  simp only [demoMap1, run, List.foldl, step, demo_add_point, e1]

theorem demoMap1_get (k : Fin 4) :
    (demoMap1.storage_ k).get (staggered (0, 0) k) = some demoCell1 := by
  have h0 : BundlesValid demoMap := new_valid _ _
  rw [demoMap1_eq, get_updateOccupied _ h0, demo_cellOf]
  rfl

theorem demoMap1_averageOccupancy :
    averageOccupancy demoExternals ⟨0, 0, 0⟩ demoMap1 (0, 0) = 1 / 2 := by
  simp only [averageOccupancy, demoMap1_get]
  norm_num [occupancy, demoCell1, OccupancyDistribution.updateOccupied,
    OccupancyDistribution.zero, demoExternals, demoLogOdds_from]

theorem occupied_eq_decide (E : Externals K) (inverse_model : InverseModel K) (tau : K)
    (m : OccupancyGridmap K) (hm : BundlesValid m) (bi : index_t) :
    (occupied E inverse_model tau m bi).1
      = decide (tau ≤ (1 / 4) *
          (occupancy E inverse_model ((m.storage_ 0).get (staggered bi 0)) +
           occupancy E inverse_model ((m.storage_ 1).get (staggered bi 1)) +
           occupancy E inverse_model ((m.storage_ 2).get (staggered bi 2)) +
           occupancy E inverse_model ((m.storage_ 3).get (staggered bi 3)))) :=
  occupied_fst E inverse_model tau m hm bi

/-- C25 fails as stated: on the unit-resolution map after a single `add(p, p)` at
`(1/8, 1/8)`, each of the four cells of bundle `(0, 0)` holds one point (fewer than 3, so its
statistics are not valid), yet with the inverse model `(0, 0, 0)` it contributes occupancy
`1/2`, not `0`, to the average of `getRange`; the average `1/2` reaches the threshold `1/2`
and `getRange` reports bundle `(0, 0)` as occupied. -/
theorem C25_counterexample :
    (demoMap1.storage_ 0).get (staggered (0, 0) 0) = some demoCell1 ∧
    sampleCount demoCell1 = 1 ∧
    occupancy demoExternals ⟨0, 0, 0⟩ ((demoMap1.storage_ 0).get (staggered (0, 0) 0)) = 1 / 2 ∧
    ¬ (occupancy demoExternals ⟨0, 0, 0⟩ ((demoMap1.storage_ 0).get (staggered (0, 0) 0)) = 0) ∧
    averageOccupancy demoExternals ⟨0, 0, 0⟩ demoMap1 (0, 0) = 1 / 2 ∧
    (occupied demoExternals ⟨0, 0, 0⟩ (1 / 2) demoMap1 (0, 0)).1 = true := by
  have ho : occupancy demoExternals ⟨0, 0, 0⟩ ((demoMap1.storage_ 0).get (staggered (0, 0) 0))
      = 1 / 2 := by
    rw [demoMap1_get]
    norm_num [occupancy, demoCell1, OccupancyDistribution.updateOccupied,
      OccupancyDistribution.zero, demoExternals, demoLogOdds_from]
  refine ⟨demoMap1_get 0, rfl, ho, ?_, demoMap1_averageOccupancy, ?_⟩
  · rw [ho]; norm_num
  · rw [occupied_fst _ _ _ _ demoMap1_reachable.valid, demoMap1_averageOccupancy]
    simp

/-- C25 (amended). In every reachable map state, in `getRange` a storey cell that was never
updated as occupied (occupied count 0: it has no statistics record), like a null handle,
contributes occupancy 0 to the four-cell average that is compared against the threshold; a
cell that was updated as occupied has a statistics record holding as many points as its
occupied count, and contributes the value the lambda computes from its counts `F`, `O` and
the inverse model, whatever the number of points, so also with fewer than 3. -/
theorem C25_occupancy_of_cell (E : Externals K) (m : OccupancyGridmap K) (hm : Reachable E m)
    (inverse_model : InverseModel K) (k : Fin 4) (j : index_t) (c : OccupancyDistribution K)
    (hc : (m.storage_ k).get j = some c) :
    (c.num_occupied_ = 0 → occupancy E inverse_model ((m.storage_ k).get j) = 0) ∧
    (0 < c.num_occupied_ →
      occupancy E inverse_model ((m.storage_ k).get j)
        = E.LogOdds_from ((c.num_free_ : K) * inverse_model.getLogOddsFree +
            (c.num_occupied_ : K) * inverse_model.getLogOddsOccupied)
          - inverse_model.getLogOddsPrior) ∧
    sampleCount c = c.num_occupied_ ∧
    (c.distribution_ = none ↔ c.num_occupied_ = 0) ∧
    occupancy E inverse_model none = 0 ∧
    (∀ (tau : K) (bi : index_t),
      (occupied E inverse_model tau m bi).1
        = decide (tau ≤ (1 / 4) *
            (occupancy E inverse_model ((m.storage_ 0).get (staggered bi 0)) +
             occupancy E inverse_model ((m.storage_ 1).get (staggered bi 1)) +
             occupancy E inverse_model ((m.storage_ 2).get (staggered bi 2)) +
             occupancy E inverse_model ((m.storage_ 3).get (staggered bi 3))))) := by
  obtain ⟨h1, h2⟩ := hm.cellConsistent k j c hc
  refine ⟨?_, ?_, h1, h2, rfl, fun tau bi => occupied_eq_decide E inverse_model tau m hm.valid bi⟩
  · intro h0
    rw [hc]
    simp only [occupancy, h2.mpr h0]
  · intro hpos
    rw [hc]
    cases hd : c.distribution_ with
    | none => exact absurd (h2.mp hd) (by omega)
    | some d => simp only [occupancy, hd]

/-- C25 (amended), evaluated on the map after a single `add(p, p)` at `(1/8, 1/8)` for the
storey-0 cell `(0, 0)`, which holds one point. -/
theorem C25_occupancy_of_cell_witness :
    Reachable demoExternals demoMap1 ∧
    (demoMap1.storage_ 0).get (staggered (0, 0) 0) = some demoCell1 ∧
    0 < demoCell1.num_occupied_ ∧
    occupancy demoExternals ⟨0, 0, 0⟩ ((demoMap1.storage_ 0).get (staggered (0, 0) 0))
      = demoExternals.LogOdds_from ((demoCell1.num_free_ : ℚ) * 0 +
          (demoCell1.num_occupied_ : ℚ) * 0) - 0 ∧
    sampleCount demoCell1 = demoCell1.num_occupied_ :=
  have h := C25_occupancy_of_cell demoExternals demoMap1 demoMap1_reachable ⟨0, 0, 0⟩ 0
    (staggered (0, 0) 0) demoCell1 (demoMap1_get 0)
  have hpos : 0 < demoCell1.num_occupied_ := by decide
  ⟨demoMap1_reachable, demoMap1_get 0, hpos, h.2.1 hpos, h.2.2.1⟩

/-! ## The bundle cache of the cost functor -/

theorem getRangeLoop_allocated_mono (E : Externals K) (inverse_model : InverseModel K) (tau : K)
    (start_p end_p : Point2d K) (it : List (Visit K)) (bj : index_t) :
    ∀ m : OccupancyGridmap K, Allocated m bj →
      Allocated (getRangeLoop E inverse_model tau start_p end_p it m).2 bj := by
  induction it with
  | nil => intro m h; exact h
  | cons v rest ih =>
    intro m h
    have h1 : Allocated (getAllocate m (v.x, v.y)).2 bj :=
      (getAllocate_allocated m _ bj).mpr (Or.inr h)
    simp only [getRangeLoop]
    split
    · exact h1
    · exact ih _ h1

theorem step_allocated_mono (E : Externals K) (m : OccupancyGridmap K) (op : Op K)
    (bj : index_t) (h : Allocated m bj) : Allocated (step E m op) bj := by
  cases op with
  | getDistributionBundle bi => exact (getAllocate_allocated m bi bj).mpr (Or.inr h)
  | add start_p end_p =>
    rw [step, add_eq, updateOccupied_allocated, addLoop_allocated]
    exact Or.inr (Or.inr h)
  | getRange start_p end_p inverse_model tau =>
    exact getRangeLoop_allocated_mono E inverse_model tau start_p end_p _ bj m h
  | sample p inverse_model => exact (getAllocate_allocated m _ bj).mpr (Or.inr h)
  | sampleAt p bi inverse_model => exact (getAllocate_allocated m _ bj).mpr (Or.inr h)
  | sampleNonNormalized p inverse_model => exact (getAllocate_allocated m _ bj).mpr (Or.inr h)
  | sampleNonNormalizedAt p bi inverse_model =>
    exact (getAllocate_allocated m _ bj).mpr (Or.inr h)

theorem get_of_allocated (m : OccupancyGridmap K) (bi : index_t) (h : Allocated m bi) :
    m.get bi = some bi := by
  unfold Allocated at h
  simp [OccupancyGridmap.get, h]

theorem get_eq_some_iff (m : OccupancyGridmap K) (bi b : index_t) :
    m.get bi = some b ↔ (b = bi ∧ Allocated m bi) := by
  unfold OccupancyGridmap.get Allocated
  split
  · rename_i h
    simp only [Option.some.injEq, h, and_true]
    exact eq_comm
  · rename_i h
    simp [h]

theorem get_step_of_some (E : Externals K) (m : OccupancyGridmap K) (op : Op K)
    (bi b : index_t) (h : m.get bi = some b) : (step E m op).get bi = some b := by
  rw [get_eq_some_iff] at h ⊢
  exact ⟨h.1, step_allocated_mono E m op bi h.2⟩

theorem toBundleIndex_of_consts (m1 m2 : OccupancyGridmap K) (h : consts m1 = consts m2)
    (p : Point2d K) : toBundleIndex m1 p = toBundleIndex m2 p := by
  simp only [consts, Prod.mk.injEq] at h
  simp only [toBundleIndex, h.2.2.2.1, h.2.2.2.2.2.2]

end OccupancyGridmap

namespace ScanMatchCostFunctor

variable {K : Type} [LinearOrderedField K] [FloorRing K]

theorem getBundle_fst (m : OccupancyGridmap K) (f : ScanMatchCostFunctor K) (pt : Point2d K) :
    (getBundle m f pt).1
      = match f.cache_ (m.toBundleIndex pt) with
        | some r => r
        | none => m.get (m.toBundleIndex pt) := by
  unfold getBundle
  cases h : f.cache_ (m.toBundleIndex pt) <;> simp [h]

theorem getBundle_cache (m : OccupancyGridmap K) (f : ScanMatchCostFunctor K) (pt : Point2d K)
    (bj : index_t) :
    (getBundle m f pt).2.cache_ bj
      = match f.cache_ bj with
        | some r => some r
        | none => if bj = m.toBundleIndex pt then some (m.get bj) else none := by
  unfold getBundle
  cases h : f.cache_ (m.toBundleIndex pt) with
  | some r =>
    simp only [h]
    cases hj : f.cache_ bj with
    | some r2 => rfl
    | none =>
      by_cases e : bj = m.toBundleIndex pt
      · rw [e, h] at hj
        exact absurd hj (by simp)
      · simp [e]
  | none =>
    simp only [h]
    by_cases e : bj = m.toBundleIndex pt
    · subst e
      simp [h]
    · simp only [if_neg e]
      cases hj : f.cache_ bj <;> rfl

theorem cacheSound_getBundle (m : OccupancyGridmap K) (f : ScanMatchCostFunctor K)
    (h : CacheSound m f) (pt : Point2d K) : CacheSound m (getBundle m f pt).2 := by
  intro bj r hr
  rw [getBundle_cache] at hr
  cases hj : f.cache_ bj with
  | some r2 =>
    simp only [hj, Option.some.injEq] at hr
    subst hr
    exact h bj r2 hj
  | none =>
    simp only [hj] at hr
    split at hr
    · simp only [Option.some.injEq] at hr
      exact Or.inr hr.symm
    · exact absurd hr (by simp)

theorem cacheExact_getBundle (m : OccupancyGridmap K) (f : ScanMatchCostFunctor K)
    (h : CacheExact m f) (pt : Point2d K) : CacheExact m (getBundle m f pt).2 := by
  intro bj r hr
  rw [getBundle_cache] at hr
  cases hj : f.cache_ bj with
  | some r2 =>
    simp only [hj, Option.some.injEq] at hr
    subst hr
    exact h bj r2 hj
  | none =>
    simp only [hj] at hr
    split at hr
    · simp only [Option.some.injEq] at hr
      exact hr.symm
    · exact absurd hr (by simp)

theorem cacheSound_step (E : Externals K) (m : OccupancyGridmap K) (f : ScanMatchCostFunctor K)
    (h : CacheSound m f) (op : Op K) : CacheSound (OccupancyGridmap.step E m op) f := by
  intro bj r hr
  rcases h bj r hr with h0 | h1
  · exact Or.inl h0
  · cases r with
    | none => exact Or.inl rfl
    | some b =>
      right
      exact (OccupancyGridmap.get_step_of_some E m op bj b h1.symm).symm

theorem cacheSound_runBoth (E : Externals K) (ops : List (FunctorOp K)) :
    ∀ s : OccupancyGridmap K × ScanMatchCostFunctor K, CacheSound s.1 s.2 →
      CacheSound (runBoth E s ops).1 (runBoth E s ops).2 := by
  induction ops with
  | nil => intro s h; exact h
  | cons op rest ih =>
    intro s h
    refine ih (stepBoth E s op) ?_
    cases op with
    | getBundle pt => exact cacheSound_getBundle s.1 s.2 h pt
    | map op => exact cacheSound_step E s.1 s.2 h op

theorem cacheExact_getBundles (E : Externals K) (pts : List (Point2d K)) :
    ∀ (m : OccupancyGridmap K) (f : ScanMatchCostFunctor K), CacheExact m f →
      (runBoth E (m, f) (pts.map FunctorOp.getBundle)).1 = m ∧
      CacheExact m (runBoth E (m, f) (pts.map FunctorOp.getBundle)).2 := by
  induction pts with
  | nil => intro m f h; exact ⟨rfl, h⟩
  | cons pt rest ih =>
    intro m f h
    exact ih m (getBundle m f pt).2 (cacheExact_getBundle m f h pt)

end ScanMatchCostFunctor

namespace OccupancyGridmap

variable {K : Type} [LinearOrderedField K] [FloorRing K]

/-- C30 fails as stated: a fresh functor on the fresh unit-resolution map calls
`getBundle((0, 0))`, which finds no bundle at index `(0, 0)` and caches the null pointer; the
map then allocates the bundle `(0, 0)` (`getDistributionBundle((0, 0))`); the next
`getBundle((0, 0))` still returns null, whereas `map.get` of the same index now returns the
bundle. -/
theorem C30_counterexample :
    demoStaleState.1.toBundleIndex ⟨0, 0⟩ = (0, 0) ∧
    (ScanMatchCostFunctor.getBundle demoStaleState.1 demoStaleState.2 ⟨0, 0⟩).1 = none ∧
    demoStaleState.1.get (0, 0) = some (0, 0) ∧
    ¬ ((ScanMatchCostFunctor.getBundle demoStaleState.1 demoStaleState.2 ⟨0, 0⟩).1
        = demoStaleState.1.get (demoStaleState.1.toBundleIndex ⟨0, 0⟩)) := by
  have hidx : ∀ m : OccupancyGridmap ℚ, consts m = consts demoMap →
      m.toBundleIndex ⟨0, 0⟩ = (0, 0) := by
    intro m hc
    rw [toBundleIndex_of_consts m demoMap hc, demo_toBundleIndex]
    norm_num
  have h0 := hidx demoMap rfl
  have hs : demoStaleState
      = ((getDistributionBundle demoMap (0, 0)).2,
         (ScanMatchCostFunctor.getBundle demoMap demoFunctor ⟨0, 0⟩).2) := rfl
  have h1 : (getDistributionBundle demoMap (0, 0)).2.toBundleIndex ⟨0, 0⟩ = (0, 0) :=
    hidx _ (getAllocate_consts demoMap (0, 0))
  have hg : (ScanMatchCostFunctor.getBundle (getDistributionBundle demoMap (0, 0)).2
      (ScanMatchCostFunctor.getBundle demoMap demoFunctor ⟨0, 0⟩).2 ⟨0, 0⟩).1 = none := by
    rw [ScanMatchCostFunctor.getBundle_fst, ScanMatchCostFunctor.getBundle_cache, h1, h0]
    simp [demoFunctor, OccupancyGridmap.get, demoMap, new, Storage.get]
  have hget : (getDistributionBundle demoMap (0, 0)).2.get (0, 0) = some (0, 0) := by decide
  rw [hs]
  refine ⟨h1, hg, hget, ?_⟩
  rw [hg, h1, hget]
  simp

/-- C30 (amended). For every sequence of `getBundle` calls and public map calls that starts
with an empty cache, and every point `pt`: a non-null pointer returned by `getBundle(pt)` is
the pointer `map.get(toBundleIndex(pt))` returns at the time of the call, and a null pointer
is returned either because `map.get` returns null or because a null result for that index was
cached earlier; without a cache entry for the index the result is that of `map.get`.  While
the map is not modified between the calls (any sequence of `getBundle` calls on one map) the
cache is transparent: `getBundle(pt)` returns what `map.get(toBundleIndex(pt))` returns. -/
theorem C30_cache_lookup (E : Externals K) (m0 : OccupancyGridmap K)
    (ivm : InverseModel K) (ops : List (FunctorOp K)) (pt : Point2d K) :
    ((ScanMatchCostFunctor.getBundle
          (ScanMatchCostFunctor.runBoth E (m0, ⟨ivm, fun _ => none⟩) ops).1
          (ScanMatchCostFunctor.runBoth E (m0, ⟨ivm, fun _ => none⟩) ops).2 pt).1
        = (ScanMatchCostFunctor.runBoth E (m0, ⟨ivm, fun _ => none⟩) ops).1.get
            ((ScanMatchCostFunctor.runBoth E (m0, ⟨ivm, fun _ => none⟩) ops).1.toBundleIndex pt) ∨
      ((ScanMatchCostFunctor.getBundle
          (ScanMatchCostFunctor.runBoth E (m0, ⟨ivm, fun _ => none⟩) ops).1
          (ScanMatchCostFunctor.runBoth E (m0, ⟨ivm, fun _ => none⟩) ops).2 pt).1 = none ∧
       (ScanMatchCostFunctor.runBoth E (m0, ⟨ivm, fun _ => none⟩) ops).2.cache_
          ((ScanMatchCostFunctor.runBoth E (m0, ⟨ivm, fun _ => none⟩) ops).1.toBundleIndex pt)
        = some none)) ∧
    ((ScanMatchCostFunctor.runBoth E (m0, ⟨ivm, fun _ => none⟩) ops).2.cache_
          ((ScanMatchCostFunctor.runBoth E (m0, ⟨ivm, fun _ => none⟩) ops).1.toBundleIndex pt)
        = none →
      (ScanMatchCostFunctor.getBundle
          (ScanMatchCostFunctor.runBoth E (m0, ⟨ivm, fun _ => none⟩) ops).1
          (ScanMatchCostFunctor.runBoth E (m0, ⟨ivm, fun _ => none⟩) ops).2 pt).1
        = (ScanMatchCostFunctor.runBoth E (m0, ⟨ivm, fun _ => none⟩) ops).1.get
            ((ScanMatchCostFunctor.runBoth E (m0, ⟨ivm, fun _ => none⟩) ops).1.toBundleIndex
              pt)) ∧
    (∀ pts : List (Point2d K),
      (ScanMatchCostFunctor.runBoth E (m0, ⟨ivm, fun _ => none⟩)
          (pts.map FunctorOp.getBundle)).1 = m0 ∧
      (ScanMatchCostFunctor.getBundle m0
          (ScanMatchCostFunctor.runBoth E (m0, ⟨ivm, fun _ => none⟩)
            (pts.map FunctorOp.getBundle)).2 pt).1
        = m0.get (m0.toBundleIndex pt)) := by
  have hsound := ScanMatchCostFunctor.cacheSound_runBoth E ops (m0, ⟨ivm, fun _ => none⟩)
    (by intro bi r hr; simp at hr)
  refine ⟨?_, ?_, ?_⟩
  · rw [ScanMatchCostFunctor.getBundle_fst]
    cases hc : (ScanMatchCostFunctor.runBoth E (m0, ⟨ivm, fun _ => none⟩) ops).2.cache_
        ((ScanMatchCostFunctor.runBoth E (m0, ⟨ivm, fun _ => none⟩) ops).1.toBundleIndex pt) with
    | none => exact Or.inl rfl
    | some r =>
      rcases hsound _ r hc with h | h
      · right
        subst h
        exact ⟨rfl, rfl⟩
      · exact Or.inl h
  · intro hc
    rw [ScanMatchCostFunctor.getBundle_fst, hc]
  · intro pts
    have hex := ScanMatchCostFunctor.cacheExact_getBundles E pts m0 ⟨ivm, fun _ => none⟩
      (by intro bi r hr; simp at hr)
    refine ⟨hex.1, ?_⟩
    rw [ScanMatchCostFunctor.getBundle_fst]
    cases hc : (ScanMatchCostFunctor.runBoth E (m0, ⟨ivm, fun _ => none⟩)
        (pts.map FunctorOp.getBundle)).2.cache_ (m0.toBundleIndex pt) with
    | none => rfl
    | some r => exact hex.2 _ r hc

/-! ## The INTERPOLATION functor at grid nodes -/

theorem mixtureTerm_get_getAllocate (g : Distribution K → Point2d K → K) (E : Externals K)
    (inverse_model : InverseModel K) (p : Point2d K) (m : OccupancyGridmap K)
    (hm : BundlesValid m) (bi : index_t) (k : Fin 4) (j : index_t) :
    mixtureTerm g E inverse_model p (((getAllocate m bi).2.storage_ k).get j)
      = mixtureTerm g E inverse_model p ((m.storage_ k).get j) := by
  simp only [Storage.get, getAllocate_storage m hm]
  split
  · exact mixtureTerm_getD g E inverse_model p _
  · rfl

theorem sampleNonNormalized_getAllocate (E : Externals K) (m : OccupancyGridmap K)
    (hm : BundlesValid m) (bi : index_t) (p : Point2d K) (inverse_model : InverseModel K) :
    (sampleNonNormalized E (getAllocate m bi).2 p inverse_model).1
      = (sampleNonNormalized E m p inverse_model).1 := by
  have hi : toBundleIndex (getAllocate m bi).2 p = toBundleIndex m p :=
    toBundleIndex_of_consts _ _ (getAllocate_consts m bi) p
  simp only [sampleNonNormalized, hi,
    sampleNonNormalizedAt_fst E _ (getAllocate_valid m hm bi),
    sampleNonNormalizedAt_fst E m hm, mixtureTerm_get_getAllocate _ E _ _ m hm]

theorem getAllocateDistribution_accesses_cases (s : Storage (OccupancyDistribution K))
    (k : Fin 4) (i : index_t) :
    getAllocateDistribution_accesses s k i
        = [Access.lock Mutex.storage_mutex_, Access.storage_get k i,
            Access.unlock Mutex.storage_mutex_] ∨
    getAllocateDistribution_accesses s k i
        = [Access.lock Mutex.storage_mutex_, Access.storage_get k i, Access.storage_insert k i,
            Access.unlock Mutex.storage_mutex_] := by
  unfold getAllocateDistribution_accesses
  cases s.get i
  · exact Or.inr rfl
  · exact Or.inl rfl

theorem heldAt_append (mu : Mutex) (l1 l2 : List Access) :
    ∀ held : Bool, heldAt mu held (l1 ++ l2)
      = heldAt mu held l1 ++ heldAt mu (l1.foldl (heldAfter mu) held) l2 := by
  induction l1 with
  | nil => intro held; rfl
  | cons a rest ih =>
    intro held
    show (a, held) :: heldAt mu (heldAfter mu held a) (rest ++ l2) = _
    rw [ih]
    rfl

theorem storey_accesses_bundle_mutex (s : Storage (OccupancyDistribution K)) (k : Fin 4)
    (i : index_t) (held : Bool) :
    (getAllocateDistribution_accesses s k i).foldl (heldAfter Mutex.bundle_storage_mutex_) held
      = held ∧
    ∀ x ∈ heldAt Mutex.bundle_storage_mutex_ held (getAllocateDistribution_accesses s k i),
      x.1.isBundleAccess = false := by
  rcases getAllocateDistribution_accesses_cases s k i with h | h <;> rw [h] <;>
    simp [heldAt, heldAfter, Access.isBundleAccess]

theorem storey_accesses_storage_mutex (s : Storage (OccupancyDistribution K)) (k : Fin 4)
    (i : index_t) (held : Bool) :
    (getAllocateDistribution_accesses s k i).foldl (heldAfter Mutex.storage_mutex_) held
      = false ∧
    ∀ x ∈ heldAt Mutex.storage_mutex_ held (getAllocateDistribution_accesses s k i),
      x.1.isStoreyAccess = true → x.2 = true := by
  rcases getAllocateDistribution_accesses_cases s k i with h | h <;> rw [h] <;>
    simp [heldAt, heldAfter, Access.isStoreyAccess]

theorem unnamedLock_bundle_mutex (r : UnnamedLock) :
    (unnamedLock r Mutex.bundle_storage_mutex_).foldl (heldAfter Mutex.bundle_storage_mutex_)
      false = false ∧
    ∀ held, ∀ x ∈ heldAt Mutex.bundle_storage_mutex_ held
        (unnamedLock r Mutex.bundle_storage_mutex_), x.1.isBundleAccess = false := by
  cases r <;> simp [unnamedLock, heldAt, heldAfter, Access.isBundleAccess]

theorem unnamedLock_storage_mutex (r : UnnamedLock) (held : Bool) :
    (unnamedLock r Mutex.bundle_storage_mutex_).foldl (heldAfter Mutex.storage_mutex_) held
      = held ∧
    ∀ x ∈ heldAt Mutex.storage_mutex_ held (unnamedLock r Mutex.bundle_storage_mutex_),
      x.1.isStoreyAccess = false := by
  cases r <;> simp [unnamedLock, heldAt, heldAfter, Access.isStoreyAccess]

theorem allocate_bundle_bundle_mutex (r : UnnamedLock) (m : OccupancyGridmap K) (bi : index_t) :
    heldAt Mutex.bundle_storage_mutex_ false (allocate_bundle_accesses r m bi)
      = heldAt Mutex.bundle_storage_mutex_ false
          (getAllocateDistribution_accesses (m.storage_ 0) 0 (staggered bi 0)) ++
        heldAt Mutex.bundle_storage_mutex_ false
          (getAllocateDistribution_accesses (m.storage_ 1) 1 (staggered bi 1)) ++
        heldAt Mutex.bundle_storage_mutex_ false
          (getAllocateDistribution_accesses (m.storage_ 2) 2 (staggered bi 2)) ++
        heldAt Mutex.bundle_storage_mutex_ false
          (getAllocateDistribution_accesses (m.storage_ 3) 3 (staggered bi 3)) ++
        heldAt Mutex.bundle_storage_mutex_ false (unnamedLock r Mutex.bundle_storage_mutex_) ++
        [(Access.updateIndices bi, false), (Access.bundle_storage_insert bi, false)] := by
  have e : allocate_bundle_accesses r m bi
      = getAllocateDistribution_accesses (m.storage_ 0) 0 (staggered bi 0) ++
        getAllocateDistribution_accesses (m.storage_ 1) 1 (staggered bi 1) ++
        getAllocateDistribution_accesses (m.storage_ 2) 2 (staggered bi 2) ++
        getAllocateDistribution_accesses (m.storage_ 3) 3 (staggered bi 3) ++
        unnamedLock r Mutex.bundle_storage_mutex_ ++
        [Access.updateIndices bi, Access.bundle_storage_insert bi] := rfl
  rw [e]
  simp only [heldAt_append, List.foldl_append, (storey_accesses_bundle_mutex _ _ _ _).1,
    (unnamedLock_bundle_mutex r).1]
  rfl

theorem allocate_bundle_storage_mutex (r : UnnamedLock) (m : OccupancyGridmap K) (bi : index_t)
    (held : Bool) :
    heldAt Mutex.storage_mutex_ held (allocate_bundle_accesses r m bi)
      = heldAt Mutex.storage_mutex_ held
          (getAllocateDistribution_accesses (m.storage_ 0) 0 (staggered bi 0)) ++
        heldAt Mutex.storage_mutex_ false
          (getAllocateDistribution_accesses (m.storage_ 1) 1 (staggered bi 1)) ++
        heldAt Mutex.storage_mutex_ false
          (getAllocateDistribution_accesses (m.storage_ 2) 2 (staggered bi 2)) ++
        heldAt Mutex.storage_mutex_ false
          (getAllocateDistribution_accesses (m.storage_ 3) 3 (staggered bi 3)) ++
        heldAt Mutex.storage_mutex_ false (unnamedLock r Mutex.bundle_storage_mutex_) ++
        [(Access.updateIndices bi, false), (Access.bundle_storage_insert bi, false)] := by
  have e : allocate_bundle_accesses r m bi
      = getAllocateDistribution_accesses (m.storage_ 0) 0 (staggered bi 0) ++
        getAllocateDistribution_accesses (m.storage_ 1) 1 (staggered bi 1) ++
        getAllocateDistribution_accesses (m.storage_ 2) 2 (staggered bi 2) ++
        getAllocateDistribution_accesses (m.storage_ 3) 3 (staggered bi 3) ++
        unnamedLock r Mutex.bundle_storage_mutex_ ++
        [Access.updateIndices bi, Access.bundle_storage_insert bi] := rfl
  rw [e]
  simp only [heldAt_append, List.foldl_append, (storey_accesses_storage_mutex _ _ _ _).1,
    (unnamedLock_storage_mutex r _).1]
  rfl

/-- C21 fails on the code.  For every map state and bundle index, under either reading of the
statement `lock_t(bundle_storage_mutex_);`, the run of `getAllocate(bi)` performs the lookup
`bundle_storage_->get(bi)` while the bundle mutex is not held, and so every access to the
bundle cache and every widening of the extent, in particular, when the bundle is missing,
`updateIndices(bi)` and `bundle_storage_->insert(bi, b)`; each cell lookup and insertion in a
storey does run while the storey mutex is held.  `getMinDistributionIndex()` and
`getMaxDistributionIndex()` read the extent while holding the storey mutex, not the bundle
mutex, whereas `getMin()` and `getMax()` bind the lock to a name and read it while holding
the bundle mutex. -/
theorem C21_bundle_lookup_unlocked (r : UnnamedLock) (m : OccupancyGridmap K) (bi : index_t) :
    (Access.bundle_storage_get bi, false)
      ∈ heldAt Mutex.bundle_storage_mutex_ false (getAllocate_accesses r m bi) ∧
    (∀ x ∈ heldAt Mutex.bundle_storage_mutex_ false (getAllocate_accesses r m bi),
      x.1.isBundleAccess = true → x.2 = false) ∧
    (m.bundle_storage_.get bi = none →
      (Access.updateIndices bi, false)
        ∈ heldAt Mutex.bundle_storage_mutex_ false (getAllocate_accesses r m bi) ∧
      (Access.bundle_storage_insert bi, false)
        ∈ heldAt Mutex.bundle_storage_mutex_ false (getAllocate_accesses r m bi)) ∧
    (∀ x ∈ heldAt Mutex.storage_mutex_ false (getAllocate_accesses r m bi),
      x.1.isStoreyAccess = true → x.2 = true) ∧
    (Access.read_min_index, false)
      ∈ heldAt Mutex.bundle_storage_mutex_ false getMinDistributionIndex_accesses ∧
    (Access.read_max_index, false)
      ∈ heldAt Mutex.bundle_storage_mutex_ false getMaxDistributionIndex_accesses ∧
    (Access.read_min_index, true) ∈ heldAt Mutex.bundle_storage_mutex_ false getMin_accesses ∧
    (Access.read_max_index, true) ∈ heldAt Mutex.bundle_storage_mutex_ false getMax_accesses := by
  have hget : heldAt Mutex.bundle_storage_mutex_ false (getAllocate_accesses r m bi)
      = heldAt Mutex.bundle_storage_mutex_ false (unnamedLock r Mutex.bundle_storage_mutex_) ++
        (Access.bundle_storage_get bi, false) ::
        heldAt Mutex.bundle_storage_mutex_ false
          (match m.bundle_storage_.get bi with
           | some _ => []
           | none => allocate_bundle_accesses r m bi) := by
    simp only [getAllocate_accesses, heldAt_append, List.foldl_append,
      (unnamedLock_bundle_mutex r).1]
    simp [heldAt, heldAfter]
  refine ⟨?_, ?_, ?_, ?_, by decide, by decide, by decide, by decide⟩
  · rw [hget]
    simp
  · rw [hget]
    intro x hx hP
    simp only [List.mem_append, List.mem_cons] at hx
    rcases hx with hx | hx | hx
    · rw [(unnamedLock_bundle_mutex r).2 false x hx] at hP
      exact absurd hP (by simp)
    · rw [hx]
    · cases hb : m.bundle_storage_.get bi with
      | some b =>
        rw [hb] at hx
        simp [heldAt] at hx
      | none =>
        rw [hb] at hx
        simp only [allocate_bundle_bundle_mutex, List.mem_append, List.mem_cons,
          List.mem_singleton, List.not_mem_nil, or_false] at hx
        rcases hx with ((((hx | hx) | hx) | hx) | hx) | hx | hx
        · rw [(storey_accesses_bundle_mutex _ _ _ _).2 x hx] at hP
          exact absurd hP (by simp)
        · rw [(storey_accesses_bundle_mutex _ _ _ _).2 x hx] at hP
          exact absurd hP (by simp)
        · rw [(storey_accesses_bundle_mutex _ _ _ _).2 x hx] at hP
          exact absurd hP (by simp)
        · rw [(storey_accesses_bundle_mutex _ _ _ _).2 x hx] at hP
          exact absurd hP (by simp)
        · rw [(unnamedLock_bundle_mutex r).2 false x hx] at hP
          exact absurd hP (by simp)
        · rw [hx]
        · rw [hx]
  · intro hb
    rw [hget, hb]
    simp only [allocate_bundle_bundle_mutex]
    simp
  · have hs : heldAt Mutex.storage_mutex_ false (getAllocate_accesses r m bi)
        = heldAt Mutex.storage_mutex_ false (unnamedLock r Mutex.bundle_storage_mutex_) ++
          (Access.bundle_storage_get bi, false) ::
          heldAt Mutex.storage_mutex_ false
            (match m.bundle_storage_.get bi with
             | some _ => []
             | none => allocate_bundle_accesses r m bi) := by
      simp only [getAllocate_accesses, heldAt_append, List.foldl_append,
        (unnamedLock_storage_mutex r _).1]
      simp [heldAt, heldAfter]
    rw [hs]
    intro x hx hP
    simp only [List.mem_append, List.mem_cons] at hx
    rcases hx with hx | hx | hx
    · rw [(unnamedLock_storage_mutex r false).2 x hx] at hP
      exact absurd hP (by simp)
    · rw [hx] at hP
      exact absurd hP (by simp [Access.isStoreyAccess])
    · cases hb : m.bundle_storage_.get bi with
      | some b =>
        rw [hb] at hx
        simp [heldAt] at hx
      | none =>
        rw [hb] at hx
        have e := allocate_bundle_storage_mutex r m bi false
        simp only [e, List.mem_append, List.mem_cons, List.mem_singleton, List.not_mem_nil,
          or_false] at hx
        rcases hx with ((((hx | hx) | hx) | hx) | hx) | hx | hx
        · exact (storey_accesses_storage_mutex _ _ _ _).2 x hx hP
        · exact (storey_accesses_storage_mutex _ _ _ _).2 x hx hP
        · exact (storey_accesses_storage_mutex _ _ _ _).2 x hx hP
        · exact (storey_accesses_storage_mutex _ _ _ _).2 x hx hP
        · rw [(unnamedLock_storage_mutex r false).2 x hx] at hP
          exact absurd hP (by simp)
        · rw [hx] at hP
          exact absurd hP (by simp [Access.isStoreyAccess])
        · rw [hx] at hP
          exact absurd hP (by simp [Access.isStoreyAccess])

/-! ## Round trip through the persisted form -/

theorem toCell_ofCell (c : OccupancyDistribution K) (h : CellConsistent c) :
    (CellRecord.ofCell c).toCell = c := by
  obtain ⟨h1, h2⟩ := h
  cases c with
  | mk F O dist =>
    cases dist with
    | none => simp [CellRecord.ofCell, CellRecord.toCell]
    | some d =>
      have hO : O ≠ 0 := fun h0 => by
        have := h2.mpr h0
        simp at this
      have hn : d.n ≠ 0 := by
        simp only [sampleCount] at h1
        omega
      simp [CellRecord.ofCell, CellRecord.toCell, hn]

theorem deserialize_serialize (E : Externals K) (m : OccupancyGridmap K) (hm : Reachable E m) :
    deserialize (serialize m) = { m with bundle_storage_ := fun _ => none } := by
  obtain ⟨origin, resolution, hc⟩ := hm.consts_eq
  have hcell := hm.cellConsistent
  simp only [consts, Prod.mk.injEq] at hc
  obtain ⟨c1, c2, c3, c4, c5, c6, c7⟩ := hc
  have hs : (fun (k : Fin 4) (j : index_t) =>
      (((m.storage_ k).get j).map CellRecord.ofCell).map CellRecord.toCell) = m.storage_ := by
    funext k j
    cases hg : (m.storage_ k).get j with
    | none => simpa [Storage.get] using hg.symm
    | some c =>
      simp only [Option.map_some']
      rw [toCell_ofCell c (hcell k j c hg)]
      exact hg.symm
  have c1n : (new origin resolution).resolution_ = resolution := rfl
  have c6n : (new origin resolution).w_T_m_ = origin := rfl
  rw [c1n] at c1
  rw [c6n] at c6
  simp only [deserialize, serialize, getResolution, getInitialOrigin, getMinDistributionIndex,
    getMaxDistributionIndex, hs, c1, c6]
  cases m
  simp only [new] at *
  simp only [c1, c2, c3, c4, c5, c6, c7]

theorem deref_getDistributionBundle (m : OccupancyGridmap K) (hm : BundlesValid m)
    (bi : index_t) (k : Fin 4) :
    deref (getDistributionBundle m bi).2 k ((getDistributionBundle m bi).1 k)
      = some (cellOf m k (staggered bi k)) := by
  simp only [getDistributionBundle, getAllocate_fst m hm, deref, Storage.get,
    getAllocate_storage m hm, if_true, cellOf]

/-- C22. Serialization round trip, for the persisted form the spec describes and exact
arithmetic.  For every reachable map `m`, the map `deserialize(serialize(m))` is `m` with an
empty bundle cache: it has the same resolution, bundle resolution, width, height, origin,
initial origin, min and max distribution index and upper corner, and for every bundle index
`bi`, each of the four cells that `getDistributionBundle(bi)` hands out on it is equal to the
cell `getDistributionBundle(bi)` hands out on `m`: the same `N`, `F`, `O` and the same sums,
hence the same value of every quantity derived from them (mean, correlated sum, covariance,
information matrix). -/
theorem C22_serialization_round_trip (E : Externals K) (m : OccupancyGridmap K)
    (hm : Reachable E m) :
    deserialize (serialize m) = { m with bundle_storage_ := fun _ => none } ∧
    (deserialize (serialize m)).getResolution = m.getResolution ∧
    (deserialize (serialize m)).getBundleResolution = m.getBundleResolution ∧
    getWidth (deserialize (serialize m)) = getWidth m ∧
    getHeight (deserialize (serialize m)) = getHeight m ∧
    getOrigin (deserialize (serialize m)) = getOrigin m ∧
    getInitialOrigin (deserialize (serialize m)) = getInitialOrigin m ∧
    getMinDistributionIndex (deserialize (serialize m)) = getMinDistributionIndex m ∧
    getMaxDistributionIndex (deserialize (serialize m)) = getMaxDistributionIndex m ∧
    getMax (deserialize (serialize m)) = getMax m ∧
    (∀ (bi : index_t) (k : Fin 4),
      deref (getDistributionBundle (deserialize (serialize m)) bi).2 k
          ((getDistributionBundle (deserialize (serialize m)) bi).1 k)
        = deref (getDistributionBundle m bi).2 k ((getDistributionBundle m bi).1 k)) ∧
    (∀ (bi : index_t) (k : Fin 4) (c c2 : OccupancyDistribution K),
      deref (getDistributionBundle m bi).2 k ((getDistributionBundle m bi).1 k) = some c →
      deref (getDistributionBundle (deserialize (serialize m)) bi).2 k
          ((getDistributionBundle (deserialize (serialize m)) bi).1 k) = some c2 →
      sampleCount c2 = sampleCount c ∧ c2.num_free_ = c.num_free_ ∧
      c2.num_occupied_ = c.num_occupied_ ∧ c2.distribution_ = c.distribution_ ∧
      ∀ (X : CostExternals K) (d d2 : Distribution K), c.distribution_ = some d →
        c2.distribution_ = some d2 →
        X.getMean d2 = X.getMean d ∧ X.getInformationMatrix d2 = X.getInformationMatrix d ∧
        d2.n = d.n ∧ d2.sum = d.sum ∧ d2.cxx = d.cxx ∧ d2.cxy = d.cxy ∧ d2.cyx = d.cyx ∧
        d2.cyy = d.cyy) := by
  have hrt := deserialize_serialize E m hm
  have hv := hm.valid
  have hv2 : BundlesValid ({ m with bundle_storage_ := fun _ => none } : OccupancyGridmap K) := by
    intro bi b hb
    simp [Storage.get] at hb
  have hcells : ∀ (bi : index_t) (k : Fin 4),
      deref (getDistributionBundle (deserialize (serialize m)) bi).2 k
          ((getDistributionBundle (deserialize (serialize m)) bi).1 k)
        = deref (getDistributionBundle m bi).2 k ((getDistributionBundle m bi).1 k) := by
    intro bi k
    rw [hrt, deref_getDistributionBundle _ hv2, deref_getDistributionBundle m hv]
    rfl
  refine ⟨hrt, ?_, ?_, ?_, ?_, ?_, ?_, ?_, ?_, ?_, hcells, ?_⟩
  · rw [hrt]; rfl
  · rw [hrt]; rfl
  · rw [hrt]; rfl
  · rw [hrt]; rfl
  · rw [hrt]; rfl
  · rw [hrt]; rfl
  · rw [hrt]; rfl
  · rw [hrt]; rfl
  · rw [hrt]; rfl
  · intro bi k c c2 hc hc2
    rw [hcells bi k, hc, Option.some.injEq] at hc2
    subst hc2
    refine ⟨rfl, rfl, rfl, rfl, ?_⟩
    intro X d d2 hd hd2
    rw [hd, Option.some.injEq] at hd2
    subst hd2
    exact ⟨rfl, rfl, rfl, rfl, rfl, rfl, rfl, rfl⟩

/-- C22, evaluated on the map holding three points in bundle `(0, 0)`: after the round trip
the storey-0 cell of bundle `(0, 0)` is again the cell with the three points. -/
theorem C22_serialization_round_trip_witness :
    Reachable demoExternals demoMap3 ∧
    deserialize (serialize demoMap3) = { demoMap3 with bundle_storage_ := fun _ => none } ∧
    deref (getDistributionBundle (deserialize (serialize demoMap3)) (0, 0)).2 0
        ((getDistributionBundle (deserialize (serialize demoMap3)) (0, 0)).1 0)
      = some demoCell3 :=
  have h := C22_serialization_round_trip demoExternals demoMap3 demoMap3_reachable
  have hc : deref (getDistributionBundle demoMap3 (0, 0)).2 0
      ((getDistributionBundle demoMap3 (0, 0)).1 0) = some demoCell3 := by
    rw [deref_getDistributionBundle demoMap3 demoMap3_reachable.valid, cellOf, demoMap3_get 0]
    rfl
  ⟨demoMap3_reachable, h.1, (h.2.2.2.2.2.2.2.2.2.2.1 (0, 0) 0).trans hc⟩

end OccupancyGridmap

end cslibs_ndt_2d
